import Mathlib

/-!
# cpphttp: incremental HTTP message parser (`source/Parser.cpp`)

A shallow embedding of `Parser<IMPL, Message>` and of `ResponseParser`.  Bytes
(`uint8_t`, `char`) are natural numbers, byte strings are lists of them, `size_t`
values are natural numbers taken modulo `SIZE`.  Exceptions and failed assertions
are explicit results of `read`; a call that never leaves its loop uses up every
amount of fuel.
-/

namespace http

/-! ## Machine integers and the C++ standard library -/

/-- Number of values of `size_t` and of `unsigned long` (LP64). -/
def SIZE : Nat := 18446744073709551616

/-- The constant `std::string::npos`, which is `(size_t)-1`. -/
def npos : Nat := SIZE - 1

/-- Byte string of a string literal (used to write inputs readably). -/
def bytes (s : String) : List Nat := s.toList.map Char.toNat

/-- C++ exceptions that leave `read`. -/
inductive Exn where
  | invalid_argument
  | out_of_range
  | runtime_error
  | url_error
  | parse_error
  deriving DecidableEq, Repr

deriving instance DecidableEq for Except

/-- Index of the first element satisfying `p`. -/
def indexWhere (p : Nat → Bool) : List Nat → Option Nat
  | [] => none
  | x :: xs => if p x then some 0 else (indexWhere p xs).map (· + 1)

/-- The call `memchr(s, c, n)`: offset of the first `c` among the first `n` bytes of `s`. -/
def memchr (s : List Nat) (c n : Nat) : Option Nat :=
  indexWhere (fun x => x == c) (s.take n)

/-- The call `s.find(c, pos)` of `std::string`. -/
def str_find (s : List Nat) (c pos : Nat) : Nat :=
  match indexWhere (fun x => x == c) (s.drop pos) with
  | some i => pos + i
  | none => npos

/-- The call `s.find_first_not_of(c, pos)` of `std::string`. -/
def str_find_first_not_of (s : List Nat) (c pos : Nat) : Nat :=
  match indexWhere (fun x => x != c) (s.drop pos) with
  | some i => pos + i
  | none => npos

/-- The call `s.substr(pos, count)` of `std::string`; throws `std::out_of_range`
when `pos > s.size()`. -/
def substr (s : List Nat) (pos count : Nat) : Except Exn (List Nat) :=
  if pos > s.length then .error .out_of_range else .ok ((s.drop pos).take count)

/-- The C function `isspace` in the "C" locale. -/
def isspace (c : Nat) : Bool := c == 32 || (9 ≤ c && c ≤ 13)

/-- Value of byte `c` read as a digit of base `base` (at most 36), as `strtoul` does. -/
def digitVal (base c : Nat) : Option Nat :=
  let v : Option Nat :=
    if 48 ≤ c ∧ c ≤ 57 then some (c - 48)
    else if 97 ≤ c ∧ c ≤ 122 then some (c - 87)
    else if 65 ≤ c ∧ c ≤ 90 then some (c - 55)
    else none
  v.filter (fun d => d < base)

/-- Skips the leading white space, as `strtoul` and `strtol` do. -/
def skipSpace (s : List Nat) : List Nat := s.dropWhile isspace

/-- Splits off an optional sign: the flag tells whether it was a minus. -/
def takeSign : List Nat → Bool × List Nat
  | 45 :: r => (true, r)
  | 43 :: r => (false, r)
  | s => (false, s)

/-- Skips a `0x` or `0X` prefix in base 16 when a hexadecimal digit follows it. -/
def skipHexPrefix (base : Nat) : List Nat → List Nat
  | 48 :: x :: d :: r =>
    if base = 16 ∧ (x = 120 ∨ x = 88) ∧ (digitVal 16 d).isSome then d :: r else 48 :: x :: d :: r
  | s => s

/-- Reads the maximal leading run of digits: its value (from accumulator `acc`)
and the number of digits read. -/
def readDigits (base : Nat) : List Nat → Nat → Nat → Nat × Nat
  | [], acc, n => (acc, n)
  | c :: r, acc, n =>
    match digitVal base c with
    | some d => readDigits base r (acc * base + d) (n + 1)
    | none => (acc, n)

/-- The call `std::stoul(s, nullptr, base)`: `strtoul` semantics, throwing
`std::invalid_argument` when no digit is read and `std::out_of_range` on overflow. -/
def stoul (s : List Nat) (base : Nat) : Except Exn Nat :=
  let (neg, r) := takeSign (skipSpace s)
  let (v, n) := readDigits base (skipHexPrefix base r) 0 0
  if n = 0 then .error .invalid_argument
  else if v ≥ SIZE then .error .out_of_range
  else .ok (if neg then (SIZE - v) % SIZE else v)

/-- The call `std::stoi(s)`: `strtol` semantics in base 10 with the range of `int`. -/
def stoi (s : List Nat) : Except Exn Int :=
  let (neg, r) := takeSign (skipSpace s)
  let (v, n) := readDigits 10 r 0 0
  if n = 0 then .error .invalid_argument
  else if neg then (if v > 2147483648 then .error .out_of_range else .ok (-(v : Int)))
  else (if v > 2147483647 then .error .out_of_range else .ok (v : Int))

/-! ## Header container -/

/-- Modelled from the spec: the header container `Headers` (declared in a header
file that is not among the sources) is an ordered multimap from header name to
value with case-insensitive lookup. -/
abbrev Headers := List (List Nat × List Nat)

/-- Modelled from the spec: ASCII lower-casing used by the case-insensitive lookup. -/
def toLower (c : Nat) : Nat := if 65 ≤ c ∧ c ≤ 90 then c + 32 else c

/-- Modelled from the spec: case-insensitive equality of header names. -/
def nameEq (a b : List Nat) : Bool := a.map toLower == b.map toLower

/-- Modelled from the spec: `headers.add(name, value)` appends an entry. -/
def Headers.add (h : Headers) (name value : List Nat) : Headers := h ++ [(name, value)]

/-- Modelled from the spec: `headers.find(name)` is the first entry with that name,
compared case-insensitively (`none` stands for `headers.end()`). -/
def Headers.find (h : Headers) (name : List Nat) : Option (List Nat × List Nat) :=
  List.find? (fun e => nameEq e.1 name) h

/-- Modelled from the spec: `headers.get(name)` is the value of the entry found, if any. -/
def Headers.get (h : Headers) (name : List Nat) : Option (List Nat) :=
  (Headers.find h name).map (fun e => e.2)

/-! ## Parser state -/

/-- The values of `parser_status`. -/
inductive ParserStatus where
  | NOT_STARTED
  | READING_HEADERS
  | READING_BODY
  | READING_BODY_CHUNKED_LENGTH
  | READING_BODY_CHUNKED
  | READING_BODY_CHUNKED_TERMINATOR
  | READING_TRAILER_HEADERS
  | COMPLETED
  deriving DecidableEq, Repr

open ParserStatus

/-- A message: the first-line fields `F` of the request or response, the headers and the body. -/
structure Message (F : Type) where
  first : F
  headers : Headers
  body : List Nat
  deriving DecidableEq, Repr

/-- The data members of `Parser<IMPL, Message>`. -/
structure Parser (F : Type) where
  parser_status : ParserStatus
  message : Message F
  expected_body_len : Nat
  buffer : List Nat
  deriving DecidableEq, Repr

/-- The method `is_completed()`. -/
def Parser.is_completed {F : Type} (s : Parser F) : Bool := s.parser_status == COMPLETED

/-- The method `Parser::reset`: the first-line fields of `message` are not assigned. -/
def reset {F : Type} (s : Parser F) : Parser F :=
  { parser_status := NOT_STARTED
    message := { s.message with headers := [], body := [] }
    expected_body_len := 0
    buffer := [] }

/-- A parser as the constructor leaves it, `first` being the default-constructed message fields. -/
def fresh {F : Type} (first : F) : Parser F :=
  reset { parser_status := NOT_STARTED, message := ⟨first, [], []⟩, expected_body_len := 0, buffer := [] }

/-! ## Line extraction -/

/-- The `while (true)` loop of `read_line`, started at offset `p`: each round
searches a `\r` in `data[p .. len-1)` with `memchr` and tests the byte after it.
The result is the offset of the `\r` of the first `\r\n`.  Each round advances
`p`, so `fuel = len` rounds are never used up. -/
def scan_crlf : Nat → List Nat → Nat → Option Nat
  | 0, _, _ => none
  | fuel + 1, data, p =>
    match memchr (data.drop p) 13 (data.length - 1 - p) with
    | some k =>
      if data.getD (p + k + 1) 0 = 10 then some (p + k)
      else scan_crlf fuel data (p + k + 1)
    | none => none

/-- What `read_line` leaves behind: its return value, `*line`, `*consumed_len`
and the member `buffer`.  When `found` is false the caller does not read `line`. -/
structure LineRead where
  found : Bool
  line : List Nat
  consumed : Nat
  buffer : List Nat
  deriving DecidableEq, Repr

/-- The method `Parser::read_line` on pending buffer `buffer` and input `data`;
`*consumed_len` is 0 on entry (the caller resets `len2`). -/
def read_line (buffer data : List Nat) : LineRead :=
  if data.length = 0 then ⟨false, [], 0, buffer⟩
  else if buffer.length ≠ 0 ∧ buffer.getLast? = some 13 ∧ data.head? = some 10 then
    ⟨true, buffer.take (buffer.length - 1), 1, []⟩
  else
    match scan_crlf data.length data 0 with
    | some i => ⟨true, buffer ++ data.take i, i + 2, []⟩
    | none => ⟨false, [], data.length, buffer ++ data⟩

/-- The method `Parser::add_header` on the header container. -/
def add_header (headers : Headers) (line : List Nat) : Except Exn Headers :=
  let colon := str_find line 58 0
  let first_val := str_find_first_not_of line 32 ((colon + 1) % SIZE)
  match substr line 0 colon with
  | .error e => .error e
  | .ok name =>
    match substr line first_val npos with
    | .error e => .error e
    | .ok value => .ok (Headers.add headers name value)

/-! ## The state machine of `read` -/

/-- The template parameter `IMPL`: its method `read_first_line` assigns the
first-line fields of `message` and may throw, keeping what it had assigned. -/
structure Impl (F : Type) where
  read_first_line : F → List Nat → F × Option Exn

/-- Ways in which `read` ends without returning: an exception leaves it with the
parser in state `s`, or an `assert` fails. -/
inductive Halt (F : Type) where
  | threw (e : Exn) (s : Parser F)
  | assert_failed
  deriving DecidableEq, Repr

/-- One `if` of the loop body: from the parser and the unread input `[p, end)`
to the parser and the unread input after it. -/
abbrev Stage (F : Type) := Parser F → List Nat → Except (Halt F) (Parser F × List Nat)

/-- The pattern `if (parser_status == st && read_line(&line, &len2, p, end - p)) { body }
p += len2;` shared by the five line-driven steps of the loop. -/
def line_stage {F : Type} (st : ParserStatus)
    (body : Parser F → List Nat → Except (Halt F) (Parser F)) : Stage F :=
  fun s rest =>
    if s.parser_status = st then
      let r := read_line s.buffer rest
      let s1 : Parser F := { s with buffer := r.buffer }
      if r.found then
        match body s1 r.line with
        | .ok s2 => .ok (s2, rest.drop r.consumed)
        | .error h => .error h
      else .ok (s1, rest.drop r.consumed)
    else .ok (s, rest)

/-- The body of the `NOT_STARTED` step (lines 34-36). -/
def first_line_body {F : Type} (impl : Impl F) (s : Parser F) (line : List Nat) :
    Except (Halt F) (Parser F) :=
  if s.buffer.length ≠ 0 then .error .assert_failed
  else
    match impl.read_first_line s.message.first line with
    | (f, some e) => .error (.threw e { s with message := { s.message with first := f } })
    | (f, none) =>
      .ok { s with message := { s.message with first := f }, parser_status := READING_HEADERS }

/-- The code run at the empty line that ends the headers (lines 46-63). -/
def end_of_headers {F : Type} (s : Parser F) : Except (Halt F) (Parser F) :=
  if Headers.get s.message.headers (bytes "Transfer-Encoding") = some (bytes "chunked") then
    .ok { s with expected_body_len := 0, parser_status := READING_BODY_CHUNKED_LENGTH }
  else
    match Headers.find s.message.headers (bytes "Content-Length") with
    | some it =>
      match stoul it.2 10 with
      | .ok n => .ok { s with expected_body_len := n, parser_status := READING_BODY }
      | .error e => .error (.threw e s)
    | none => .ok { s with parser_status := COMPLETED }

/-- The call `add_header(line)` on the parser. -/
def add_header_to {F : Type} (s : Parser F) (line : List Nat) : Except (Halt F) (Parser F) :=
  match add_header s.message.headers line with
  | .ok h => .ok { s with message := { s.message with headers := h } }
  | .error e => .error (.threw e s)

/-- The body of the `READING_HEADERS` step (lines 42-65). -/
def headers_body {F : Type} (s : Parser F) (line : List Nat) : Except (Halt F) (Parser F) :=
  if s.buffer.length ≠ 0 then .error .assert_failed
  else if line.length = 0 then end_of_headers s
  else add_header_to s line

/-- The byte-counted step for `READING_BODY` and `READING_BODY_CHUNKED` (lines 69-85);
`remaining` is computed in `size_t`. -/
def body_stage {F : Type} : Stage F :=
  fun s rest =>
    if s.parser_status = READING_BODY ∨ s.parser_status = READING_BODY_CHUNKED then
      if s.buffer.length ≠ 0 then .error .assert_failed
      else if ¬ (s.expected_body_len > 0) then .error .assert_failed
      else
        let remaining := (s.expected_body_len + SIZE - s.message.body.length % SIZE) % SIZE
        if rest.length ≥ remaining then
          .ok ({ s with
                  message := { s.message with body := s.message.body ++ rest.take remaining }
                  parser_status :=
                    if s.parser_status = READING_BODY then COMPLETED
                    else READING_BODY_CHUNKED_TERMINATOR },
               rest.drop remaining)
        else
          .ok ({ s with message := { s.message with body := s.message.body ++ rest } }, [])
    else .ok (s, rest)

/-- The body of the `READING_BODY_CHUNKED_TERMINATOR` step (lines 89-90). -/
def chunk_terminator_body {F : Type} (s : Parser F) (line : List Nat) :
    Except (Halt F) (Parser F) :=
  if line.length = 0 then .ok { s with parser_status := READING_BODY_CHUNKED_LENGTH }
  else .error (.threw .runtime_error s)

/-- The body of the `READING_BODY_CHUNKED_LENGTH` step (lines 96-102). -/
def chunk_length_body {F : Type} (s : Parser F) (line : List Nat) :
    Except (Halt F) (Parser F) :=
  match stoul line 16 with
  | .error e => .error (.threw e s)
  | .ok chunk_len =>
    if chunk_len ≠ 0 then
      .ok { s with parser_status := READING_BODY_CHUNKED
                   expected_body_len := (s.expected_body_len + chunk_len) % SIZE }
    else .ok { s with parser_status := READING_TRAILER_HEADERS }

/-- The body of the `READING_TRAILER_HEADERS` step (lines 108-110). -/
def trailer_body {F : Type} (s : Parser F) (line : List Nat) : Except (Halt F) (Parser F) :=
  if s.buffer.length ≠ 0 then .error .assert_failed
  else if line.length = 0 then .ok { s with parser_status := COMPLETED }
  else add_header_to s line

/-- The six steps of the loop body of `read`, in source order. -/
def stages {F : Type} (impl : Impl F) : List (Stage F) :=
  [ line_stage NOT_STARTED (first_line_body impl),
    line_stage READING_HEADERS headers_body,
    body_stage,
    line_stage READING_BODY_CHUNKED_TERMINATOR chunk_terminator_body,
    line_stage READING_BODY_CHUNKED_LENGTH chunk_length_body,
    line_stage READING_TRAILER_HEADERS trailer_body ]

/-- Runs steps one after the other; an exception or failed assertion ends the run. -/
def run_stages {F : Type} : List (Stage F) → Stage F
  | [], s, rest => .ok (s, rest)
  | st :: more, s, rest =>
    match st s rest with
    | .ok (s1, rest1) => run_stages more s1 rest1
    | .error h => .error h

/-- The loop `while (p != end) { ... }` of `read` and the code after it, with `rest`
the unread input `[p, end)` and `len` the length of the whole input.  `fuel` bounds
the number of times the loop condition is tested; `none` means it was used up. -/
def read_loop {F : Type} (impl : Impl F) :
    Nat → Nat → Parser F → List Nat → Option (Except (Halt F) (Parser F × Nat))
  | 0, _, _, _ => none
  | fuel + 1, len, s, rest =>
    if rest = [] then
      if ¬ (len - rest.length > 0 ∧ len - rest.length ≤ len) then some (.error .assert_failed)
      else if ¬ (rest = [] ∨ s.is_completed) then some (.error .assert_failed)
      else some (.ok (s, len - rest.length))
    else
      match run_stages (stages impl) s rest with
      | .ok (s1, rest1) => read_loop impl fuel len s1 rest1
      | .error h => some (.error h)

/-- The method `Parser::read(data, len)`, with at most `fuel` tests of the loop
condition: `some (.ok (s, n))` when it returns `n` leaving the parser in state `s`,
`some (.error h)` when it throws or an assertion fails, `none` when `fuel` is used up. -/
def read {F : Type} (impl : Impl F) (fuel : Nat) (s : Parser F) (data : List Nat) :
    Option (Except (Halt F) (Parser F × Nat)) :=
  if ¬ (data.length > 0) then some (.error .assert_failed)
  else read_loop impl fuel data.length s data

/-- The call `read(data, len)` returns `n` and leaves the parser in state `t`. -/
def Returns {F : Type} (impl : Impl F) (s : Parser F) (data : List Nat) (t : Parser F)
    (n : Nat) : Prop :=
  ∃ fuel, read impl fuel s data = some (.ok (t, n))

/-- The call `read(data, len)` never leaves its loop. -/
def Diverges {F : Type} (impl : Impl F) (s : Parser F) (data : List Nat) : Prop :=
  ∀ fuel, read impl fuel s data = none

/-! ## The response parser -/

/-- The first-line fields of a `Response`. -/
structure ResponseFirst where
  status_code : Int
  status_msg : List Nat
  deriving DecidableEq, Repr

/-- The method `ResponseParser::read_first_line`; index arithmetic is in `size_t`. -/
def ResponseParser.read_first_line (f : ResponseFirst) (line : List Nat) :
    ResponseFirst × Option Exn :=
  let ver_end := str_find line 32 0
  let code_end := str_find line 32 ((ver_end + 1) % SIZE)
  match substr line ((ver_end + 1) % SIZE) ((code_end + SIZE - ver_end) % SIZE) with
  | .error e => (f, some e)
  | .ok code_str =>
    match stoi code_str with
    | .error e => (f, some e)
    | .ok code =>
      match substr line ((code_end + 1) % SIZE) npos with
      | .error e => ({ f with status_code := code }, some e)
      | .ok msg => ({ status_code := code, status_msg := msg }, none)

/-- The class `ResponseParser` as the `IMPL` of the parser template. -/
def ResponseParser : Impl ResponseFirst := ⟨ResponseParser.read_first_line⟩

/-- A newly constructed `ResponseParser`. -/
def freshResponseParser : Parser ResponseFirst := fresh ⟨0, []⟩

/-! ## Auxiliary definitions used in the statements -/

/-- Offset of the first `\r` that is directly followed by `\n`. -/
def firstCRLF : List Nat → Option Nat
  | [] => none
  | c :: l => if c = 13 ∧ l.head? = some 10 then some 0 else (firstCRLF l).map (· + 1)

/-- A parser that has read both a `Content-Length` and a `Transfer-Encoding` header. -/
def bothFramingHeaders : Parser ResponseFirst :=
  ⟨READING_HEADERS,
   ⟨⟨200, bytes "OK"⟩, [(bytes "Content-Length", bytes "5"),
                        (bytes "Transfer-Encoding", bytes "chunked")], []⟩, 0, []⟩

/-- A response parser that has read one chunk `Wiki` and waits for the next chunk size. -/
def afterFirstChunk : Parser ResponseFirst :=
  ⟨READING_BODY_CHUNKED_LENGTH,
   ⟨⟨200, bytes "OK"⟩, [(bytes "Transfer-Encoding", bytes "chunked")], bytes "Wiki"⟩, 4, []⟩

/-- A response parser that has read the header `Content-Length: 3x`. -/
def looseLengthHeader : Parser ResponseFirst :=
  ⟨READING_HEADERS, ⟨⟨200, bytes "OK"⟩, [(bytes "Content-Length", bytes "3x")], []⟩, 0, []⟩

/-- A response parser that has read the header `Content-Length: abc`. -/
def badLengthHeader : Parser ResponseFirst :=
  ⟨READING_HEADERS, ⟨⟨200, bytes "OK"⟩, [(bytes "Content-Length", bytes "abc")], []⟩, 0, []⟩

/-- A valid unsigned decimal integer: a non-empty string of decimal digits. -/
def isDecimal (v : List Nat) : Bool := !v.isEmpty && v.all (fun c => 48 ≤ c && c ≤ 57)

/-- The complete response `HTTP/1.1 200 OK\r\n\r\n`. -/
def bareResponse : List Nat := bytes "HTTP/1.1 200 OK\r\n\r\n"

/-- Position in the loop body of the step that a status enables (6: none). -/
def stageIdx : ParserStatus → Nat
  | NOT_STARTED => 0
  | READING_HEADERS => 1
  | READING_BODY => 2
  | READING_BODY_CHUNKED => 2
  | READING_BODY_CHUNKED_TERMINATOR => 3
  | READING_BODY_CHUNKED_LENGTH => 4
  | READING_TRAILER_HEADERS => 5
  | COMPLETED => 6

/-- The step of the loop body enabled by the status of the parser. -/
def fire {F : Type} (impl : Impl F) : Stage F :=
  fun s rest =>
    match s.parser_status with
    | NOT_STARTED => line_stage NOT_STARTED (first_line_body impl) s rest
    | READING_HEADERS => line_stage READING_HEADERS headers_body s rest
    | READING_BODY => body_stage s rest
    | READING_BODY_CHUNKED => body_stage s rest
    | READING_BODY_CHUNKED_TERMINATOR =>
      line_stage READING_BODY_CHUNKED_TERMINATOR chunk_terminator_body s rest
    | READING_BODY_CHUNKED_LENGTH =>
      line_stage READING_BODY_CHUNKED_LENGTH chunk_length_body s rest
    | READING_TRAILER_HEADERS => line_stage READING_TRAILER_HEADERS trailer_body s rest
    | COMPLETED => .ok (s, rest)

/-- The rest of `read` from the `k`-th step of the loop body on: the steps left in
this pass, then the loop. -/
def cont {F : Type} (impl : Impl F) (k fuel len : Nat) (s : Parser F) (rest : List Nat) :
    Option (Except (Halt F) (Parser F × Nat)) :=
  match run_stages ((stages impl).drop k) s rest with
  | .ok (s1, rest1) => read_loop impl fuel len s1 rest1
  | .error h => some (.error h)

/-- How a step `f` behaves on the input `x ++ b` compared with the input `x`: both fail
alike; or `f` ends inside `x` (or exactly at its end) in the same way on both; or `f`
takes all of `x` without a change of status and, resumed on `b`, does what it does on
`x ++ b`. -/
def SplitsAt {F : Type} (f : Stage F) (s : Parser F) (x b : List Nat) : Prop :=
  (∃ h, f s x = .error h ∧ f s (x ++ b) = .error h) ∨
  (∃ s1 x1, f s x = .ok (s1, x1) ∧ f s (x ++ b) = .ok (s1, x1 ++ b)) ∨
  (∃ s1, f s x = .ok (s1, []) ∧ s1.parser_status = s.parser_status ∧ f s1 b = f s (x ++ b))

/-- How a step `f` behaves on the empty input compared with the input `b`: both fail
alike; or `f` leaves the parser as it is; or `f` moves the parser on without reading,
and does the same on `b`. -/
def NilAt {F : Type} (f : Stage F) (s : Parser F) (b : List Nat) : Prop :=
  (∃ h, f s [] = .error h ∧ f s b = .error h) ∨
  f s [] = .ok (s, []) ∨
  (∃ s1, f s [] = .ok (s1, []) ∧ f s b = .ok (s1, b))

/-- Feeding the pieces in order to `read`, one call per piece: every call returns the
length of its piece, and the last one leaves the parser in state `t`. -/
def Feeds {F : Type} (impl : Impl F) : Parser F → List (List Nat) → Parser F → Prop
  | s, [], t => s = t
  | s, p :: ps, t => ∃ s1, Returns impl s p s1 p.length ∧ Feeds impl s1 ps t

/-- The response `HTTP/1.1 200 OK` with a three-byte body, cut after each CR. -/
def piecesOfResponse : List (List Nat) :=
  [bytes "HTTP/1.1 200 OK\r", bytes "\nContent-Length: 3\r", bytes "\n\r", bytes "\nab", bytes "c"]

/-- The line terminator CR LF. -/
def CRLF : List Nat := [13, 10]

/-- The hexadecimal digit (lower case) of a value below 16. -/
def hexDigit (d : Nat) : Nat := if d < 10 then 48 + d else 87 + d

/-- The hexadecimal digits of `n`, least significant first. -/
def toHexRev : Nat → Nat → List Nat
  | 0, _ => []
  | fuel + 1, n => if n < 16 then [hexDigit n] else hexDigit (n % 16) :: toHexRev fuel (n / 16)

/-- The number `n` written in hexadecimal. -/
def toHex (n : Nat) : List Nat := (toHexRev (n + 1) n).reverse

/-- One chunk on the wire: its length in hexadecimal, CRLF, its bytes, CRLF. -/
def encodeChunk (c : List Nat) : List Nat := toHex c.length ++ CRLF ++ c ++ CRLF

/-- A chunked body on the wire: the chunks, then the zero-length chunk and the empty line. -/
def encodeChunked (cs : List (List Nat)) : List Nat :=
  (cs.map encodeChunk).flatten ++ (bytes "0" ++ CRLF ++ CRLF)

/-- The calls of `add_header` on the lines of a header block, in order. -/
def add_headers : Headers → List (List Nat) → Except Exn Headers
  | h, [] => .ok h
  | h, l :: ls =>
    match add_header h l with
    | .ok h1 => add_headers h1 ls
    | .error e => .error e

/-- A message head on the wire: the first line, the header lines and the empty line. -/
def encodeHead (first : List Nat) (hdrs : List (List Nat)) : List Nat :=
  first ++ CRLF ++ (hdrs.map (fun l => l ++ CRLF)).flatten ++ CRLF

/-! ## The request parser and the notions used for first lines -/

/-- The call `s.find_last_of(c)` of `std::string`. -/
def str_find_last_of (s : List Nat) (c : Nat) : Nat :=
  match indexWhere (fun x => x == c) s.reverse with
  | some i => s.length - 1 - i
  | none => npos

/-- The first-line fields of a `Request`: method (of the enumeration `M`), raw target
and parsed `Url` (of type `U`). -/
structure RequestFirst (M U : Type) where
  method : M
  raw_url : List Nat
  url : U
  deriving DecidableEq, Repr

/-- The two functions that `RequestParser::read_first_line` calls and whose code is
not in `Parser.cpp`: `method_from_string` and `Url::parse_request`; both may throw. -/
structure RequestEnv (M U : Type) where
  method_from_string : List Nat → Except Exn M
  parse_request : List Nat → Except Exn U

/-- The method `RequestParser::read_first_line`; index arithmetic is in `size_t`. -/
def RequestParser.read_first_line {M U : Type} (env : RequestEnv M U) (f : RequestFirst M U)
    (line : List Nat) : RequestFirst M U × Option Exn :=
  let method_end := str_find line 32 0
  let url_end := str_find_last_of line 32
  match substr line 0 method_end with
  | .error e => (f, some e)
  | .ok method_str =>
    match env.method_from_string method_str with
    | .error e => (f, some e)
    | .ok m =>
      match substr line ((method_end + 1) % SIZE)
          ((url_end + SIZE - method_end + SIZE - 1) % SIZE) with
      | .error e => ({ f with method := m }, some e)
      | .ok raw =>
        match env.parse_request raw with
        | .error e => ({ f with method := m, raw_url := raw }, some e)
        | .ok u => ({ method := m, raw_url := raw, url := u }, none)

/-- The class `RequestParser` as the `IMPL` of the parser template. -/
def RequestParser {M U : Type} (env : RequestEnv M U) : Impl (RequestFirst M U) :=
  ⟨RequestParser.read_first_line env⟩

/-- Numeric value of a string of decimal digits. -/
def decValue (ds : List Nat) : Nat := ds.foldl (fun acc c => acc * 10 + (c - 48)) 0

/-- The decimal digits `0` to `9`. -/
def isDecDigit (c : Nat) : Bool := 48 ≤ c && c ≤ 57

/-- The largest value of `int`. -/
def INT_MAX : Nat := 2147483647

/-! ## Notions used for the invariants of the parser -/

/-- The states in which the parser is not in the middle of a line have an empty
pending-line buffer. -/
def BufInv {F : Type} (s : Parser F) : Prop :=
  (s.parser_status = READING_BODY ∨ s.parser_status = READING_BODY_CHUNKED ∨
    s.parser_status = COMPLETED) → s.buffer = []

/-- The parser states reachable from a newly constructed parser by calls of `read`
(returning or throwing) and of `reset`. -/
inductive Reachable {F : Type} (impl : Impl F) : Parser F → Prop where
  | start (f0 : F) : Reachable impl (fresh f0)
  | returned (s t : Parser F) (data : List Nat) (fuel n : Nat) :
      Reachable impl s → read impl fuel s data = some (.ok (t, n)) → Reachable impl t
  | threw (s t : Parser F) (data : List Nat) (fuel : Nat) (e : Exn) :
      Reachable impl s → read impl fuel s data = some (.error (.threw e t)) → Reachable impl t
  | reset (s : Parser F) : Reachable impl s → Reachable impl (reset s)

/-- The parser left by a result of a step satisfies `BufInv`. -/
def ResInv {F : Type} (r : Except (Halt F) (Parser F × List Nat)) : Prop :=
  match r with
  | .ok (s, _) => BufInv s
  | .error (.threw _ s) => BufInv s
  | .error .assert_failed => True

/-- The body of a line-driven step leaves the pending-line buffer as it is. -/
def KeepsBuffer {F : Type} (body : Parser F → List Nat → Except (Halt F) (Parser F)) : Prop :=
  ∀ s line,
    match body s line with
    | .ok s2 => s2.buffer = s.buffer
    | .error (.threw _ s2) => s2.buffer = s.buffer
    | .error .assert_failed => True

/-- A response parser that has read a complete response with a body. -/
def completedResponse : Parser ResponseFirst :=
  ⟨COMPLETED, ⟨⟨200, bytes "OK"⟩, [(bytes "Content-Length", bytes "3")], bytes "abc"⟩, 3, []⟩

/-- A response parser that has read the header `Content-Length: 0`. -/
def zeroLengthHeader : Parser ResponseFirst :=
  ⟨READING_HEADERS, ⟨⟨200, bytes "OK"⟩, [(bytes "Content-Length", bytes "0")], []⟩, 0, []⟩

/-- A chunked response whose second chunk announces `2^64 - 1` bytes. -/
def overflowingChunks : List Nat :=
  bytes "HTTP/1.1 200 OK\r\nTransfer-Encoding: chunked\r\n\r\n2\r\nab\r\nffffffffffffffff\r\n"

/-! ## The router (`include/http/server/Router.hpp`)

The header declares `MatchedRoute`, `InvalidRouteError`, `Router` and `Router::Node`;
the bodies of `Router::get`, `Router::add` and `Router::get_parts` are in a source
file that is not among the sources. -/

/-- The errors of the router: `InvalidRouteError` (from `add`) and `MethodNotAllowed`
(from `get`). -/
inductive RouteErr where
  | InvalidRouteError
  | MethodNotAllowed
  deriving DecidableEq, Repr

/-- The type `PathParams`: parameter names with the values bound to them. -/
abbrev PathParams := List (List Nat × List Nat)

/-- The struct `MatchedRoute`: the handler, if a route was matched, and the path
parameters; handlers are values of the type `H`. -/
structure MatchedRoute (H : Type) where
  handler : Option H
  path_params : PathParams
  deriving DecidableEq, Repr

/-- The default constructor `MatchedRoute()`: null handler, no parameters. -/
def MatchedRoute.empty {H : Type} : MatchedRoute H := ⟨none, []⟩

/-- The conversion `explicit operator bool` of `MatchedRoute`: `handler != nullptr`. -/
def MatchedRoute.toBool {H : Type} (m : MatchedRoute H) : Bool := m.handler.isSome

/-- The struct `Router::Node`: the flag `prefix` (here `wildcard`), the handlers by
method, the named children and the parameter child with its name. -/
inductive Node (H : Type) where
  | mk (wildcard : Bool) (methods : List (List Nat × H))
      (children : List (List Nat × Node H)) (param : Option (List Nat × Node H)) : Node H

/-- The member `prefix` of a node. -/
def Node.wildcard {H : Type} : Node H → Bool
  | .mk w _ _ _ => w

/-- The member `methods` of a node. -/
def Node.methods {H : Type} : Node H → List (List Nat × H)
  | .mk _ m _ _ => m

/-- The member `children` of a node. -/
def Node.children {H : Type} : Node H → List (List Nat × Node H)
  | .mk _ _ c _ => c

/-- The member `param` of a node (`none` when its `node` pointer is null). -/
def Node.param {H : Type} : Node H → Option (List Nat × Node H)
  | .mk _ _ _ p => p

/-- The constructor `Node()`. -/
def Node.new {H : Type} : Node H := .mk false [] [] none

/-- The class `Router`: its root node. -/
structure Router (H : Type) where
  root : Node H

/-- The constructor `Router()`. -/
def Router.new {H : Type} : Router H := ⟨Node.new⟩

/-- The call `m.find(key)` on a map kept as a list of entries with distinct keys. -/
def mapFind {α : Type} (key : List Nat) : List (List Nat × α) → Option α
  | [] => none
  | (k, v) :: rest => if k = key then some v else mapFind key rest

/-- The assignment `m[key] = value` on a map kept as a list of entries. -/
def mapSet {α : Type} (key : List Nat) (value : α) : List (List Nat × α) → List (List Nat × α)
  | [] => [(key, value)]
  | (k, v) :: rest => if k = key then (key, value) :: rest else (k, v) :: mapSet key value rest

/-- Splits a byte string at every occurrence of `c`; `cur` is the part read so far,
in reverse. -/
def splitAux (c : Nat) : List Nat → List Nat → List (List Nat)
  | [], cur => [cur.reverse]
  | x :: xs, cur => if x = c then cur.reverse :: splitAux c xs [] else splitAux c xs (x :: cur)

/-- Modelled from the spec: `Router::get_parts` splits the path at forward slashes,
leaves out the empty initial part and percent-decodes each part with `url_decode` (a
collaborator, here the function `decode`). -/
def get_parts (decode : List Nat → List Nat) (path : List Nat) : List (List Nat) :=
  match splitAux 47 path [] with
  | [] :: parts => parts.map decode
  | parts => parts.map decode

/-- Modelled from the spec: registration of a non-prefix route at the node reached.
It fails when the node is a prefix node or has a handler for the method already. -/
def registerExact {H : Type} (method : List Nat) (handler : H) (node : Node H) :
    Except RouteErr (Node H) :=
  if node.wildcard then .error .InvalidRouteError
  else if (mapFind method node.methods).isSome then .error .InvalidRouteError
  else .ok (.mk false (node.methods ++ [(method, handler)]) node.children node.param)

/-- Modelled from the spec: registration of a prefix route at the node reached.  It
fails when the node holds non-prefix routes (handlers, children or a parameter child
of a node that is not a prefix node) or has a handler for the method already. -/
def registerPrefix {H : Type} (method : List Nat) (handler : H) (node : Node H) :
    Except RouteErr (Node H) :=
  if !node.wildcard && (!node.methods.isEmpty || !node.children.isEmpty || node.param.isSome) then
    .error .InvalidRouteError
  else if (mapFind method node.methods).isSome then .error .InvalidRouteError
  else .ok (.mk true (node.methods ++ [(method, handler)]) node.children node.param)

/-- Modelled from the spec: the walk of `Router::add` over the segments of the pattern.
A final segment `*` registers a prefix route; a segment that begins with `:` goes to
the parameter child, whose name must be the one already bound there; any other segment
goes to the named child, created when absent; a prefix node gets no children. -/
def addAt {H : Type} (method : List Nat) (handler : H) :
    List (List Nat) → Node H → Except RouteErr (Node H)
  | [], node => registerExact method handler node
  | seg :: rest, node =>
    if seg = [42] ∧ rest = [] then registerPrefix method handler node
    else if node.wildcard then .error .InvalidRouteError
    else if seg.head? = some 58 then
      match node.param with
      | some (name, child) =>
        if name = seg.tail then
          match addAt method handler rest child with
          | .ok c => .ok (.mk node.wildcard node.methods node.children (some (name, c)))
          | .error e => .error e
        else .error .InvalidRouteError
      | none =>
        match addAt method handler rest Node.new with
        | .ok c => .ok (.mk node.wildcard node.methods node.children (some (seg.tail, c)))
        | .error e => .error e
    else
      match addAt method handler rest ((mapFind seg node.children).getD Node.new) with
      | .ok c => .ok (.mk node.wildcard node.methods (mapSet seg c node.children) node.param)
      | .error e => .error e

/-- Modelled from the spec: `Router::add(method, path, handler)`.  The result is the
router after the call and the error raised, if any: when `InvalidRouteError` is raised
the route table is the one before the call. -/
def Router.add {H : Type} (decode : List Nat → List Nat) (r : Router H) (method path : List Nat)
    (handler : H) : Router H × Option RouteErr :=
  match addAt method handler (get_parts decode path) r.root with
  | .ok root => (⟨root⟩, none)
  | .error e => (r, some e)

/-- Modelled from the spec: the walk of `Router::get` over the segments of the path:
a prefix node matches all remaining segments; otherwise the named child is tried
first, then the parameter child, which binds the segment to its name; `none` when no
node is reached. -/
def walk {H : Type} : List (List Nat) → Node H → PathParams → Option (Node H × PathParams)
  | [], node, ps => some (node, ps)
  | seg :: rest, node, ps =>
    if node.wildcard then some (node, ps)
    else
      match mapFind seg node.children with
      | some child => walk rest child ps
      | none =>
        match node.param with
        | some (name, child) => walk rest child (ps ++ [(name, seg)])
        | none => none

/-- Modelled from the spec: `Router::get(method, path)`.  At the node reached, the
handler of the method is returned with the parameters; when the node has handlers for
other methods only, `MethodNotAllowed` is raised; when no node is reached (or the node
has no handler at all) the result is the empty `MatchedRoute`. -/
def Router.get {H : Type} (decode : List Nat → List Nat) (r : Router H) (method path : List Nat) :
    Except RouteErr (MatchedRoute H) :=
  match walk (get_parts decode path) r.root [] with
  | none => .ok MatchedRoute.empty
  | some (node, ps) =>
    match mapFind method node.methods with
    | some h => .ok ⟨some h, ps⟩
    | none => if node.methods.isEmpty then .ok MatchedRoute.empty else .error .MethodNotAllowed

/-- A router with handlers numbered in `Nat` after `add("GET", "/assets/*", 7)`. -/
def assetsRouter : Router Nat := (Router.add id Router.new (bytes "GET") (bytes "/assets/*") 7).1


/-- The child that a registration enters for a segment that is not the final `*`, as in
`addAt`: none below a prefix node; the parameter child for a segment that begins with
`:`, whose name must be the one bound there; otherwise the named child; a child that
does not exist yet is a new node. -/
def childFor {H : Type} (seg : List Nat) (n : Node H) : Except RouteErr (Node H) :=
  if n.wildcard then .error .InvalidRouteError
  else if seg.head? = some 58 then
    match n.param with
    | some (name, child) => if name = seg.tail then .ok child else .error .InvalidRouteError
    | none => .ok Node.new
  else .ok ((mapFind seg n.children).getD Node.new)

/-- The node with the child for a segment replaced, as in `addAt`. -/
def setChild {H : Type} (seg : List Nat) (c : Node H) (n : Node H) : Node H :=
  if seg.head? = some 58 then .mk n.wildcard n.methods n.children (some (seg.tail, c))
  else .mk n.wildcard n.methods (mapSet seg c n.children) n.param

/-- The routers built from the empty router by calls of `add`, with the list of the
method and path pairs whose registration succeeded, latest first. -/
inductive Built {H : Type} (decode : List Nat → List Nat) :
    Router H → List (List Nat × List Nat) → Prop where
  | new : Built decode Router.new []
  | add (r : Router H) (t : List (List Nat × List Nat)) (m p : List Nat) (h : H) :
      Built decode r t →
      Built decode (Router.add decode r m p h).1
        (if (Router.add decode r m p h).2 = none then (m, p) :: t else t)

/-- A router with handlers numbered in `Nat` after `add("GET", "/profiles/:id", 1)` and
`add("GET", "/assets/*", 2)`. -/
def siteRouter : Router Nat :=
  (Router.add id (Router.add id Router.new (bytes "GET") (bytes "/profiles/:id") 1).1
    (bytes "GET") (bytes "/assets/*") 2).1

/-! ## Facts about the library functions -/

theorem indexWhere_none {p : Nat → Bool} :
    ∀ {l : List Nat}, indexWhere p l = none → ∀ y ∈ l, p y = false := by
  intro l
  induction l with
  | nil => intro _ y hy; simp at hy
  | cons x xs ih =>
    intro h y hy
    unfold indexWhere at h
    by_cases hx : p x = true
    · simp [hx] at h
    · simp [hx] at h
      rcases List.mem_cons.mp hy with rfl | hy
      · simpa using hx
      · exact ih h y hy

theorem indexWhere_some {p : Nat → Bool} :
    ∀ {l : List Nat} {k : Nat}, indexWhere p l = some k →
      ∃ pre x post, l = pre ++ x :: post ∧ pre.length = k ∧ p x = true ∧
        ∀ y ∈ pre, p y = false := by
  intro l
  induction l with
  | nil => intro k h; simp [indexWhere] at h
  | cons x xs ih =>
    intro k h
    unfold indexWhere at h
    by_cases hx : p x = true
    · simp [hx] at h
      exact ⟨[], x, xs, by simp, by simpa using h, hx, by simp⟩
    · simp [hx] at h
      obtain ⟨a, ha, rfl⟩ := h
      obtain ⟨pre, y, post, rfl, hlen, hy, hpre⟩ := ih ha
      refine ⟨x :: pre, y, post, by simp, by simp [hlen], hy, ?_⟩
      intro z hz
      rcases List.mem_cons.mp hz with rfl | hz
      · simpa using hx
      · exact hpre z hz

theorem firstCRLF_cons (c : Nat) (l : List Nat) :
    firstCRLF (c :: l) =
      if c = 13 ∧ l.head? = some 10 then some 0 else (firstCRLF l).map (· + 1) := rfl

theorem firstCRLF_skip (pre : List Nat) (h : ∀ y ∈ pre, y ≠ 13) (l : List Nat) :
    firstCRLF (pre ++ l) = (firstCRLF l).map (· + pre.length) := by
  induction pre with
  | nil => simp
  | cons y pre ih =>
    have hy : y ≠ 13 := h y (by simp)
    have ih1 := ih (fun z hz => h z (by simp [hz]))
    rw [List.cons_append, firstCRLF_cons, ih1]
    simp only [hy, false_and, if_false, Option.map_map, List.length_cons]
    cases firstCRLF l <;> simp [Nat.add_assoc]

theorem firstCRLF_none_of (l : List Nat) (h : ∀ y ∈ l.dropLast, y ≠ 13) :
    firstCRLF l = none := by
  induction l with
  | nil => rfl
  | cons c l ih =>
    cases l with
    | nil => simp [firstCRLF]
    | cons d r =>
      have hc : c ≠ 13 := h c (by simp [List.dropLast])
      have := ih (fun z hz => h z (by simp [List.dropLast, hz]))
      simp [firstCRLF, hc] at this ⊢
      exact this

theorem scan_crlf_eq : ∀ (fuel : Nat) (data : List Nat) (p : Nat), data.length - p ≤ fuel →
    scan_crlf fuel data p = (firstCRLF (data.drop p)).map (p + ·) := by
  intro fuel
  induction fuel with
  | zero =>
    intro data p h
    have : data.drop p = [] := List.drop_eq_nil_of_le (by omega)
    simp [scan_crlf, this, firstCRLF]
  | succ fuel ih =>
    intro data p h
    unfold scan_crlf
    obtain ⟨L, hL⟩ : ∃ L, L = data.drop p := ⟨_, rfl⟩
    have hlen : L.length = data.length - p := by simp [hL]
    have hm : memchr (data.drop p) 13 (data.length - 1 - p)
        = indexWhere (fun x => x == 13) (L.take (L.length - 1)) := by
      simp only [memchr, hL, List.length_drop]
      congr 2
      omega
    rw [hm, ← hL]
    cases hi : indexWhere (fun x => x == 13) (L.take (L.length - 1)) with
    | none =>
      have hno := indexWhere_none hi
      have : firstCRLF L = none := by
        apply firstCRLF_none_of
        intro y hy
        rw [List.dropLast_eq_take] at hy
        simpa using hno y hy
      simp [this]
    | some k =>
      obtain ⟨pre, x, post, hsplit, hk, hx, hpre⟩ := indexWhere_some hi
      have hx13 : x = 13 := by simpa using hx
      subst hx13
      have hLeq : L = (pre ++ 13 :: post) ++ L.drop (L.length - 1) := by
        rw [← hsplit, List.take_append_drop]
      have htl : (L.take (L.length - 1)).length = pre.length + 1 + post.length := by
        rw [hsplit]; simp; omega
      have hLpos : 2 ≤ L.length := by
        rw [List.length_take] at htl
        omega
      obtain ⟨d, r, hdr⟩ : ∃ d r, post ++ L.drop (L.length - 1) = d :: r := by
        cases hp : post ++ L.drop (L.length - 1) with
        | nil =>
          have := congrArg List.length hp
          simp at this
          omega
        | cons d r => exact ⟨d, r, rfl⟩
      have hL2 : L = pre ++ 13 :: d :: r := by
        rw [hLeq, List.append_assoc, List.cons_append, hdr]
      have hget : data.getD (p + k + 1) 0 = d := by
        have h1 : data[p + (k + 1)]? = L[k + 1]? := by
          rw [hL, List.getElem?_drop]
        have h2 : L[k + 1]? = some d := by
          rw [hL2, ← hk, List.getElem?_append_right (by omega)]
          simp
        rw [List.getD_eq_getElem?_getD, Nat.add_assoc, h1, h2]
        rfl
      have hdrop : data.drop (p + k + 1) = d :: r := by
        have : data.drop (p + k + 1) = L.drop (k + 1) := by
          rw [hL, List.drop_drop]
          congr 1
        rw [this, hL2, ← hk]
        rw [List.drop_append_eq_append_drop]
        simp
      have hfirst : firstCRLF L = (firstCRLF (13 :: d :: r)).map (· + k) := by
        rw [hL2, ← hk]
        exact firstCRLF_skip pre (fun y hy => by simpa using hpre y hy) _
      simp only [hget, hfirst]
      rw [firstCRLF_cons 13 (d :: r)]
      by_cases hd : d = 10
      · simp [hd]
      · have := ih data (p + k + 1) (by omega)
        rw [this, hdrop]
        simp only [hd, List.head?_cons, Option.some.injEq, and_false, if_false, Option.map_map]
        cases firstCRLF (d :: r) <;> simp
        omega

/-- What `read_line` does, in terms of `firstCRLF`. -/
theorem read_line_eq (buffer data : List Nat) :
    read_line buffer data =
      if data = [] then ⟨false, [], 0, buffer⟩
      else if buffer ≠ [] ∧ buffer.getLast? = some 13 ∧ data.head? = some 10 then
        ⟨true, buffer.dropLast, 1, []⟩
      else
        match firstCRLF data with
        | some i => ⟨true, buffer ++ data.take i, i + 2, []⟩
        | none => ⟨false, [], data.length, buffer ++ data⟩ := by
  unfold read_line
  rw [scan_crlf_eq _ _ _ (by omega)]
  simp only [List.length_eq_zero, List.drop_zero, List.dropLast_eq_take, ne_eq]
  have : (fun x : Nat => 0 + x) = id := by funext x; simp
  rw [this, Option.map_id]
  rfl

theorem firstCRLF_of_index : ∀ (l : List Nat) (i : Nat), l[i]? = some 13 → l[i + 1]? = some 10 →
    (∀ j < i, ¬ (l[j]? = some 13 ∧ l[j + 1]? = some 10)) → firstCRLF l = some i := by
  intro l
  induction l with
  | nil => intro i h; simp at h
  | cons c l ih =>
    intro i h1 h2 hmin
    rw [firstCRLF_cons]
    cases i with
    | zero =>
      have hc : c = 13 := by simpa using h1
      have hl : l.head? = some 10 := by
        rw [List.head?_eq_getElem?]; simpa using h2
      simp [hc, hl]
    | succ i =>
      have hnot : ¬ (c = 13 ∧ l.head? = some 10) := by
        intro ⟨hc, hl⟩
        apply hmin 0 (by omega)
        rw [List.head?_eq_getElem?] at hl
        simp [hc, hl]
      have := ih i (by simpa using h1) (by simpa using h2)
        (fun j hj hh => hmin (j + 1) (by omega) (by simpa using hh))
      simp [hnot, this]

theorem firstCRLF_none_of_index : ∀ (l : List Nat),
    (∀ j, ¬ (l[j]? = some 13 ∧ l[j + 1]? = some 10)) → firstCRLF l = none := by
  intro l
  induction l with
  | nil => intro _; rfl
  | cons c l ih =>
    intro h
    rw [firstCRLF_cons]
    have hnot : ¬ (c = 13 ∧ l.head? = some 10) := by
      intro ⟨hc, hl⟩
      apply h 0
      rw [List.head?_eq_getElem?] at hl
      simp [hc, hl]
    have := ih (fun j hh => h (j + 1) (by simpa using hh))
    simp [hnot, this]

/-! ## Claims on `read_line` and `add_header` -/

/-- C6: when the pending buffer ends with CR and the data begins with LF, `read_line`
returns true, the line is the pending buffer without its final CR, exactly one byte
is consumed and the pending buffer is left empty. -/
theorem read_line_cr_lf_split (buffer data : List Nat)
    (hcr : buffer ≠ [] ∧ buffer.getLast? = some 13)
    (hlf : data ≠ [] ∧ data.head? = some 10) :
    read_line buffer data = ⟨true, buffer.dropLast, 1, []⟩ := by
  rw [read_line_eq]
  simp [hcr.1, hcr.2, hlf.1, hlf.2]

theorem read_line_cr_lf_split_witness :
    read_line (bytes "Host: a\r") (bytes "\nAccept: b") = ⟨true, bytes "Host: a", 1, []⟩ :=
  read_line_cr_lf_split (bytes "Host: a\r") (bytes "\nAccept: b") (by decide) (by decide)

/-- C7: outside the CR/LF-split case, if `i` is the smallest index with `data[i] = CR`
and `data[i+1] = LF`, `read_line` returns true with the line `buffer ++ data[0..i)`,
consumes `i + 2` bytes and clears the pending buffer (a CR before `i` that is not
followed by LF stays in the line); if there is no such index it returns false,
appends all of `data` to the pending buffer and consumes `len` bytes. -/
theorem read_line_terminator_search (buffer data : List Nat) (hne : data ≠ [])
    (hsplit : ¬ (buffer ≠ [] ∧ buffer.getLast? = some 13 ∧ data.head? = some 10)) :
    (∀ i, data[i]? = some 13 → data[i + 1]? = some 10 →
        (∀ j < i, ¬ (data[j]? = some 13 ∧ data[j + 1]? = some 10)) →
        read_line buffer data = ⟨true, buffer ++ data.take i, i + 2, []⟩) ∧
    ((∀ j, ¬ (data[j]? = some 13 ∧ data[j + 1]? = some 10)) →
        (read_line buffer data).found = false ∧
        (read_line buffer data).buffer = buffer ++ data ∧
        (read_line buffer data).consumed = data.length) := by
  constructor
  · intro i h1 h2 hmin
    rw [read_line_eq, firstCRLF_of_index data i h1 h2 hmin]
    simp only [hne, if_false, hsplit]
  · intro h
    rw [read_line_eq, firstCRLF_none_of_index data h]
    simp only [hne, if_false, hsplit, and_self]

theorem read_line_terminator_search_witness :
    read_line (bytes "ab") (bytes "c\rd\r\nxyz") = ⟨true, bytes "abc\rd", 5, []⟩ ∧
    ((read_line (bytes "ab\r") (bytes "c\rd")).found = false ∧
     (read_line (bytes "ab\r") (bytes "c\rd")).buffer = bytes "ab\rc\rd" ∧
     (read_line (bytes "ab\r") (bytes "c\rd")).consumed = 3) :=
  ⟨(read_line_terminator_search (bytes "ab") (bytes "c\rd\r\nxyz") (by decide) (by decide)).1 3
      (by decide) (by decide) (by decide),
   (read_line_terminator_search (bytes "ab\r") (bytes "c\rd") (by decide) (by decide)).2
      (by
        intro j
        by_cases hj : j < 3
        · interval_cases j <;> decide
        · have : (bytes "c\rd")[j]? = none := List.getElem?_eq_none (by
            have : (bytes "c\rd").length = 3 := by decide
            omega)
          simp [this])⟩

/-- C8 (failing input): on a header line whose value is empty or only spaces,
`find_first_not_of` gives `npos` and `substr(npos)` throws `std::out_of_range`, so
`add_header` adds no header; inside `read` the exception leaves the call. -/
theorem add_header_empty_value_throws :
    add_header [] (bytes "Accept:") = .error .out_of_range ∧
    add_header [] (bytes "Accept:   ") = .error .out_of_range ∧
    add_header [] (bytes "Name:   value") = .ok [(bytes "Name", bytes "value")] ∧
    read ResponseParser 5 freshResponseParser (bytes "HTTP/1.1 200 OK\r\nAccept:\r\n\r\n") =
      some (.error (.threw .out_of_range
        ⟨READING_HEADERS, ⟨⟨200, bytes "OK"⟩, [], []⟩, 0, []⟩)) := by
  decide

/-! ## Claims on the header and chunk-size steps -/

theorem read_line_found_buffer (buffer data : List Nat) (h : (read_line buffer data).found = true) :
    (read_line buffer data).buffer = [] := by
  rw [read_line_eq] at h ⊢
  by_cases h1 : data = []
  · simp [h1] at h
  · by_cases h2 : buffer ≠ [] ∧ buffer.getLast? = some 13 ∧ data.head? = some 10
    · rw [if_neg h1, if_pos h2]
    · rw [if_neg h1, if_neg h2] at h ⊢
      cases hf : firstCRLF data with
      | none => simp [hf] at h
      | some i => simp

theorem line_stage_found {F : Type} (st : ParserStatus)
    (body : Parser F → List Nat → Except (Halt F) (Parser F)) (s : Parser F) (rest : List Nat)
    (hst : s.parser_status = st) (hf : (read_line s.buffer rest).found = true) :
    line_stage st body s rest =
      match body { s with buffer := [] } (read_line s.buffer rest).line with
      | .ok s2 => .ok (s2, rest.drop (read_line s.buffer rest).consumed)
      | .error h => .error h := by
  simp only [line_stage, hst, if_true, hf, read_line_found_buffer _ _ hf]

/-- C5: when the `READING_HEADERS` step reads the empty line, a `Transfer-Encoding`
value equal to `chunked` sets `expected_body_len` to 0 and moves to
`READING_BODY_CHUNKED_LENGTH` (whether or not a `Content-Length` header is present);
otherwise a `Content-Length` header whose value reads as `N` sets `expected_body_len`
to `N` and moves to `READING_BODY`; otherwise the parser moves to `COMPLETED`. -/
theorem framing_decision {F : Type} (s : Parser F) (rest : List Nat)
    (hst : s.parser_status = READING_HEADERS)
    (hfound : (read_line s.buffer rest).found = true)
    (hline : (read_line s.buffer rest).line = []) :
    (Headers.get s.message.headers (bytes "Transfer-Encoding") = some (bytes "chunked") →
      line_stage READING_HEADERS headers_body s rest =
        .ok ({ s with buffer := [], expected_body_len := 0,
                      parser_status := READING_BODY_CHUNKED_LENGTH },
             rest.drop (read_line s.buffer rest).consumed)) ∧
    (Headers.get s.message.headers (bytes "Transfer-Encoding") ≠ some (bytes "chunked") →
      ∀ it N, Headers.find s.message.headers (bytes "Content-Length") = some it →
        stoul it.2 10 = .ok N →
        line_stage READING_HEADERS headers_body s rest =
          .ok ({ s with buffer := [], expected_body_len := N, parser_status := READING_BODY },
               rest.drop (read_line s.buffer rest).consumed)) ∧
    (Headers.get s.message.headers (bytes "Transfer-Encoding") ≠ some (bytes "chunked") →
      Headers.find s.message.headers (bytes "Content-Length") = none →
        line_stage READING_HEADERS headers_body s rest =
          .ok ({ s with buffer := [], parser_status := COMPLETED },
               rest.drop (read_line s.buffer rest).consumed)) := by
  rw [line_stage_found _ _ _ _ hst hfound, hline]
  refine ⟨?_, ?_, ?_⟩
  · intro h
    simp [headers_body, end_of_headers, h]
  · intro h it N hit hN
    simp [headers_body, end_of_headers, h, hit, hN]
  · intro h hnone
    simp [headers_body, end_of_headers, h, hnone]

theorem framing_decision_witness :
    line_stage READING_HEADERS headers_body bothFramingHeaders (bytes "\r\n5\r\n") =
      .ok ({ bothFramingHeaders with
               buffer := [], expected_body_len := 0,
               parser_status := READING_BODY_CHUNKED_LENGTH }, bytes "5\r\n") :=
  (framing_decision bothFramingHeaders (bytes "\r\n5\r\n") (by decide) (by decide)
    (by decide)).1 (by decide)

theorem read_line_found_ne_nil (buffer data : List Nat)
    (h : (read_line buffer data).found = true) : data ≠ [] := by
  intro hd
  rw [read_line_eq, if_pos hd] at h
  simp at h

theorem skipHexPrefix_ten (r : List Nat) : skipHexPrefix 10 r = r := by
  unfold skipHexPrefix
  split
  · simp
  · rfl

theorem readDigits_count_ge (base : Nat) : ∀ (l : List Nat) (acc n : Nat),
    n ≤ (readDigits base l acc n).2 := by
  intro l
  induction l with
  | nil => intro acc n; simp [readDigits]
  | cons c r ih =>
    intro acc n
    unfold readDigits
    cases digitVal base c with
    | none => simp
    | some d => exact Nat.le_trans (Nat.le_succ n) (ih _ _)

theorem stoul_no_digit (line : List Nat) (base : Nat)
    (h : (readDigits base (skipHexPrefix base (takeSign (skipSpace line)).2) 0 0).2 = 0) :
    stoul line base = .error .invalid_argument := by
  unfold stoul
  simp only [h, if_true]

theorem stoul_overflow (line : List Nat) (base : Nat)
    (h : (readDigits base (skipHexPrefix base (takeSign (skipSpace line)).2) 0 0).2 ≠ 0)
    (hv : SIZE ≤ (readDigits base (skipHexPrefix base (takeSign (skipSpace line)).2) 0 0).1) :
    stoul line base = .error .out_of_range := by
  unfold stoul
  simp only [h, if_false, ge_iff_le, hv, if_true]

theorem digitVal_lt (base c d : Nat) (h : digitVal base c = some d) : d < base := by
  unfold digitVal at h
  simp only [Option.filter] at h
  split at h
  · split_ifs at h with hlt
    · cases h; simpa using hlt
  · cases h

theorem digitVal_hex_not_space (c : Nat) (h : (digitVal 16 c).isSome) :
    isspace c = false ∧ c ≠ 45 ∧ c ≠ 43 := by
  refine ⟨?_, ?_, ?_⟩
  · by_contra hs
    have hs0 : ¬ c = 32 → 9 ≤ c ∧ c ≤ 13 := by
      simpa [isspace] using hs
    have hs' : c = 32 ∨ (9 ≤ c ∧ c ≤ 13) := by
      by_cases h32 : c = 32
      · exact Or.inl h32
      · exact Or.inr (hs0 h32)
    rcases hs' with rfl | ⟨h1, h2⟩
    · simp [digitVal] at h
    · interval_cases c <;> simp [digitVal] at h
  · rintro rfl; simp [digitVal] at h
  · rintro rfl; simp [digitVal] at h

theorem stoul_hex_digit_first (c : Nat) (r : List Nat) (hc : (digitVal 16 c).isSome)
    (hpre : skipHexPrefix 16 (c :: r) = c :: r)
    (hv : (readDigits 16 (c :: r) 0 0).1 < SIZE) :
    stoul (c :: r) 16 = .ok (readDigits 16 (c :: r) 0 0).1 := by
  obtain ⟨hsp, hm, hp⟩ := digitVal_hex_not_space c hc
  have h1 : skipSpace (c :: r) = c :: r := by
    simp [skipSpace, List.dropWhile, hsp]
  have h2 : takeSign (c :: r) = (false, c :: r) := by
    unfold takeSign
    split
    · rename_i heq; cases heq; exact absurd rfl hm
    · rename_i heq; cases heq; exact absurd rfl hp
    · rfl
  have h3 : (readDigits 16 (c :: r) 0 0).2 ≠ 0 := by
    obtain ⟨d, hd⟩ := Option.isSome_iff_exists.mp hc
    have := readDigits_count_ge 16 r (0 * 16 + d) (0 + 1)
    unfold readDigits
    simp only [hd]
    omega
  unfold stoul
  simp only [h1, h2, hpre, h3, if_false, ge_iff_le, Nat.not_le.mpr hv]
  rfl

theorem read_error_at_headers {F : Type} (impl : Impl F) (fuel : Nat) (s : Parser F)
    (rest : List Nat) (h : Halt F) (hst : s.parser_status = READING_HEADERS) (hne : rest ≠ [])
    (herr : line_stage READING_HEADERS headers_body s rest = .error h) :
    read impl (fuel + 1) s rest = some (.error h) := by
  have hlen : rest.length > 0 := List.length_pos.mpr hne
  have h1 : line_stage NOT_STARTED (first_line_body impl) s rest = .ok (s, rest) := by
    simp [line_stage, hst]
  simp only [read, hlen, not_true_eq_false, if_false, read_loop, hne, stages, run_stages, h1, herr]

theorem read_error_at_chunk_length {F : Type} (impl : Impl F) (fuel : Nat) (s : Parser F)
    (rest : List Nat) (h : Halt F) (hst : s.parser_status = READING_BODY_CHUNKED_LENGTH)
    (hne : rest ≠ [])
    (herr : line_stage READING_BODY_CHUNKED_LENGTH chunk_length_body s rest = .error h) :
    read impl (fuel + 1) s rest = some (.error h) := by
  have hlen : rest.length > 0 := List.length_pos.mpr hne
  have h1 : line_stage NOT_STARTED (first_line_body impl) s rest = .ok (s, rest) := by
    simp [line_stage, hst]
  have h2 : line_stage READING_HEADERS headers_body s rest = .ok (s, rest) := by
    simp [line_stage, hst]
  have h3 : body_stage s rest = .ok (s, rest) := by
    simp [body_stage, hst]
  have h4 : line_stage READING_BODY_CHUNKED_TERMINATOR chunk_terminator_body s rest
      = .ok (s, rest) := by
    simp [line_stage, hst]
  simp only [read, hlen, not_true_eq_false, if_false, read_loop, hne, stages, run_stages, h1, h2,
    h3, h4, herr]

/-- C9 (as stated, refuted): the line ` 5` does not begin with a hexadecimal digit, yet
it is read as size 5 without an error; the maximal leading run of hexadecimal digits
of `0x1A` is `0`, yet the size read is 26 and the parser moves to
`READING_BODY_CHUNKED`, not to `READING_TRAILER_HEADERS`. -/
theorem chunk_size_line_counterexample :
    ((readDigits 16 (bytes " 5") 0 0).2 = 0 ∧
      line_stage READING_BODY_CHUNKED_LENGTH chunk_length_body afterFirstChunk
          (bytes " 5\r\npedia") =
        .ok ({ afterFirstChunk with
                 parser_status := READING_BODY_CHUNKED, expected_body_len := 9 },
             bytes "pedia")) ∧
    (readDigits 16 (bytes "0x1A") 0 0 = (0, 1) ∧
      line_stage READING_BODY_CHUNKED_LENGTH chunk_length_body afterFirstChunk
          (bytes "0x1A\r\n") =
        .ok ({ afterFirstChunk with
                 parser_status := READING_BODY_CHUNKED, expected_body_len := 30 }, [])) := by
  decide

/-- C9 (amended): in state `READING_BODY_CHUNKED_LENGTH` a line that begins with a
hexadecimal digit, does not begin with `0x`/`0X` followed by a hexadecimal digit, and
whose maximal leading run of hexadecimal digits has a value below `2^64`, is read as
that value, the rest of the line being ignored: a value above 0 is added to
`expected_body_len` (modulo `2^64`) and the parser moves to `READING_BODY_CHUNKED`, the
value 0 moves it to `READING_TRAILER_HEADERS`.  A line with no hexadecimal digit after
its optional leading white space, sign and `0x` prefix makes `read` throw. -/
theorem chunk_size_line {F : Type} (impl : Impl F) (s : Parser F) (rest : List Nat)
    (hst : s.parser_status = READING_BODY_CHUNKED_LENGTH)
    (hfound : (read_line s.buffer rest).found = true) :
    (∀ c r, (read_line s.buffer rest).line = c :: r → (digitVal 16 c).isSome →
        skipHexPrefix 16 (c :: r) = c :: r → (readDigits 16 (c :: r) 0 0).1 < SIZE →
        line_stage READING_BODY_CHUNKED_LENGTH chunk_length_body s rest =
          .ok (if (readDigits 16 (c :: r) 0 0).1 ≠ 0 then
                 { s with
                     buffer := [], parser_status := READING_BODY_CHUNKED,
                     expected_body_len :=
                       (s.expected_body_len + (readDigits 16 (c :: r) 0 0).1) % SIZE }
               else { s with buffer := [], parser_status := READING_TRAILER_HEADERS },
               rest.drop (read_line s.buffer rest).consumed)) ∧
    ((readDigits 16
          (skipHexPrefix 16 (takeSign (skipSpace (read_line s.buffer rest).line)).2) 0 0).2 = 0 →
        ∀ fuel, read impl (fuel + 1) s rest =
          some (.error (.threw .invalid_argument { s with buffer := [] }))) := by
  constructor
  · intro c r hline hc hpre hv
    rw [line_stage_found _ _ _ _ hst hfound, hline]
    simp only [chunk_length_body, stoul_hex_digit_first c r hc hpre hv]
    split_ifs <;> rfl
  · intro hno fuel
    apply read_error_at_chunk_length impl fuel s rest _ hst
      (read_line_found_ne_nil _ _ hfound)
    rw [line_stage_found _ _ _ _ hst hfound]
    simp only [chunk_length_body, stoul_no_digit _ _ hno]

theorem chunk_size_line_witness :
    line_stage READING_BODY_CHUNKED_LENGTH chunk_length_body afterFirstChunk
        (bytes "5;ext\r\npedia") =
      .ok ({ afterFirstChunk with
               parser_status := READING_BODY_CHUNKED, expected_body_len := 9 },
           bytes "pedia") :=
  (chunk_size_line ResponseParser afterFirstChunk (bytes "5;ext\r\npedia") (by decide)
    (by decide)).1 53 (bytes ";ext") (by decide) (by decide) (by decide) (by decide)

/-! ## Claims on the loop of `read` -/

theorem run_stages_completed {F : Type} (impl : Impl F) (s : Parser F) (rest : List Nat)
    (hc : s.parser_status = COMPLETED) : run_stages (stages impl) s rest = .ok (s, rest) := by
  simp [stages, run_stages, line_stage, body_stage, hc]

theorem completed_never_exits {F : Type} (impl : Impl F) (len : Nat) (s : Parser F)
    (rest : List Nat) (hc : s.parser_status = COMPLETED) (hne : rest ≠ []) :
    ∀ fuel, read_loop impl fuel len s rest = none := by
  intro fuel
  induction fuel with
  | zero => rfl
  | succ fuel ih =>
    simp only [read_loop, hne, if_false, run_stages_completed impl s rest hc]
    exact ih

/-- C2 (failing input): fed alone, the message is read to `COMPLETED` and its length 19
is returned; fed with one further byte, the first pass of the loop reaches `COMPLETED`
with that byte unread, after which no step of the loop body applies and the loop
condition `p != end` stays true: `read` never returns. -/
theorem read_with_following_byte_diverges :
    read ResponseParser 2 freshResponseParser bareResponse =
      some (.ok (⟨COMPLETED, ⟨⟨200, bytes "OK"⟩, [], []⟩, 0, []⟩, 19)) ∧
    run_stages (stages ResponseParser) freshResponseParser (bareResponse ++ bytes "X") =
      .ok (⟨COMPLETED, ⟨⟨200, bytes "OK"⟩, [], []⟩, 0, []⟩, bytes "X") ∧
    Diverges ResponseParser freshResponseParser (bareResponse ++ bytes "X") := by
  have hrun : run_stages (stages ResponseParser) freshResponseParser (bareResponse ++ bytes "X") =
      .ok (⟨COMPLETED, ⟨⟨200, bytes "OK"⟩, [], []⟩, 0, []⟩, bytes "X") := by decide
  refine ⟨by decide, hrun, ?_⟩
  intro fuel
  have hlen : (bareResponse ++ bytes "X").length > 0 := by decide
  have hne : bareResponse ++ bytes "X" ≠ [] := by decide
  cases fuel with
  | zero => simp only [read, hlen, not_true_eq_false, if_false, read_loop]
  | succ fuel =>
    simp only [read, hlen, not_true_eq_false, if_false, read_loop, hne, hrun]
    exact completed_never_exits _ _ _ _ rfl (by decide) fuel

/-- C3 (failing input): with `Content-Length: 0` the end of the headers sets
`expected_body_len` to 0 and `READING_BODY`, and the body step that follows in the same
pass of the loop fails `assert(expected_body_len > 0)`; the message is not completed. -/
theorem content_length_zero_fails_assert :
    ∀ fuel, read ResponseParser (fuel + 2) freshResponseParser
        (bytes "HTTP/1.1 200 OK\r\nContent-Length: 0\r\n\r\n") =
      some (.error .assert_failed) := by
  intro fuel
  have hrun1 : run_stages (stages ResponseParser) freshResponseParser
      (bytes "HTTP/1.1 200 OK\r\nContent-Length: 0\r\n\r\n") =
      .ok (⟨READING_HEADERS, ⟨⟨200, bytes "OK"⟩, [(bytes "Content-Length", bytes "0")], []⟩,
            0, []⟩, bytes "\r\n") := by decide
  have hrun2 : run_stages (stages ResponseParser)
      ⟨READING_HEADERS, ⟨⟨200, bytes "OK"⟩, [(bytes "Content-Length", bytes "0")], []⟩, 0, []⟩
      (bytes "\r\n") = .error .assert_failed := by decide
  have hlen : (bytes "HTTP/1.1 200 OK\r\nContent-Length: 0\r\n\r\n").length > 0 := by decide
  have hne : bytes "HTTP/1.1 200 OK\r\nContent-Length: 0\r\n\r\n" ≠ [] := by decide
  have hne2 : bytes "\r\n" ≠ [] := by decide
  simp only [read, hlen, not_true_eq_false, if_false, read_loop, hne, hrun1, hne2, hrun2]

/-! ## Splitting the input of `read_line` -/

theorem firstCRLF_some_bound : ∀ (x : List Nat) (i : Nat), firstCRLF x = some i →
    i + 2 ≤ x.length := by
  intro x
  induction x with
  | nil => intro i h; simp [firstCRLF] at h
  | cons c x ih =>
    intro i h
    rw [firstCRLF_cons] at h
    by_cases hc : c = 13 ∧ x.head? = some 10
    · rw [if_pos hc] at h
      cases h
      cases x with
      | nil => simp at hc
      | cons d r => simp
    · rw [if_neg hc] at h
      cases hx : firstCRLF x with
      | none => simp [hx] at h
      | some j =>
        simp [hx] at h
        have := ih j hx
        simp only [List.length_cons]
        omega

theorem firstCRLF_append_of_some : ∀ (x b : List Nat) (i : Nat), firstCRLF x = some i →
    firstCRLF (x ++ b) = some i := by
  intro x
  induction x with
  | nil => intro b i h; simp [firstCRLF] at h
  | cons c x ih =>
    intro b i h
    rw [firstCRLF_cons] at h
    rw [List.cons_append, firstCRLF_cons]
    by_cases hc : c = 13 ∧ x.head? = some 10
    · rw [if_pos hc] at h
      have hx : x ≠ [] := by
        intro hx; simp [hx] at hc
      have : (x ++ b).head? = x.head? := by
        cases x with
        | nil => exact absurd rfl hx
        | cons d r => rfl
      rw [this, if_pos hc]
      exact h
    · rw [if_neg hc] at h
      cases hx : firstCRLF x with
      | none => simp [hx] at h
      | some j =>
        have hxne : x ≠ [] := by
          intro hxe; simp [hxe, firstCRLF] at hx
        have : (x ++ b).head? = x.head? := by
          cases x with
          | nil => exact absurd rfl hxne
          | cons d r => rfl
        rw [this, if_neg hc, ih b j hx]
        rw [hx] at h
        exact h

theorem firstCRLF_append_of_none : ∀ (x b : List Nat), firstCRLF x = none →
    firstCRLF (x ++ b) =
      if x.getLast? = some 13 ∧ b.head? = some 10 then some (x.length - 1)
      else (firstCRLF b).map (· + x.length) := by
  intro x
  induction x with
  | nil =>
    intro b _
    simp
  | cons c x ih =>
    intro b h
    rw [firstCRLF_cons] at h
    by_cases hc : c = 13 ∧ x.head? = some 10
    · rw [if_pos hc] at h; cases h
    · rw [if_neg hc] at h
      have hx : firstCRLF x = none := by
        cases hx : firstCRLF x with
        | none => rfl
        | some j => simp [hx] at h
      rw [List.cons_append, firstCRLF_cons]
      cases x with
      | nil =>
        simp only [List.nil_append, List.getLast?_singleton, Option.some.injEq, List.length_singleton,
          Nat.sub_self]
      | cons d r =>
        have hhead : ((d :: r) ++ b).head? = (d :: r).head? := rfl
        rw [hhead, if_neg hc, ih b hx]
        have hlast : (c :: d :: r).getLast? = (d :: r).getLast? := by
          simp [List.getLast?_cons_cons]
        rw [hlast]
        by_cases hb : (d :: r).getLast? = some 13 ∧ b.head? = some 10
        · rw [if_pos hb, if_pos hb]
          simp
        · rw [if_neg hb, if_neg hb]
          cases firstCRLF b <;> simp [Nat.add_assoc]

theorem read_line_append_of_found (buffer x b : List Nat)
    (h : (read_line buffer x).found = true) :
    read_line buffer (x ++ b) = read_line buffer x ∧ (read_line buffer x).consumed ≤ x.length ∧
      1 ≤ (read_line buffer x).consumed := by
  have h1 : x ≠ [] := read_line_found_ne_nil _ _ h
  have hxb : x ++ b ≠ [] := by simp [h1]
  have hhead : (x ++ b).head? = x.head? := by
    cases x with
    | nil => exact absurd rfl h1
    | cons d r => rfl
  have hlen : 1 ≤ x.length := List.length_pos.mpr h1
  by_cases h2 : buffer ≠ [] ∧ buffer.getLast? = some 13 ∧ x.head? = some 10
  · have e1 : read_line buffer x = ⟨true, buffer.dropLast, 1, []⟩ := by
      rw [read_line_eq, if_neg h1, if_pos h2]
    have e2 : read_line buffer (x ++ b) = ⟨true, buffer.dropLast, 1, []⟩ := by
      rw [read_line_eq, if_neg hxb, hhead, if_pos h2]
    rw [e1, e2]
    exact ⟨rfl, hlen, Nat.le_refl 1⟩
  · cases hf : firstCRLF x with
    | none =>
      rw [read_line_eq, if_neg h1, if_neg h2, hf] at h
      simp at h
    | some i =>
      have hb := firstCRLF_some_bound x i hf
      have e1 : read_line buffer x = ⟨true, buffer ++ x.take i, i + 2, []⟩ := by
        rw [read_line_eq, if_neg h1, if_neg h2, hf]
      have e2 : read_line buffer (x ++ b) = ⟨true, buffer ++ x.take i, i + 2, []⟩ := by
        rw [read_line_eq, if_neg hxb, hhead, if_neg h2, firstCRLF_append_of_some x b i hf]
        simp only [LineRead.mk.injEq, true_and, and_true]
        rw [List.take_append_of_le_length (by omega)]
      rw [e1, e2]
      exact ⟨rfl, hb, by simp⟩

theorem read_line_append_of_not_found (buffer x b : List Nat) (hx : x ≠ []) (hb : b ≠ [])
    (h : (read_line buffer x).found = false) :
    (read_line buffer x).buffer = buffer ++ x ∧ (read_line buffer x).consumed = x.length ∧
    read_line buffer (x ++ b) =
      { read_line (buffer ++ x) b with
          consumed := x.length + (read_line (buffer ++ x) b).consumed } := by
  have hxb : x ++ b ≠ [] := by simp [hx]
  have hhead : (x ++ b).head? = x.head? := by
    cases x with
    | nil => exact absurd rfl hx
    | cons d r => rfl
  have hlen : 1 ≤ x.length := List.length_pos.mpr hx
  have h2 : ¬ (buffer ≠ [] ∧ buffer.getLast? = some 13 ∧ x.head? = some 10) := by
    intro h2
    rw [read_line_eq, if_neg hx, if_pos h2] at h
    simp at h
  have hf : firstCRLF x = none := by
    cases hf : firstCRLF x with
    | none => rfl
    | some i =>
      rw [read_line_eq, if_neg hx, if_neg h2, hf] at h
      simp at h
  have e1 : read_line buffer x = ⟨false, [], x.length, buffer ++ x⟩ := by
    rw [read_line_eq, if_neg hx, if_neg h2, hf]
  have hbx : buffer ++ x ≠ [] := by simp [hx]
  have hlast : (buffer ++ x).getLast? = x.getLast? := by
    rw [List.getLast?_append_of_ne_nil _ hx]
  rw [e1]
  refine ⟨rfl, rfl, ?_⟩
  rw [read_line_eq buffer (x ++ b), read_line_eq (buffer ++ x) b, if_neg hxb, if_neg hb, hhead,
    if_neg h2, firstCRLF_append_of_none x b hf, hlast]
  by_cases h3 : x.getLast? = some 13 ∧ b.head? = some 10
  · have h3' : buffer ++ x ≠ [] ∧ x.getLast? = some 13 ∧ b.head? = some 10 := ⟨hbx, h3⟩
    rw [if_pos h3, if_pos h3']
    simp only [LineRead.mk.injEq, true_and, and_true]
    constructor
    · rw [List.take_append_of_le_length (by omega), List.dropLast_append_of_ne_nil _ hx,
        List.dropLast_eq_take]
    · omega
  · have h3' : ¬ (buffer ++ x ≠ [] ∧ x.getLast? = some 13 ∧ b.head? = some 10) :=
      fun hh => h3 hh.2
    rw [if_neg h3, if_neg h3']
    cases hfb : firstCRLF b with
    | none => simp
    | some j =>
      simp only [Option.map_some', LineRead.mk.injEq, true_and, and_true]
      constructor
      · rw [Nat.add_comm j, List.take_append, List.append_assoc]
      · omega

/-! ## The loop body seen from the parser status -/

theorem line_stage_skip {F : Type} (st : ParserStatus)
    (body : Parser F → List Nat → Except (Halt F) (Parser F)) (s : Parser F) (rest : List Nat)
    (h : s.parser_status ≠ st) : line_stage st body s rest = .ok (s, rest) := by
  simp [line_stage, h]

theorem body_stage_skip {F : Type} (s : Parser F) (rest : List Nat)
    (h1 : s.parser_status ≠ READING_BODY) (h2 : s.parser_status ≠ READING_BODY_CHUNKED) :
    body_stage s rest = .ok (s, rest) := by
  simp [body_stage, h1, h2]

theorem run_stages_drop_skip {F : Type} (impl : Impl F) (k : Nat) (s : Parser F)
    (rest : List Nat) (h : stageIdx s.parser_status < k ∨ s.parser_status = COMPLETED) :
    run_stages ((stages impl).drop k) s rest = .ok (s, rest) := by
  by_cases hk : 6 ≤ k
  · have : (stages impl).drop k = [] := List.drop_eq_nil_of_le (by simpa [stages] using hk)
    rw [this]; rfl
  · have hk' : k < 6 := by omega
    interval_cases k <;> cases hs : s.parser_status <;>
      simp [hs, stageIdx] at h <;>
      simp [stages, run_stages, line_stage_skip, body_stage_skip, hs]

theorem run_stages_drop_fire {F : Type} (impl : Impl F) (k : Nat) (s : Parser F)
    (rest : List Nat) (h : k ≤ stageIdx s.parser_status) (h6 : stageIdx s.parser_status < 6) :
    run_stages ((stages impl).drop k) s rest =
      match fire impl s rest with
      | .ok (s1, rest1) => run_stages ((stages impl).drop (stageIdx s.parser_status + 1)) s1 rest1
      | .error e => .error e := by
  have hk' : k < 6 := by omega
  interval_cases k <;> cases hs : s.parser_status <;>
    simp [hs, stageIdx] at h h6 <;>
    simp [stages, run_stages, line_stage_skip, body_stage_skip, hs, fire, stageIdx]

theorem read_loop_cons {F : Type} (impl : Impl F) (fuel len : Nat) (s : Parser F)
    (rest : List Nat) (h : rest ≠ []) :
    read_loop impl (fuel + 1) len s rest = cont impl 0 fuel len s rest := by
  simp only [read_loop, h, if_false, cont, List.drop_zero]

theorem read_loop_nil {F : Type} (impl : Impl F) (fuel len : Nat) (s : Parser F)
    (h : 0 < len) : read_loop impl (fuel + 1) len s [] = some (.ok (s, len)) := by
  simp [read_loop, h]

theorem cont_skip {F : Type} (impl : Impl F) (k fuel len : Nat) (s : Parser F)
    (rest : List Nat) (h : stageIdx s.parser_status < k ∨ s.parser_status = COMPLETED) :
    cont impl k fuel len s rest = read_loop impl fuel len s rest := by
  simp only [cont, run_stages_drop_skip impl k s rest h]

theorem cont_fire {F : Type} (impl : Impl F) (k fuel len : Nat) (s : Parser F)
    (rest : List Nat) (h : k ≤ stageIdx s.parser_status) (h6 : stageIdx s.parser_status < 6) :
    cont impl k fuel len s rest =
      match fire impl s rest with
      | .ok (s1, rest1) => cont impl (stageIdx s.parser_status + 1) fuel len s1 rest1
      | .error e => some (.error e) := by
  simp only [cont, run_stages_drop_fire impl k s rest h h6]
  cases fire impl s rest with
  | error e => rfl
  | ok p => rfl

theorem stageIdx_cases (st : ParserStatus) (k : Nat) :
    (stageIdx st < k ∨ st = COMPLETED) ∨ (k ≤ stageIdx st ∧ stageIdx st < 6) := by
  cases st <;> simp [stageIdx] <;> omega

theorem read_loop_len {F : Type} (impl : Impl F) (l1 l2 : Nat) (h2 : 0 < l2) :
    ∀ (fuel : Nat) (s : Parser F) (rest : List Nat) (t : Parser F) (n : Nat),
      read_loop impl fuel l1 s rest = some (.ok (t, n)) →
      read_loop impl fuel l2 s rest = some (.ok (t, l2)) := by
  intro fuel
  induction fuel with
  | zero => intro s rest t n h; simp [read_loop] at h
  | succ fuel ih =>
    intro s rest t n h
    by_cases hr : rest = []
    · subst hr
      by_cases h1 : 0 < l1
      · rw [read_loop_nil impl fuel l1 s h1] at h
        rw [read_loop_nil impl fuel l2 s h2]
        simp only [Option.some.injEq, Except.ok.injEq, Prod.mk.injEq] at h
        rw [h.1]
      · simp [read_loop, h1] at h
    · simp only [read_loop, hr, if_false] at h ⊢
      cases hrun : run_stages (stages impl) s rest with
      | error e => rw [hrun] at h; simp at h
      | ok p =>
        obtain ⟨s1, r1⟩ := p
        rw [hrun] at h
        exact ih s1 r1 t n h

theorem cont_len {F : Type} (impl : Impl F) (l1 l2 : Nat) (h2 : 0 < l2) (k fuel : Nat)
    (s : Parser F) (rest : List Nat) (t : Parser F) (n : Nat)
    (h : cont impl k fuel l1 s rest = some (.ok (t, n))) :
    cont impl k fuel l2 s rest = some (.ok (t, l2)) := by
  unfold cont at h ⊢
  cases hrun : run_stages ((stages impl).drop k) s rest with
  | error e => rw [hrun] at h; simp at h
  | ok p =>
    obtain ⟨s1, r1⟩ := p
    rw [hrun] at h
    exact read_loop_len impl l1 l2 h2 fuel s1 r1 t n h

/-! ## Splitting the input of one step -/

theorem line_stage_split {F : Type} (st : ParserStatus)
    (body : Parser F → List Nat → Except (Halt F) (Parser F)) (s : Parser F) (x b : List Nat)
    (hst : s.parser_status = st) (hx : x ≠ []) (hb : b ≠ []) :
    (∃ h, line_stage st body s x = .error h ∧ line_stage st body s (x ++ b) = .error h) ∨
    (∃ s1 x1, line_stage st body s x = .ok (s1, x1) ∧
      line_stage st body s (x ++ b) = .ok (s1, x1 ++ b)) ∨
    (∃ s1, line_stage st body s x = .ok (s1, []) ∧ s1.parser_status = s.parser_status ∧
      line_stage st body s1 b = line_stage st body s (x ++ b)) := by
  cases hf : (read_line s.buffer x).found with
  | true =>
    obtain ⟨e1, hle, _⟩ := read_line_append_of_found s.buffer x b hf
    have hf2 : (read_line s.buffer (x ++ b)).found = true := by rw [e1]; exact hf
    rw [line_stage_found st body s x hst hf, line_stage_found st body s (x ++ b) hst hf2, e1]
    cases hbody : body { s with buffer := [] } (read_line s.buffer x).line with
    | error h => exact Or.inl ⟨h, rfl, rfl⟩
    | ok s2 =>
      refine Or.inr (Or.inl ⟨s2, x.drop (read_line s.buffer x).consumed, rfl, ?_⟩)
      simp only [List.drop_append_of_le_length hle]
  | false =>
    obtain ⟨ebuf, econs, e2⟩ := read_line_append_of_not_found s.buffer x b hx hb hf
    refine Or.inr (Or.inr ⟨{ s with buffer := s.buffer ++ x }, ?_, rfl, ?_⟩)
    · simp only [line_stage, hst, if_true, hf, ebuf, econs, List.drop_length]
      rfl
    · simp only [line_stage, hst, if_true, e2]
      have hd : List.drop (x.length + (read_line (s.buffer ++ x) b).consumed) (x ++ b)
          = List.drop (read_line (s.buffer ++ x) b).consumed b := by
        rw [List.drop_append]
      rw [hd]

theorem remaining_after_part (e L n : Nat) (h : n < (e + SIZE - L % SIZE) % SIZE) :
    (e + SIZE - (L + n) % SIZE) % SIZE = (e + SIZE - L % SIZE) % SIZE - n := by
  unfold SIZE at *
  omega

theorem body_stage_assert {F : Type} (s : Parser F) (rest : List Nat)
    (hst : s.parser_status = READING_BODY ∨ s.parser_status = READING_BODY_CHUNKED)
    (h : s.buffer.length ≠ 0 ∨ ¬ (s.expected_body_len > 0)) :
    body_stage s rest = .error .assert_failed := by
  unfold body_stage
  rw [if_pos hst]
  by_cases hbuf : s.buffer.length ≠ 0
  · rw [if_pos hbuf]
  · rw [if_neg hbuf]
    rcases h with h | h
    · exact absurd h hbuf
    · rw [if_pos h]

theorem body_stage_take {F : Type} (s : Parser F) (rest : List Nat)
    (hst : s.parser_status = READING_BODY ∨ s.parser_status = READING_BODY_CHUNKED)
    (hbuf : ¬ s.buffer.length ≠ 0) (hexp : s.expected_body_len > 0)
    (hrem : rest.length ≥ (s.expected_body_len + SIZE - s.message.body.length % SIZE) % SIZE) :
    body_stage s rest =
      .ok ({ s with
              message := { s.message with
                body := s.message.body ++ rest.take
                  ((s.expected_body_len + SIZE - s.message.body.length % SIZE) % SIZE) }
              parser_status :=
                if s.parser_status = READING_BODY then COMPLETED
                else READING_BODY_CHUNKED_TERMINATOR },
           rest.drop ((s.expected_body_len + SIZE - s.message.body.length % SIZE) % SIZE)) := by
  unfold body_stage
  rw [if_pos hst, if_neg hbuf, if_neg (not_not.mpr hexp)]
  simp only [hrem, if_true]

theorem body_stage_part {F : Type} (s : Parser F) (rest : List Nat)
    (hst : s.parser_status = READING_BODY ∨ s.parser_status = READING_BODY_CHUNKED)
    (hbuf : ¬ s.buffer.length ≠ 0) (hexp : s.expected_body_len > 0)
    (hrem : ¬ rest.length ≥ (s.expected_body_len + SIZE - s.message.body.length % SIZE) % SIZE) :
    body_stage s rest =
      .ok ({ s with message := { s.message with body := s.message.body ++ rest } }, []) := by
  unfold body_stage
  rw [if_pos hst, if_neg hbuf, if_neg (not_not.mpr hexp)]
  simp only [hrem, if_false]

theorem body_stage_split {F : Type} (s : Parser F) (x b : List Nat) (_hx : x ≠ [])
    (_hb : b ≠ []) :
    (∃ h, body_stage s x = .error h ∧ body_stage s (x ++ b) = .error h) ∨
    (∃ s1 x1, body_stage s x = .ok (s1, x1) ∧ body_stage s (x ++ b) = .ok (s1, x1 ++ b)) ∨
    (∃ s1, body_stage s x = .ok (s1, []) ∧ s1.parser_status = s.parser_status ∧
      body_stage s1 b = body_stage s (x ++ b)) := by
  by_cases hst : s.parser_status = READING_BODY ∨ s.parser_status = READING_BODY_CHUNKED
  · by_cases hbuf : s.buffer.length ≠ 0
    · exact Or.inl ⟨.assert_failed, body_stage_assert s x hst (Or.inl hbuf),
        body_stage_assert s (x ++ b) hst (Or.inl hbuf)⟩
    · by_cases hexp : s.expected_body_len > 0
      · by_cases hrem : x.length ≥
            (s.expected_body_len + SIZE - s.message.body.length % SIZE) % SIZE
        · have hrem2 : (x ++ b).length ≥
              (s.expected_body_len + SIZE - s.message.body.length % SIZE) % SIZE := by
            simp only [List.length_append]; omega
          refine Or.inr (Or.inl ⟨_, _, body_stage_take s x hst hbuf hexp hrem, ?_⟩)
          rw [body_stage_take s (x ++ b) hst hbuf hexp hrem2]
          rw [List.take_append_of_le_length hrem, List.drop_append_of_le_length hrem]
        · refine Or.inr (Or.inr
            ⟨{ s with message := { s.message with body := s.message.body ++ x } },
              body_stage_part s x hst hbuf hexp hrem, rfl, ?_⟩)
          have hlt : x.length <
              (s.expected_body_len + SIZE - s.message.body.length % SIZE) % SIZE := by omega
          have hR := remaining_after_part s.expected_body_len s.message.body.length x.length hlt
          by_cases hb2 : b.length ≥
              (s.expected_body_len + SIZE - s.message.body.length % SIZE) % SIZE - x.length
          · have hb3 : (x ++ b).length ≥
                (s.expected_body_len + SIZE - s.message.body.length % SIZE) % SIZE := by
              simp only [List.length_append]; omega
            rw [body_stage_take s (x ++ b) hst hbuf hexp hb3]
            rw [body_stage_take
              { s with message := { s.message with body := s.message.body ++ x } } b hst hbuf hexp
              (by simp only [List.length_append, hR]; exact hb2)]
            simp only [List.length_append, hR]
            have e : (s.expected_body_len + SIZE - s.message.body.length % SIZE) % SIZE
                = x.length +
                  ((s.expected_body_len + SIZE - s.message.body.length % SIZE) % SIZE
                    - x.length) := by omega
            have ht : List.take
                  ((s.expected_body_len + SIZE - s.message.body.length % SIZE) % SIZE) (x ++ b)
                = x ++ List.take
                  ((s.expected_body_len + SIZE - s.message.body.length % SIZE) % SIZE
                    - x.length) b := by
              conv_lhs => rw [e]
              rw [List.take_append]
            have hd : List.drop
                  ((s.expected_body_len + SIZE - s.message.body.length % SIZE) % SIZE) (x ++ b)
                = List.drop
                  ((s.expected_body_len + SIZE - s.message.body.length % SIZE) % SIZE
                    - x.length) b := by
              conv_lhs => rw [e]
              rw [List.drop_append]
            rw [ht, hd, List.append_assoc]
          · have hb3 : ¬ ((x ++ b).length ≥
                (s.expected_body_len + SIZE - s.message.body.length % SIZE) % SIZE) := by
              simp only [List.length_append]; omega
            rw [body_stage_part s (x ++ b) hst hbuf hexp hb3]
            rw [body_stage_part
              { s with message := { s.message with body := s.message.body ++ x } } b hst hbuf hexp
              (by simp only [List.length_append, hR]; exact hb2)]
            simp only [List.append_assoc]
      · exact Or.inl ⟨.assert_failed, body_stage_assert s x hst (Or.inr hexp),
          body_stage_assert s (x ++ b) hst (Or.inr hexp)⟩
  · have h1 : s.parser_status ≠ READING_BODY := fun h => hst (Or.inl h)
    have h2 : s.parser_status ≠ READING_BODY_CHUNKED := fun h => hst (Or.inr h)
    refine Or.inr (Or.inl ⟨s, x, body_stage_skip s x h1 h2, body_stage_skip s (x ++ b) h1 h2⟩)

theorem line_stage_nil {F : Type} (st : ParserStatus)
    (body : Parser F → List Nat → Except (Halt F) (Parser F)) (s : Parser F) :
    line_stage st body s [] = .ok (s, []) := by
  by_cases h : s.parser_status = st
  · subst h
    simp [line_stage, read_line]
  · exact line_stage_skip st body s [] h

theorem body_stage_nil {F : Type} (s : Parser F) (b : List Nat) : NilAt body_stage s b := by
  by_cases hst : s.parser_status = READING_BODY ∨ s.parser_status = READING_BODY_CHUNKED
  · by_cases hbuf : s.buffer.length ≠ 0
    · exact Or.inl ⟨.assert_failed, body_stage_assert s [] hst (Or.inl hbuf),
        body_stage_assert s b hst (Or.inl hbuf)⟩
    · by_cases hexp : s.expected_body_len > 0
      · by_cases hrem : ([] : List Nat).length ≥
            (s.expected_body_len + SIZE - s.message.body.length % SIZE) % SIZE
        · have h0 : (s.expected_body_len + SIZE - s.message.body.length % SIZE) % SIZE = 0 := by
            simpa using hrem
          refine Or.inr (Or.inr ⟨{ s with
              parser_status :=
                if s.parser_status = READING_BODY then COMPLETED
                else READING_BODY_CHUNKED_TERMINATOR }, ?_, ?_⟩)
          · rw [body_stage_take s [] hst hbuf hexp hrem]
            simp
          · rw [body_stage_take s b hst hbuf hexp (by rw [h0]; exact Nat.zero_le _)]
            simp [h0]
        · refine Or.inr (Or.inl ?_)
          rw [body_stage_part s [] hst hbuf hexp hrem]
          simp
      · exact Or.inl ⟨.assert_failed, body_stage_assert s [] hst (Or.inr hexp),
          body_stage_assert s b hst (Or.inr hexp)⟩
  · have h1 : s.parser_status ≠ READING_BODY := fun h => hst (Or.inl h)
    have h2 : s.parser_status ≠ READING_BODY_CHUNKED := fun h => hst (Or.inr h)
    exact Or.inr (Or.inl (body_stage_skip s [] h1 h2))

theorem fire_eq_line {F : Type} (impl : Impl F) (t : Parser F) (r : List Nat) :
    (t.parser_status = NOT_STARTED →
      fire impl t r = line_stage NOT_STARTED (first_line_body impl) t r) ∧
    (t.parser_status = READING_HEADERS →
      fire impl t r = line_stage READING_HEADERS headers_body t r) ∧
    (t.parser_status = READING_BODY → fire impl t r = body_stage t r) ∧
    (t.parser_status = READING_BODY_CHUNKED → fire impl t r = body_stage t r) ∧
    (t.parser_status = READING_BODY_CHUNKED_TERMINATOR →
      fire impl t r = line_stage READING_BODY_CHUNKED_TERMINATOR chunk_terminator_body t r) ∧
    (t.parser_status = READING_BODY_CHUNKED_LENGTH →
      fire impl t r = line_stage READING_BODY_CHUNKED_LENGTH chunk_length_body t r) ∧
    (t.parser_status = READING_TRAILER_HEADERS →
      fire impl t r = line_stage READING_TRAILER_HEADERS trailer_body t r) ∧
    (t.parser_status = COMPLETED → fire impl t r = .ok (t, r)) := by
  refine ⟨?_, ?_, ?_, ?_, ?_, ?_, ?_, ?_⟩ <;> intro h <;> simp [fire, h]

theorem splitsAt_congr {F : Type} (f g : Stage F) (s : Parser F) (x b : List Nat)
    (hfg : ∀ t r, t.parser_status = s.parser_status → f t r = g t r)
    (H : SplitsAt g s x b) : SplitsAt f s x b := by
  rcases H with ⟨h, h1, h2⟩ | ⟨s1, x1, h1, h2⟩ | ⟨s1, h1, h2, h3⟩
  · exact Or.inl ⟨h, by rw [hfg s x rfl, h1], by rw [hfg s _ rfl, h2]⟩
  · exact Or.inr (Or.inl ⟨s1, x1, by rw [hfg s x rfl, h1], by rw [hfg s _ rfl, h2]⟩)
  · exact Or.inr (Or.inr ⟨s1, by rw [hfg s x rfl, h1], h2, by rw [hfg s1 b h2, hfg s _ rfl, h3]⟩)

theorem fire_split {F : Type} (impl : Impl F) (s : Parser F) (x b : List Nat) (hx : x ≠ [])
    (hb : b ≠ []) : SplitsAt (fire impl) s x b := by
  cases hs : s.parser_status with
  | NOT_STARTED =>
    exact splitsAt_congr _ _ s x b (fun t r ht => (fire_eq_line impl t r).1 (ht.trans hs))
      (line_stage_split _ _ s x b hs hx hb)
  | READING_HEADERS =>
    exact splitsAt_congr _ _ s x b (fun t r ht => (fire_eq_line impl t r).2.1 (ht.trans hs))
      (line_stage_split _ _ s x b hs hx hb)
  | READING_BODY =>
    exact splitsAt_congr _ _ s x b (fun t r ht => (fire_eq_line impl t r).2.2.1 (ht.trans hs))
      (body_stage_split s x b hx hb)
  | READING_BODY_CHUNKED =>
    exact splitsAt_congr _ _ s x b (fun t r ht => (fire_eq_line impl t r).2.2.2.1 (ht.trans hs))
      (body_stage_split s x b hx hb)
  | READING_BODY_CHUNKED_TERMINATOR =>
    exact splitsAt_congr _ _ s x b
      (fun t r ht => (fire_eq_line impl t r).2.2.2.2.1 (ht.trans hs))
      (line_stage_split _ _ s x b hs hx hb)
  | READING_BODY_CHUNKED_LENGTH =>
    exact splitsAt_congr _ _ s x b
      (fun t r ht => (fire_eq_line impl t r).2.2.2.2.2.1 (ht.trans hs))
      (line_stage_split _ _ s x b hs hx hb)
  | READING_TRAILER_HEADERS =>
    exact splitsAt_congr _ _ s x b
      (fun t r ht => (fire_eq_line impl t r).2.2.2.2.2.2.1 (ht.trans hs))
      (line_stage_split _ _ s x b hs hx hb)
  | COMPLETED =>
    refine Or.inr (Or.inl ⟨s, x, ?_, ?_⟩)
    · exact (fire_eq_line impl s x).2.2.2.2.2.2.2 hs
    · exact (fire_eq_line impl s _).2.2.2.2.2.2.2 hs

theorem fire_nil {F : Type} (impl : Impl F) (s : Parser F) (b : List Nat) :
    NilAt (fire impl) s b := by
  cases hs : s.parser_status with
  | NOT_STARTED =>
    refine Or.inr (Or.inl ?_)
    rw [(fire_eq_line impl s []).1 hs]; exact line_stage_nil _ _ s
  | READING_HEADERS =>
    refine Or.inr (Or.inl ?_)
    rw [(fire_eq_line impl s []).2.1 hs]; exact line_stage_nil _ _ s
  | READING_BODY =>
    have e : ∀ r, fire impl s r = body_stage s r := fun r => (fire_eq_line impl s r).2.2.1 hs
    unfold NilAt
    simp only [e]
    exact body_stage_nil s b
  | READING_BODY_CHUNKED =>
    have e : ∀ r, fire impl s r = body_stage s r := fun r => (fire_eq_line impl s r).2.2.2.1 hs
    unfold NilAt
    simp only [e]
    exact body_stage_nil s b
  | READING_BODY_CHUNKED_TERMINATOR =>
    refine Or.inr (Or.inl ?_)
    rw [(fire_eq_line impl s []).2.2.2.2.1 hs]; exact line_stage_nil _ _ s
  | READING_BODY_CHUNKED_LENGTH =>
    refine Or.inr (Or.inl ?_)
    rw [(fire_eq_line impl s []).2.2.2.2.2.1 hs]; exact line_stage_nil _ _ s
  | READING_TRAILER_HEADERS =>
    refine Or.inr (Or.inl ?_)
    rw [(fire_eq_line impl s []).2.2.2.2.2.2.1 hs]; exact line_stage_nil _ _ s
  | COMPLETED =>
    exact Or.inr (Or.inl ((fire_eq_line impl s []).2.2.2.2.2.2.2 hs))

/-! ## Splitting the input of `read` -/

theorem cont_zero_eq {F : Type} (impl : Impl F) (k fuel len : Nat) (s : Parser F)
    (rest : List Nat) (h : k ≤ stageIdx s.parser_status) (h6 : stageIdx s.parser_status < 6) :
    cont impl 0 fuel len s rest = cont impl k fuel len s rest := by
  rw [cont_fire impl 0 fuel len s rest (Nat.zero_le _) h6, cont_fire impl k fuel len s rest h h6]

theorem drain {F : Type} (impl : Impl F) (lw la lb : Nat) (hla : 0 < la) (hlb : 0 < lb) :
    ∀ (m k : Nat), 6 - k ≤ m → ∀ (fuel : Nat) (s : Parser F) (b : List Nat) (t : Parser F)
      (n : Nat), b ≠ [] → cont impl k fuel lw s b = some (.ok (t, n)) →
      ∃ s1, (∃ fa, cont impl k fa la s [] = some (.ok (s1, la))) ∧
        (∃ fb, read_loop impl fb lb s1 b = some (.ok (t, lb))) := by
  intro m
  induction m with
  | zero =>
    intro k hk fuel s b t n hb h
    have hskip : stageIdx s.parser_status < k ∨ s.parser_status = COMPLETED := by
      rcases stageIdx_cases s.parser_status k with h1 | h1
      · exact h1
      · omega
    rw [cont_skip impl k fuel lw s b hskip] at h
    refine ⟨s, ⟨1, ?_⟩, ⟨fuel, read_loop_len impl lw lb hlb fuel s b t n h⟩⟩
    rw [cont_skip impl k 1 la s [] hskip, read_loop_nil impl 0 la s hla]
  | succ m ih =>
    intro k hk fuel s b t n hb h
    rcases stageIdx_cases s.parser_status k with hskip | ⟨hle, h6⟩
    · rw [cont_skip impl k fuel lw s b hskip] at h
      refine ⟨s, ⟨1, ?_⟩, ⟨fuel, read_loop_len impl lw lb hlb fuel s b t n h⟩⟩
      rw [cont_skip impl k 1 la s [] hskip, read_loop_nil impl 0 la s hla]
    · have hlater : stageIdx s.parser_status < stageIdx s.parser_status + 1 ∨
          s.parser_status = COMPLETED := Or.inl (Nat.lt_succ_self _)
      rcases fire_nil impl s b with ⟨e, h1, h2⟩ | h1 | ⟨s1, h1, h2⟩
      · rw [cont_fire impl k fuel lw s b hle h6, h2] at h
        simp at h
      · refine ⟨s, ⟨1, ?_⟩, ⟨fuel + 1, ?_⟩⟩
        · rw [cont_fire impl k 1 la s [] hle h6, h1]
          simp only
          rw [cont_skip impl _ 1 la s [] hlater, read_loop_nil impl 0 la s hla]
        · rw [read_loop_cons impl fuel lb s b hb, cont_zero_eq impl k fuel lb s b hle h6]
          exact cont_len impl lw lb hlb k fuel s b t n h
      · rw [cont_fire impl k fuel lw s b hle h6, h2] at h
        simp only at h
        obtain ⟨s2, ⟨fa, hfa⟩, hfb⟩ :=
          ih (stageIdx s.parser_status + 1) (by omega) fuel s1 b t n hb h
        refine ⟨s2, ⟨fa, ?_⟩, hfb⟩
        rw [cont_fire impl k fa la s [] hle h6, h1]
        exact hfa

theorem split_cont {F : Type} (impl : Impl F) (lw la lb : Nat) (hla : 0 < la) (hlb : 0 < lb) :
    ∀ (fuel m k : Nat), 6 - k ≤ m → ∀ (s : Parser F) (x b : List Nat) (t : Parser F) (n : Nat),
      x ≠ [] → b ≠ [] → cont impl k fuel lw s (x ++ b) = some (.ok (t, n)) →
      ∃ s1, (∃ fa, cont impl k fa la s x = some (.ok (s1, la))) ∧
        (∃ fb, read_loop impl fb lb s1 b = some (.ok (t, lb))) := by
  intro fuel
  induction fuel with
  | zero =>
    intro m
    induction m with
    | zero =>
      intro k hk s x b t n hx hb h
      have hskip : stageIdx s.parser_status < k ∨ s.parser_status = COMPLETED := by
        rcases stageIdx_cases s.parser_status k with h1 | h1
        · exact h1
        · omega
      rw [cont_skip impl k 0 lw s _ hskip] at h
      simp [read_loop] at h
    | succ m ihm =>
      intro k hk s x b t n hx hb h
      rcases stageIdx_cases s.parser_status k with hskip | ⟨hle, h6⟩
      · rw [cont_skip impl k 0 lw s _ hskip] at h
        simp [read_loop] at h
      · have hlater : ∀ u : Parser F, u.parser_status = s.parser_status →
            (stageIdx u.parser_status < stageIdx s.parser_status + 1 ∨
              u.parser_status = COMPLETED) := fun u hu => Or.inl (by rw [hu]; omega)
        rw [cont_fire impl k 0 lw s _ hle h6] at h
        rcases fire_split impl s x b hx hb with ⟨e, h1, h2⟩ | ⟨s1, x1, h1, h2⟩ | ⟨s1, h1, h2, h3⟩
        · rw [h2] at h; simp at h
        · rw [h2] at h
          simp only at h
          by_cases hx1 : x1 = []
          · subst hx1
            rw [List.nil_append] at h
            obtain ⟨s2, ⟨fa, hfa⟩, hfb⟩ :=
              drain impl lw la lb hla hlb 6 _ (by omega) 0 s1 b t n hb h
            refine ⟨s2, ⟨fa, ?_⟩, hfb⟩
            rw [cont_fire impl k fa la s x hle h6, h1]
            exact hfa
          · obtain ⟨s2, ⟨fa, hfa⟩, hfb⟩ :=
              ihm (stageIdx s.parser_status + 1) (by omega) s1 x1 b t n hx1 hb h
            refine ⟨s2, ⟨fa, ?_⟩, hfb⟩
            rw [cont_fire impl k fa la s x hle h6, h1]
            exact hfa
        · refine ⟨s1, ⟨1, ?_⟩, ⟨1, ?_⟩⟩
          · rw [cont_fire impl k 1 la s x hle h6, h1]
            simp only
            rw [cont_skip impl _ 1 la s1 [] (hlater s1 h2), read_loop_nil impl 0 la s1 hla]
          · rw [read_loop_cons impl 0 lb s1 b hb,
              cont_fire impl 0 0 lb s1 b (Nat.zero_le _) (by rw [h2]; exact h6), h3, h2]
            cases hf : fire impl s (x ++ b) with
            | error e => rw [hf] at h; simp at h
            | ok p =>
              obtain ⟨s2, r2⟩ := p
              rw [hf] at h
              simp only at h ⊢
              exact cont_len impl lw lb hlb _ 0 s2 r2 t n h
  | succ fuel ihf =>
    intro m
    induction m with
    | zero =>
      intro k hk s x b t n hx hb h
      have hskip : stageIdx s.parser_status < k ∨ s.parser_status = COMPLETED := by
        rcases stageIdx_cases s.parser_status k with h1 | h1
        · exact h1
        · omega
      have hxb : x ++ b ≠ [] := by simp [hx]
      rw [cont_skip impl k _ lw s _ hskip, read_loop_cons impl fuel lw s _ hxb] at h
      obtain ⟨s2, ⟨fa, hfa⟩, hfb⟩ := ihf 6 0 (by omega) s x b t n hx hb h
      refine ⟨s2, ⟨fa + 1, ?_⟩, hfb⟩
      rw [cont_skip impl k _ la s _ hskip, read_loop_cons impl fa la s _ hx]
      exact hfa
    | succ m ihm =>
      intro k hk s x b t n hx hb h
      rcases stageIdx_cases s.parser_status k with hskip | ⟨hle, h6⟩
      · have hxb : x ++ b ≠ [] := by simp [hx]
        rw [cont_skip impl k _ lw s _ hskip, read_loop_cons impl fuel lw s _ hxb] at h
        obtain ⟨s2, ⟨fa, hfa⟩, hfb⟩ := ihf 6 0 (by omega) s x b t n hx hb h
        refine ⟨s2, ⟨fa + 1, ?_⟩, hfb⟩
        rw [cont_skip impl k _ la s _ hskip, read_loop_cons impl fa la s _ hx]
        exact hfa
      · have hlater : ∀ u : Parser F, u.parser_status = s.parser_status →
            (stageIdx u.parser_status < stageIdx s.parser_status + 1 ∨
              u.parser_status = COMPLETED) := fun u hu => Or.inl (by rw [hu]; omega)
        rw [cont_fire impl k _ lw s _ hle h6] at h
        rcases fire_split impl s x b hx hb with ⟨e, h1, h2⟩ | ⟨s1, x1, h1, h2⟩ | ⟨s1, h1, h2, h3⟩
        · rw [h2] at h; simp at h
        · rw [h2] at h
          simp only at h
          by_cases hx1 : x1 = []
          · subst hx1
            rw [List.nil_append] at h
            obtain ⟨s2, ⟨fa, hfa⟩, hfb⟩ :=
              drain impl lw la lb hla hlb 6 _ (by omega) _ s1 b t n hb h
            refine ⟨s2, ⟨fa, ?_⟩, hfb⟩
            rw [cont_fire impl k fa la s x hle h6, h1]
            exact hfa
          · obtain ⟨s2, ⟨fa, hfa⟩, hfb⟩ :=
              ihm (stageIdx s.parser_status + 1) (by omega) s1 x1 b t n hx1 hb h
            refine ⟨s2, ⟨fa, ?_⟩, hfb⟩
            rw [cont_fire impl k fa la s x hle h6, h1]
            exact hfa
        · refine ⟨s1, ⟨1, ?_⟩, ⟨fuel + 2, ?_⟩⟩
          · rw [cont_fire impl k 1 la s x hle h6, h1]
            simp only
            rw [cont_skip impl _ 1 la s1 [] (hlater s1 h2), read_loop_nil impl 0 la s1 hla]
          · rw [read_loop_cons impl (fuel + 1) lb s1 b hb,
              cont_fire impl 0 _ lb s1 b (Nat.zero_le _) (by rw [h2]; exact h6), h3, h2]
            cases hf : fire impl s (x ++ b) with
            | error e => rw [hf] at h; simp at h
            | ok p =>
              obtain ⟨s2, r2⟩ := p
              rw [hf] at h
              simp only at h ⊢
              exact cont_len impl lw lb hlb _ _ s2 r2 t n h

/-- Reading `a ++ b` in one call that returns amounts to reading `a` and then `b`:
each of the two calls returns the length of its piece and the final states agree. -/
theorem read_split {F : Type} (impl : Impl F) (s : Parser F) (a b : List Nat) (t : Parser F)
    (n : Nat) (ha : a ≠ []) (hb : b ≠ []) (h : Returns impl s (a ++ b) t n) :
    ∃ s1, Returns impl s a s1 a.length ∧ Returns impl s1 b t b.length := by
  obtain ⟨fuel, hf⟩ := h
  have hab : a ++ b ≠ [] := by simp [ha]
  have hlab : (a ++ b).length > 0 := List.length_pos.mpr hab
  have hla : a.length > 0 := List.length_pos.mpr ha
  have hlb : b.length > 0 := List.length_pos.mpr hb
  simp only [read, hlab, not_true_eq_false, if_false] at hf
  cases fuel with
  | zero => simp [read_loop] at hf
  | succ fuel =>
    rw [read_loop_cons impl fuel _ s _ hab] at hf
    obtain ⟨s1, ⟨fa, hfa⟩, ⟨fb, hfb⟩⟩ :=
      split_cont impl (a ++ b).length a.length b.length hla hlb fuel 6 0 (by omega) s a b t n
        ha hb hf
    refine ⟨s1, ⟨fa + 1, ?_⟩, ⟨fb, ?_⟩⟩
    · simp only [read, hla, not_true_eq_false, if_false]
      rw [read_loop_cons impl fa _ s _ ha]
      exact hfa
    · simp only [read, hlb, not_true_eq_false, if_false]
      exact hfb

theorem returns_length {F : Type} (impl : Impl F) (s : Parser F) (data : List Nat)
    (t : Parser F) (n : Nat) (h : Returns impl s data t n) : n = data.length ∧ data ≠ [] := by
  obtain ⟨fuel, hf⟩ := h
  by_cases hl : data.length > 0
  · simp only [read, hl, not_true_eq_false, if_false] at hf
    have := read_loop_len impl data.length data.length hl fuel s data t n hf
    rw [hf] at this
    simp only [Option.some.injEq, Except.ok.injEq, Prod.mk.injEq, true_and] at this
    exact ⟨this, List.length_pos.mp hl⟩
  · simp [read, hl] at hf

theorem feeds_of_returns {F : Type} (impl : Impl F) :
    ∀ (pieces : List (List Nat)) (s t : Parser F) (n : Nat),
      (∀ p ∈ pieces, p ≠ []) → Returns impl s pieces.flatten t n → Feeds impl s pieces t := by
  intro pieces
  induction pieces with
  | nil =>
    intro s t n _ h
    exact absurd rfl (returns_length impl s _ t n h).2
  | cons p ps ih =>
    intro s t n hne h
    have hp : p ≠ [] := hne p (by simp)
    have hps : ∀ q ∈ ps, q ≠ [] := fun q hq => hne q (by simp [hq])
    rw [List.flatten_cons] at h
    by_cases hj : ps.flatten = []
    · have hnil : ps = [] := by
        cases ps with
        | nil => rfl
        | cons q qs =>
          have hq : q ≠ [] := hps q (by simp)
          rw [List.flatten_cons] at hj
          exact absurd (List.append_eq_nil.mp hj).1 hq
      subst hnil
      rw [hj, List.append_nil] at h
      have hn := (returns_length impl s p t n h).1
      subst hn
      exact ⟨t, h, rfl⟩
    · obtain ⟨s1, h1, h2⟩ := read_split impl s p ps.flatten t n hp hj h
      exact ⟨s1, h1, ih s1 t _ hps h2⟩

/-- C1: if one call of `read` on the byte sequence `M` returns, leaving the parser (a
fresh one, or one in any other state `s`) in state `t` with status `COMPLETED`, then
for every partition of `M` into non-empty pieces, feeding the pieces in order ends in
the same state `t` (same status `COMPLETED`, first-line fields, headers and body), and
each call returns the length of its piece; pieces may end with CR and the next begin
with LF. -/
theorem split_feeding {F : Type} (impl : Impl F) (s t : Parser F) (M : List Nat) (n : Nat)
    (pieces : List (List Nat)) (hwhole : Returns impl s M t n)
    (hdone : t.parser_status = COMPLETED)
    (hpieces : ∀ p ∈ pieces, p ≠ []) (hjoin : pieces.flatten = M) :
    n = M.length ∧ Feeds impl s pieces t ∧ t.is_completed = true := by
  refine ⟨(returns_length impl s M t n hwhole).1, ?_, by simp [Parser.is_completed, hdone]⟩
  subst hjoin
  exact feeds_of_returns impl pieces s t n hpieces hwhole

theorem split_feeding_witness :
    Feeds ResponseParser freshResponseParser piecesOfResponse
      ⟨COMPLETED, ⟨⟨200, bytes "OK"⟩, [(bytes "Content-Length", bytes "3")], bytes "abc"⟩,
        3, []⟩ :=
  (split_feeding ResponseParser freshResponseParser _
    (bytes "HTTP/1.1 200 OK\r\nContent-Length: 3\r\n\r\nabc") 41 piecesOfResponse
    ⟨4, by decide⟩ (by decide) (by decide) (by decide)).2.1

/-! ## Chunked framing -/

theorem digitVal_hexDigit (d : Nat) (h : d < 16) : digitVal 16 (hexDigit d) = some d := by
  interval_cases d <;> decide

theorem hexDigit_ne_x (d : Nat) (h : d < 16) : hexDigit d ≠ 120 ∧ hexDigit d ≠ 88 := by
  interval_cases d <;> decide

theorem toHexRev_digits : ∀ (fuel n : Nat), ∀ c ∈ toHexRev fuel n, ∃ d, d < 16 ∧ c = hexDigit d := by
  intro fuel
  induction fuel with
  | zero => intro n c hc; simp [toHexRev] at hc
  | succ fuel ih =>
    intro n c hc
    unfold toHexRev at hc
    by_cases hn : n < 16
    · rw [if_pos hn] at hc
      exact ⟨n, hn, by simpa using hc⟩
    · rw [if_neg hn] at hc
      rcases List.mem_cons.mp hc with rfl | hc
      · exact ⟨n % 16, Nat.mod_lt _ (by omega), rfl⟩
      · exact ih _ c hc

theorem toHexRev_ne_nil (fuel n : Nat) : toHexRev (fuel + 1) n ≠ [] := by
  unfold toHexRev
  split_ifs <;> simp

theorem readDigits_toHexRev : ∀ (fuel n : Nat) (rest : List Nat), n < fuel →
    ∃ k, 1 ≤ k ∧
      readDigits 16 ((toHexRev fuel n).reverse ++ rest) 0 0 = readDigits 16 rest n k := by
  intro fuel
  induction fuel with
  | zero => intro n rest h; omega
  | succ fuel ih =>
    intro n rest h
    unfold toHexRev
    by_cases hn : n < 16
    · rw [if_pos hn]
      refine ⟨1, Nat.le_refl 1, ?_⟩
      simp only [List.reverse_singleton, List.singleton_append]
      rw [readDigits]
      simp [digitVal_hexDigit n hn]
    · rw [if_neg hn]
      have hdiv : n / 16 < fuel := by omega
      obtain ⟨k, hk, e⟩ := ih (n / 16) (hexDigit (n % 16) :: rest) hdiv
      refine ⟨k + 1, by omega, ?_⟩
      rw [List.reverse_cons, List.append_assoc, List.singleton_append, e]
      rw [readDigits]
      simp only [digitVal_hexDigit (n % 16) (Nat.mod_lt _ (by omega))]
      have : n / 16 * 16 + n % 16 = n := by omega
      rw [this]

theorem stoul_toHex (n : Nat) (h : n < SIZE) : stoul (toHex n) 16 = .ok n := by
  obtain ⟨k, hk, e⟩ := readDigits_toHexRev (n + 1) n [] (Nat.lt_succ_self n)
  rw [List.append_nil] at e
  have hne : toHex n ≠ [] := by
    simp [toHex, toHexRev_ne_nil]
  have hall : ∀ c ∈ toHex n, ∃ d, d < 16 ∧ c = hexDigit d := by
    intro c hc
    exact toHexRev_digits (n + 1) n c (by simpa [toHex] using hc)
  have hval : (readDigits 16 (toHex n) 0 0).1 = n := by
    unfold toHex; rw [e]; simp [readDigits]
  cases hx : toHex n with
  | nil => exact absurd hx hne
  | cons c r =>
    obtain ⟨d, hd, rfl⟩ := hall c (by rw [hx]; simp)
    have hc : (digitVal 16 (hexDigit d)).isSome := by simp [digitVal_hexDigit d hd]
    have hpre : skipHexPrefix 16 (hexDigit d :: r) = hexDigit d :: r := by
      unfold skipHexPrefix
      split
      · rename_i x y z heq
        have hx2 : x ∈ toHex n := by
          rw [hx, heq]; simp
        obtain ⟨d2, hd2, rfl⟩ := hall x hx2
        have := hexDigit_ne_x d2 hd2
        simp [this.1, this.2, heq]
      · rfl
    rw [hx] at hval
    have := stoul_hex_digit_first (hexDigit d) r hc hpre (by rw [hval]; exact h)
    rw [this, hval]

theorem read_line_on_line (l more : List Nat) (hl : firstCRLF l = none) :
    read_line [] (l ++ CRLF ++ more) = ⟨true, l, l.length + 2, []⟩ := by
  have hne : l ++ CRLF ++ more ≠ [] := by simp [CRLF]
  have hf : firstCRLF (l ++ CRLF ++ more) = some l.length := by
    rw [List.append_assoc, firstCRLF_append_of_none l _ hl]
    simp [CRLF, firstCRLF]
  rw [read_line_eq, if_neg hne, if_neg (by simp), hf]
  simp only [List.nil_append, LineRead.mk.injEq, true_and, and_true]
  rw [List.append_assoc, List.take_left]

theorem line_stage_on_line {F : Type} (st : ParserStatus)
    (body : Parser F → List Nat → Except (Halt F) (Parser F)) (s : Parser F)
    (l more : List Nat) (hst : s.parser_status = st) (hbuf : s.buffer = [])
    (hl : firstCRLF l = none) :
    line_stage st body s (l ++ CRLF ++ more) =
      match body s l with
      | .ok s2 => .ok (s2, more)
      | .error h => .error h := by
  subst hst
  have hs : ({ s with buffer := [] } : Parser F) = s := by
    cases s; simp at hbuf; simp [hbuf]
  have hd : List.drop (l.length + 2) (l ++ CRLF ++ more) = more := by
    have : l.length + 2 = (l ++ CRLF).length := by simp [CRLF]
    rw [this, List.drop_left]
  simp only [line_stage, if_true, hbuf, read_line_on_line l more hl, hs, hd]

theorem cont_on_line {F : Type} (impl : Impl F) (st : ParserStatus)
    (body : Parser F → List Nat → Except (Halt F) (Parser F)) (k fuel len : Nat)
    (s s2 : Parser F) (l more : List Nat)
    (hfire : fire impl s (l ++ CRLF ++ more) = line_stage st body s (l ++ CRLF ++ more))
    (hst : s.parser_status = st) (hbuf : s.buffer = []) (hl : firstCRLF l = none)
    (hk : k ≤ stageIdx st) (h6 : stageIdx st < 6) (hbody : body s l = .ok s2) :
    cont impl k fuel len s (l ++ CRLF ++ more) = cont impl (stageIdx st + 1) fuel len s2 more := by
  rw [cont_fire impl k fuel len s _ (by rw [hst]; exact hk) (by rw [hst]; exact h6), hfire,
    line_stage_on_line st body s l more hst hbuf hl, hbody, hst]

theorem firstCRLF_toHex (n : Nat) : firstCRLF (toHex n) = none := by
  apply firstCRLF_none_of
  intro y hy
  have hy2 : y ∈ toHex n := List.mem_of_mem_dropLast hy
  obtain ⟨d, hd, rfl⟩ := toHexRev_digits (n + 1) n y (by simpa [toHex] using hy2)
  interval_cases d <;> decide

theorem headers_phase {F : Type} (impl : Impl F) (len : Nat) :
    ∀ (hs : List (List Nat)) (s : Parser F) (H : Headers) (fuel : Nat) (more : List Nat),
      s.parser_status = READING_HEADERS → s.buffer = [] →
      (∀ h ∈ hs, h ≠ [] ∧ firstCRLF h = none) →
      add_headers s.message.headers hs = .ok H → more ≠ [] →
      cont impl 0 (fuel + hs.length) len s ((hs.map (fun l => l ++ CRLF)).flatten ++ more) =
        cont impl 0 fuel len { s with message := { s.message with headers := H } } more := by
  intro hs
  induction hs with
  | nil =>
    intro s H fuel more _ _ _ hadd _
    simp only [add_headers, Except.ok.injEq] at hadd
    subst hadd
    rfl
  | cons h hs ih =>
    intro s H fuel more hst hbuf hall hadd hmore
    obtain ⟨hne, hl⟩ := hall h (by simp)
    have hall' : ∀ h' ∈ hs, h' ≠ [] ∧ firstCRLF h' = none := fun h' hh => hall h' (by simp [hh])
    simp only [add_headers] at hadd
    cases hah : add_header s.message.headers h with
    | error e => rw [hah] at hadd; simp at hadd
    | ok H1 =>
      rw [hah] at hadd
      simp only at hadd
      have hbody : headers_body s h =
          .ok { s with message := { s.message with headers := H1 } } := by
        have hlen : h.length ≠ 0 := by
          intro h0; exact hne (List.length_eq_zero.mp h0)
        simp [headers_body, hbuf, hlen, add_header_to, hah]
      have hrest : (hs.map (fun l => l ++ CRLF)).flatten ++ more ≠ [] := by
        simp [hmore]
      rw [List.map_cons, List.flatten_cons, List.append_assoc]
      rw [cont_on_line impl READING_HEADERS headers_body 0 _ len s _ h _
        ((fire_eq_line impl s _).2.1 hst) hst hbuf hl (by simp [stageIdx]) (by simp [stageIdx])
        hbody]
      rw [cont_skip impl _ _ len _ _ (Or.inl (by simp [stageIdx, hst]))]
      rw [List.length_cons, ← Nat.add_assoc, read_loop_cons impl _ len _ _ hrest]
      exact ih _ H fuel more hst hbuf hall' hadd hmore

theorem remaining_of_chunk (B n : Nat) (h : B + n < SIZE) :
    ((B + n) % SIZE + SIZE - B % SIZE) % SIZE = n := by
  unfold SIZE at *
  omega

theorem chunk_step {F : Type} (impl : Impl F) (len fuel : Nat) (s : Parser F)
    (c more : List Nat) (hst : s.parser_status = READING_BODY_CHUNKED_LENGTH)
    (hbuf : s.buffer = []) (hexp : s.expected_body_len = s.message.body.length)
    (hc : c ≠ []) (hsize : s.message.body.length + c.length < SIZE) :
    cont impl 0 (fuel + 1) len s (encodeChunk c ++ more) =
      cont impl 0 fuel len
        { s with
            message := { s.message with body := s.message.body ++ c }
            expected_body_len := s.message.body.length + c.length } more := by
  have hclen : 0 < c.length := List.length_pos.mpr hc
  have hcs : c.length < SIZE := by omega
  have hrem : ((s.expected_body_len + c.length) % SIZE + SIZE - s.message.body.length % SIZE)
      % SIZE = c.length := by
    rw [hexp]; exact remaining_of_chunk _ _ hsize
  have hexp2 : (s.expected_body_len + c.length) % SIZE = s.message.body.length + c.length := by
    rw [hexp]; exact Nat.mod_eq_of_lt hsize
  -- the chunk-size line
  have hbody1 : chunk_length_body s (toHex c.length) =
      .ok { s with
              parser_status := READING_BODY_CHUNKED
              expected_body_len := (s.expected_body_len + c.length) % SIZE } := by
    have hne0 : c.length ≠ 0 := by omega
    simp [chunk_length_body, stoul_toHex c.length hcs, hne0]
  have henc : encodeChunk c ++ more = toHex c.length ++ CRLF ++ (c ++ (CRLF ++ more)) := by
    simp [encodeChunk, List.append_assoc]
  have h1 := cont_on_line impl READING_BODY_CHUNKED_LENGTH chunk_length_body 0 (fuel + 1) len s
    { s with
        parser_status := READING_BODY_CHUNKED
        expected_body_len := (s.expected_body_len + c.length) % SIZE }
    (toHex c.length) (c ++ (CRLF ++ more))
    ((fire_eq_line impl s _).2.2.2.2.2.1 hst) hst hbuf (firstCRLF_toHex _)
    (by simp [stageIdx]) (by simp [stageIdx]) hbody1
  have hne2 : c ++ (CRLF ++ more) ≠ [] := by simp [hc]
  have h2 := cont_skip impl (stageIdx READING_BODY_CHUNKED_LENGTH + 1) (fuel + 1) len
    ({ s with
        parser_status := READING_BODY_CHUNKED
        expected_body_len := (s.expected_body_len + c.length) % SIZE } : Parser F)
    (c ++ (CRLF ++ more)) (Or.inl (by simp [stageIdx]))
  -- the chunk bytes
  have h3 := cont_fire impl 0 fuel len
    ({ s with
        parser_status := READING_BODY_CHUNKED
        expected_body_len := (s.expected_body_len + c.length) % SIZE } : Parser F)
    (c ++ (CRLF ++ more)) (Nat.zero_le _) (by simp [stageIdx])
  have h3b := body_stage_take
    ({ s with
        parser_status := READING_BODY_CHUNKED
        expected_body_len := (s.expected_body_len + c.length) % SIZE } : Parser F)
    (c ++ (CRLF ++ more)) (Or.inr rfl) (by simp [hbuf]) (by simp only [hexp2]; omega)
    (by simp only [hrem, List.length_append]; omega)
  simp only [hrem, List.take_left, List.drop_left] at h3b
  rw [(fire_eq_line impl _ _).2.2.2.1 rfl, h3b] at h3
  simp only [stageIdx] at h3
  -- the terminator of the chunk
  have h4 := cont_on_line impl READING_BODY_CHUNKED_TERMINATOR chunk_terminator_body 3 fuel len
    ({ s with
        parser_status := READING_BODY_CHUNKED_TERMINATOR
        message := { s.message with body := s.message.body ++ c }
        expected_body_len := (s.expected_body_len + c.length) % SIZE } : Parser F)
    { s with
        parser_status := READING_BODY_CHUNKED_LENGTH
        message := { s.message with body := s.message.body ++ c }
        expected_body_len := (s.expected_body_len + c.length) % SIZE } [] more
    ((fire_eq_line impl _ _).2.2.2.2.1 rfl) rfl hbuf rfl (by simp [stageIdx])
    (by simp [stageIdx]) (by simp [chunk_terminator_body])
  have h5 := cont_zero_eq impl 4 fuel len
    ({ s with
        parser_status := READING_BODY_CHUNKED_LENGTH
        message := { s.message with body := s.message.body ++ c }
        expected_body_len := (s.expected_body_len + c.length) % SIZE } : Parser F) more
    (by simp [stageIdx]) (by simp [stageIdx])
  simp only [List.nil_append, stageIdx] at h4
  rw [henc, h1, h2, read_loop_cons impl fuel len _ _ hne2, h3]
  simp only [if_neg (show ¬ (READING_BODY_CHUNKED = READING_BODY) by decide)]
  rw [h4, ← h5]
  congr 1
  cases s with
  | mk st msg e buf =>
    cases msg
    simp at hst hexp2 ⊢
    exact ⟨hst.symm, hexp2⟩

theorem chunks_phase {F : Type} (impl : Impl F) (len : Nat) :
    ∀ (cs : List (List Nat)) (s : Parser F) (fuel : Nat) (more : List Nat),
      s.parser_status = READING_BODY_CHUNKED_LENGTH → s.buffer = [] →
      s.expected_body_len = s.message.body.length →
      (∀ c ∈ cs, c ≠ []) → s.message.body.length + cs.flatten.length < SIZE →
      cont impl 0 (fuel + cs.length) len s ((cs.map encodeChunk).flatten ++ more) =
        cont impl 0 fuel len
          { s with
              message := { s.message with body := s.message.body ++ cs.flatten }
              expected_body_len := s.message.body.length + cs.flatten.length } more := by
  intro cs
  induction cs with
  | nil =>
    intro s fuel more _ _ hexp _ _
    have : ({ s with
              message := { s.message with body := s.message.body ++ ([] : List (List Nat)).flatten }
              expected_body_len := s.message.body.length + ([] : List (List Nat)).flatten.length }
            : Parser F) = s := by
      cases s with
      | mk st msg e buf =>
        cases msg
        simp at hexp
        simp [hexp]
    rw [this]
    rfl
  | cons c cs ih =>
    intro s fuel more hst hbuf hexp hall hsize
    have hc : c ≠ [] := hall c (by simp)
    have hall' : ∀ c' ∈ cs, c' ≠ [] := fun c' hh => hall c' (by simp [hh])
    simp only [List.flatten_cons, List.length_append] at hsize
    rw [List.map_cons, List.flatten_cons, List.append_assoc, List.length_cons, ← Nat.add_assoc]
    rw [chunk_step impl len (fuel + cs.length) s c _ hst hbuf hexp hc (by omega)]
    rw [ih { s with
              message := { s.message with body := s.message.body ++ c }
              expected_body_len := s.message.body.length + c.length }
      fuel more hst hbuf (by simp) hall' (by simp only [List.length_append]; omega)]
    simp only [List.flatten_cons, List.append_assoc, List.length_append, Nat.add_assoc]

/-- C4: for every list of non-empty chunks (also the empty list), a fresh parser fed a
valid first line, a header block whose `Transfer-Encoding` value is `chunked`, the
empty line, each chunk as its length in hexadecimal, CRLF, its bytes, CRLF, and at
last `0` CRLF CRLF, returns the full input length and ends in `COMPLETED` with the
body equal to the concatenation of the chunks.  (The body is shorter than `2^64`
bytes, as every input of `read` is.) -/
theorem chunked_framing {F : Type} (impl : Impl F) (f0 f1 : F) (first : List Nat)
    (hdrs : List (List Nat)) (H : Headers) (cs : List (List Nat))
    (hfirst : firstCRLF first = none) (hline : impl.read_first_line f0 first = (f1, none))
    (hhdrs : ∀ h ∈ hdrs, h ≠ [] ∧ firstCRLF h = none) (hadd : add_headers [] hdrs = .ok H)
    (hTE : Headers.get H (bytes "Transfer-Encoding") = some (bytes "chunked"))
    (hcs : ∀ c ∈ cs, c ≠ []) (hsize : cs.flatten.length < SIZE) :
    Returns impl (fresh f0) (encodeHead first hdrs ++ encodeChunked cs)
      ⟨COMPLETED, ⟨f1, H, cs.flatten⟩, cs.flatten.length, []⟩
      (encodeHead first hdrs ++ encodeChunked cs).length := by
  refine ⟨((0 + 1) + cs.length) + hdrs.length + 1, ?_⟩
  have hne : encodeHead first hdrs ++ encodeChunked cs ≠ [] := by
    simp [encodeHead, CRLF]
  have hlen : (encodeHead first hdrs ++ encodeChunked cs).length > 0 := List.length_pos.mpr hne
  simp only [read, hlen, not_true_eq_false, if_false]
  rw [read_loop_cons impl _ _ _ _ hne]
  generalize (encodeHead first hdrs ++ encodeChunked cs).length = len at hlen ⊢
  have hinput : encodeHead first hdrs ++ encodeChunked cs =
      first ++ CRLF ++ ((hdrs.map (fun l => l ++ CRLF)).flatten ++ (CRLF ++ encodeChunked cs)) := by
    simp [encodeHead, List.append_assoc]
  have htail : CRLF ++ encodeChunked cs ≠ [] := by simp [CRLF]
  -- the first line
  have h1 := cont_on_line impl NOT_STARTED (first_line_body impl) 0
    (((0 + 1) + cs.length) + hdrs.length) len (fresh f0)
    ⟨READING_HEADERS, ⟨f1, [], []⟩, 0, []⟩ first
    ((hdrs.map (fun l => l ++ CRLF)).flatten ++ (CRLF ++ encodeChunked cs))
    ((fire_eq_line impl _ _).1 rfl) rfl rfl hfirst (by simp [stageIdx]) (by simp [stageIdx])
    (by simp [first_line_body, fresh, reset, hline])
  have h1b := cont_zero_eq impl 1 (((0 + 1) + cs.length) + hdrs.length) len
    (⟨READING_HEADERS, ⟨f1, [], []⟩, 0, []⟩ : Parser F)
    ((hdrs.map (fun l => l ++ CRLF)).flatten ++ (CRLF ++ encodeChunked cs))
    (by simp [stageIdx]) (by simp [stageIdx])
  -- the header lines
  have h2 := headers_phase impl len hdrs (⟨READING_HEADERS, ⟨f1, [], []⟩, 0, []⟩ : Parser F) H
    ((0 + 1) + cs.length) (CRLF ++ encodeChunked cs) rfl rfl hhdrs hadd htail
  -- the empty line
  have h3 := cont_on_line impl READING_HEADERS headers_body 0 ((0 + 1) + cs.length) len
    (⟨READING_HEADERS, ⟨f1, H, []⟩, 0, []⟩ : Parser F)
    ⟨READING_BODY_CHUNKED_LENGTH, ⟨f1, H, []⟩, 0, []⟩ [] (encodeChunked cs)
    ((fire_eq_line impl _ _).2.1 rfl) rfl rfl rfl (by simp [stageIdx]) (by simp [stageIdx])
    (by simp [headers_body, end_of_headers, hTE])
  have h3b := cont_zero_eq impl 2 ((0 + 1) + cs.length) len
    (⟨READING_BODY_CHUNKED_LENGTH, ⟨f1, H, []⟩, 0, []⟩ : Parser F) (encodeChunked cs)
    (by simp [stageIdx]) (by simp [stageIdx])
  -- the chunks
  have h4 := chunks_phase impl len cs
    (⟨READING_BODY_CHUNKED_LENGTH, ⟨f1, H, []⟩, 0, []⟩ : Parser F) (0 + 1)
    (bytes "0" ++ CRLF ++ CRLF) rfl rfl rfl hcs (by simpa using hsize)
  -- the zero-length chunk and the empty line
  have h5 := cont_on_line impl READING_BODY_CHUNKED_LENGTH chunk_length_body 0 (0 + 1) len
    (⟨READING_BODY_CHUNKED_LENGTH, ⟨f1, H, cs.flatten⟩, cs.flatten.length, []⟩ : Parser F)
    ⟨READING_TRAILER_HEADERS, ⟨f1, H, cs.flatten⟩, cs.flatten.length, []⟩ (bytes "0") CRLF
    ((fire_eq_line impl _ _).2.2.2.2.2.1 rfl) rfl rfl (by decide) (by simp [stageIdx])
    (by simp [stageIdx])
    (by
      have : stoul (bytes "0") 16 = .ok 0 := by decide
      simp [chunk_length_body, this])
  have h6 := cont_on_line impl READING_TRAILER_HEADERS trailer_body 5 (0 + 1) len
    (⟨READING_TRAILER_HEADERS, ⟨f1, H, cs.flatten⟩, cs.flatten.length, []⟩ : Parser F)
    ⟨COMPLETED, ⟨f1, H, cs.flatten⟩, cs.flatten.length, []⟩ [] []
    ((fire_eq_line impl _ _).2.2.2.2.2.2.1 rfl) rfl rfl rfl (by simp [stageIdx])
    (by simp [stageIdx]) (by simp [trailer_body])
  have h7 := cont_skip impl 6 (0 + 1) len
    (⟨COMPLETED, ⟨f1, H, cs.flatten⟩, cs.flatten.length, []⟩ : Parser F) [] (Or.inr rfl)
  simp only [List.nil_append, List.append_nil, stageIdx, Nat.zero_add, List.length_nil,
    Nat.reduceAdd] at h1 h1b h2 h3 h3b h4 h5 h6 h7
  simp only [encodeChunked] at h1 h1b h2 h3 h3b
  rw [hinput]
  simp only [encodeChunked, Nat.zero_add]
  rw [h1, ← h1b, h2, h3, ← h3b, h4, h5, h6, h7, read_loop_nil impl 0 len _ hlen]

theorem chunked_framing_witness :
    Returns ResponseParser freshResponseParser
      (bytes "HTTP/1.1 200 OK\r\nTransfer-Encoding: chunked\r\n\r\n4\r\nWiki\r\n5\r\npedia\r\n0\r\n\r\n")
      ⟨COMPLETED, ⟨⟨200, bytes "OK"⟩, [(bytes "Transfer-Encoding", bytes "chunked")],
        bytes "Wikipedia"⟩, 9, []⟩ 71 :=
  chunked_framing ResponseParser ⟨0, []⟩ ⟨200, bytes "OK"⟩ (bytes "HTTP/1.1 200 OK")
    [bytes "Transfer-Encoding: chunked"] [(bytes "Transfer-Encoding", bytes "chunked")]
    [bytes "Wiki", bytes "pedia"] (by decide) (by decide) (by decide) (by decide) (by decide)
    (by decide) (by decide)

/-! ## A completed message followed by further bytes -/

theorem stageIdx_completed_of_ge {st : ParserStatus} (h : st = COMPLETED) : ¬ stageIdx st < 6 := by
  subst h; simp [stageIdx]

theorem drain_completed {F : Type} (impl : Impl F) (lw la : Nat) :
    ∀ (m k : Nat), 6 - k ≤ m → ∀ (fa : Nat) (s : Parser F) (b : List Nat) (t : Parser F)
      (n : Nat), b ≠ [] → cont impl k fa la s [] = some (.ok (t, n)) →
      t.parser_status = COMPLETED → ∀ f, cont impl k f lw s b = none := by
  intro m
  induction m with
  | zero =>
    intro k hk fa s b t n hb h ht f
    have hskip : stageIdx s.parser_status < k ∨ s.parser_status = COMPLETED := by
      rcases stageIdx_cases s.parser_status k with h1 | h1
      · exact h1
      · omega
    rw [cont_skip impl k fa la s [] hskip] at h
    cases fa with
    | zero => simp [read_loop] at h
    | succ fa =>
      have hts : t = s := by
        simp only [read_loop, if_true] at h
        split_ifs at h
        all_goals simp at h
        exact h.1.symm
      subst hts
      rw [cont_skip impl k f lw t b hskip]
      exact completed_never_exits impl lw t b ht hb f
  | succ m ih =>
    intro k hk fa s b t n hb h ht f
    rcases stageIdx_cases s.parser_status k with hskip | ⟨hle, h6⟩
    · rw [cont_skip impl k fa la s [] hskip] at h
      cases fa with
      | zero => simp [read_loop] at h
      | succ fa =>
        have hts : t = s := by
          simp only [read_loop, if_true] at h
          split_ifs at h
          all_goals simp at h
          exact h.1.symm
        subst hts
        rw [cont_skip impl k f lw t b hskip]
        exact completed_never_exits impl lw t b ht hb f
    · have hlater : stageIdx s.parser_status < stageIdx s.parser_status + 1 ∨
          s.parser_status = COMPLETED := Or.inl (Nat.lt_succ_self _)
      rcases fire_nil impl s b with ⟨e, h1, h2⟩ | h1 | ⟨s1, h1, h2⟩
      · rw [cont_fire impl k fa la s [] hle h6, h1] at h
        simp at h
      · rw [cont_fire impl k fa la s [] hle h6, h1] at h
        simp only at h
        rw [cont_skip impl _ fa la s [] hlater] at h
        cases fa with
        | zero => simp [read_loop] at h
        | succ fa =>
          have hts : t = s := by
            simp only [read_loop, if_true] at h
            split_ifs at h
            all_goals simp at h
            exact h.1.symm
          subst hts
          exact absurd h6 (stageIdx_completed_of_ge ht)
      · rw [cont_fire impl k fa la s [] hle h6, h1] at h
        simp only at h
        rw [cont_fire impl k f lw s b hle h6, h2]
        exact ih (stageIdx s.parser_status + 1) (by omega) fa s1 b t n hb h ht f

theorem extend_completed {F : Type} (impl : Impl F) (lw la : Nat) :
    ∀ (fa m k : Nat), 6 - k ≤ m → ∀ (s : Parser F) (x b : List Nat) (t : Parser F) (n : Nat),
      x ≠ [] → b ≠ [] → cont impl k fa la s x = some (.ok (t, n)) →
      t.parser_status = COMPLETED → ∀ f, cont impl k f lw s (x ++ b) = none := by
  intro fa
  induction fa with
  | zero =>
    intro m
    induction m with
    | zero =>
      intro k hk s x b t n hx hb h ht f
      have hskip : stageIdx s.parser_status < k ∨ s.parser_status = COMPLETED := by
        rcases stageIdx_cases s.parser_status k with h1 | h1
        · exact h1
        · omega
      rw [cont_skip impl k 0 la s _ hskip] at h
      simp [read_loop] at h
    | succ m ihm =>
      intro k hk s x b t n hx hb h ht f
      rcases stageIdx_cases s.parser_status k with hskip | ⟨hle, h6⟩
      · rw [cont_skip impl k 0 la s _ hskip] at h
        simp [read_loop] at h
      · rw [cont_fire impl k 0 la s _ hle h6] at h
        rw [cont_fire impl k f lw s _ hle h6]
        rcases fire_split impl s x b hx hb with ⟨e, h1, h2⟩ | ⟨s1, x1, h1, h2⟩ | ⟨s1, h1, h2, h3⟩
        · rw [h1] at h; simp at h
        · rw [h1] at h
          rw [h2]
          simp only at h ⊢
          by_cases hx1 : x1 = []
          · subst hx1
            rw [List.nil_append]
            exact drain_completed impl lw la 6 _ (by omega) 0 s1 b t n hb h ht f
          · exact ihm (stageIdx s.parser_status + 1) (by omega) s1 x1 b t n hx1 hb h ht f
        · rw [h1] at h
          simp only at h
          rw [cont_skip impl _ 0 la s1 [] (Or.inl (by rw [h2]; omega))] at h
          simp [read_loop] at h
  | succ fa ihf =>
    intro m
    induction m with
    | zero =>
      intro k hk s x b t n hx hb h ht f
      have hskip : stageIdx s.parser_status < k ∨ s.parser_status = COMPLETED := by
        rcases stageIdx_cases s.parser_status k with h1 | h1
        · exact h1
        · omega
      have hxb : x ++ b ≠ [] := by simp [hx]
      rw [cont_skip impl k _ la s _ hskip, read_loop_cons impl fa la s _ hx] at h
      rw [cont_skip impl k _ lw s _ hskip]
      cases f with
      | zero => rfl
      | succ f =>
        rw [read_loop_cons impl f lw s _ hxb]
        exact ihf 6 0 (by omega) s x b t n hx hb h ht f
    | succ m ihm =>
      intro k hk s x b t n hx hb h ht f
      rcases stageIdx_cases s.parser_status k with hskip | ⟨hle, h6⟩
      · have hxb : x ++ b ≠ [] := by simp [hx]
        rw [cont_skip impl k _ la s _ hskip, read_loop_cons impl fa la s _ hx] at h
        rw [cont_skip impl k _ lw s _ hskip]
        cases f with
        | zero => rfl
        | succ f =>
          rw [read_loop_cons impl f lw s _ hxb]
          exact ihf 6 0 (by omega) s x b t n hx hb h ht f
      · rw [cont_fire impl k _ la s _ hle h6] at h
        rw [cont_fire impl k f lw s _ hle h6]
        rcases fire_split impl s x b hx hb with ⟨e, h1, h2⟩ | ⟨s1, x1, h1, h2⟩ | ⟨s1, h1, h2, h3⟩
        · rw [h1] at h; simp at h
        · rw [h1] at h
          rw [h2]
          simp only at h ⊢
          by_cases hx1 : x1 = []
          · subst hx1
            rw [List.nil_append]
            exact drain_completed impl lw la 6 _ (by omega) _ s1 b t n hb h ht f
          · exact ihm (stageIdx s.parser_status + 1) (by omega) s1 x1 b t n hx1 hb h ht f
        · rw [h1] at h
          simp only at h
          rw [cont_skip impl _ _ la s1 [] (Or.inl (by rw [h2]; omega))] at h
          have hts : t = s1 := by
            simp only [read_loop, if_true] at h
            split_ifs at h
            all_goals simp at h
            exact h.1.symm
          subst hts
          exact absurd h6 (by rw [← h2]; exact stageIdx_completed_of_ge ht)

/-- Whenever `read` on `M` returns with the message completed, `read` on `M` followed
by at least one further byte never returns: the loop reaches `COMPLETED` with input
left and its condition `p != end` stays true. -/
theorem read_past_completed_diverges {F : Type} (impl : Impl F) (s t : Parser F)
    (M extra : List Nat) (n : Nat) (h : Returns impl s M t n)
    (ht : t.parser_status = COMPLETED) (hextra : extra ≠ []) :
    Diverges impl s (M ++ extra) := by
  obtain ⟨hn, hM⟩ := returns_length impl s M t n h
  obtain ⟨fuel, hf⟩ := h
  have hl : M.length > 0 := List.length_pos.mpr hM
  have hMe : M ++ extra ≠ [] := by simp [hM]
  have hle : (M ++ extra).length > 0 := List.length_pos.mpr hMe
  simp only [read, hl, not_true_eq_false, if_false] at hf
  intro f
  simp only [read, hle, not_true_eq_false, if_false]
  cases fuel with
  | zero => simp [read_loop] at hf
  | succ fuel =>
    rw [read_loop_cons impl fuel _ s _ hM] at hf
    cases f with
    | zero => rfl
    | succ f =>
      rw [read_loop_cons impl f _ s _ hMe]
      exact extend_completed impl _ _ fuel 6 0 (by omega) s M extra t n hM hextra hf ht f

/-! ## Content-Length framing and header lines in general -/

theorem stoul_lt (v : List Nat) (base n : Nat) (h : stoul v base = .ok n) : n < SIZE := by
  unfold stoul at h
  simp only at h
  split_ifs at h with h1 h2 h3
  · cases h
    exact Nat.mod_lt _ (by decide)
  · cases h
    omega

/-- For every `N ≥ 1`: a fresh parser fed a valid first line, a header block without
`Transfer-Encoding: chunked` whose `Content-Length` value reads as `N`, the empty line
and a body of exactly `N` bytes returns the full input length and ends in `COMPLETED`
with that body. -/
theorem content_length_framing {F : Type} (impl : Impl F) (f0 f1 : F) (first : List Nat)
    (hdrs : List (List Nat)) (H : Headers) (it : List Nat × List Nat) (N : Nat)
    (body : List Nat)
    (hfirst : firstCRLF first = none) (hline : impl.read_first_line f0 first = (f1, none))
    (hhdrs : ∀ h ∈ hdrs, h ≠ [] ∧ firstCRLF h = none) (hadd : add_headers [] hdrs = .ok H)
    (hTE : Headers.get H (bytes "Transfer-Encoding") ≠ some (bytes "chunked"))
    (hfind : Headers.find H (bytes "Content-Length") = some it)
    (hN : stoul it.2 10 = .ok N) (hpos : 0 < N) (hbody : body.length = N) :
    Returns impl (fresh f0) (encodeHead first hdrs ++ body)
      ⟨COMPLETED, ⟨f1, H, body⟩, N, []⟩ (encodeHead first hdrs ++ body).length := by
  refine ⟨(0 + 1) + hdrs.length + 1, ?_⟩
  have hne : encodeHead first hdrs ++ body ≠ [] := by
    simp [encodeHead, CRLF]
  have hlen : (encodeHead first hdrs ++ body).length > 0 := List.length_pos.mpr hne
  simp only [read, hlen, not_true_eq_false, if_false]
  rw [read_loop_cons impl _ _ _ _ hne]
  generalize (encodeHead first hdrs ++ body).length = len at hlen ⊢
  have hinput : encodeHead first hdrs ++ body =
      first ++ CRLF ++ ((hdrs.map (fun l => l ++ CRLF)).flatten ++ (CRLF ++ body)) := by
    simp [encodeHead, List.append_assoc]
  have htail : CRLF ++ body ≠ [] := by simp [CRLF]
  have hNlt := stoul_lt _ _ _ hN
  have h1 := cont_on_line impl NOT_STARTED (first_line_body impl) 0
    ((0 + 1) + hdrs.length) len (fresh f0)
    ⟨READING_HEADERS, ⟨f1, [], []⟩, 0, []⟩ first
    ((hdrs.map (fun l => l ++ CRLF)).flatten ++ (CRLF ++ body))
    ((fire_eq_line impl _ _).1 rfl) rfl rfl hfirst (by simp [stageIdx]) (by simp [stageIdx])
    (by simp [first_line_body, fresh, reset, hline])
  have h1b := cont_zero_eq impl 1 ((0 + 1) + hdrs.length) len
    (⟨READING_HEADERS, ⟨f1, [], []⟩, 0, []⟩ : Parser F)
    ((hdrs.map (fun l => l ++ CRLF)).flatten ++ (CRLF ++ body))
    (by simp [stageIdx]) (by simp [stageIdx])
  have h2 := headers_phase impl len hdrs (⟨READING_HEADERS, ⟨f1, [], []⟩, 0, []⟩ : Parser F) H
    (0 + 1) (CRLF ++ body) rfl rfl hhdrs hadd htail
  have h3 := cont_on_line impl READING_HEADERS headers_body 0 (0 + 1) len
    (⟨READING_HEADERS, ⟨f1, H, []⟩, 0, []⟩ : Parser F)
    ⟨READING_BODY, ⟨f1, H, []⟩, N, []⟩ [] body
    ((fire_eq_line impl _ _).2.1 rfl) rfl rfl rfl (by simp [stageIdx]) (by simp [stageIdx])
    (by simp [headers_body, end_of_headers, hTE, hfind, hN])
  have h4 := cont_fire impl 2 (0 + 1) len (⟨READING_BODY, ⟨f1, H, []⟩, N, []⟩ : Parser F) body
    (by simp [stageIdx]) (by simp [stageIdx])
  have hrem : (N + SIZE - ([] : List Nat).length % SIZE) % SIZE = N := by
    unfold SIZE at *
    simp only [List.length_nil]
    omega
  have h4b := body_stage_take (⟨READING_BODY, ⟨f1, H, []⟩, N, []⟩ : Parser F) body
    (Or.inl rfl) (by simp) hpos (by simp only [hrem, hbody]; exact Nat.le_refl _)
  simp only [hrem] at h4b
  rw [← hbody, List.take_length, List.drop_length] at h4b
  rw [(fire_eq_line impl _ _).2.2.1 rfl, ← hbody, h4b] at h4
  have h5 := cont_skip impl 3 (0 + 1) len
    (⟨COMPLETED, ⟨f1, H, body⟩, body.length, []⟩ : Parser F) [] (Or.inr rfl)
  simp only [List.nil_append, List.append_nil, stageIdx, Nat.zero_add, List.length_nil,
    Nat.reduceAdd, if_true] at h1 h1b h2 h3 h4 h5
  rw [hinput]
  simp only [Nat.zero_add]
  rw [← hbody] at h3 ⊢
  rw [h1, ← h1b, h2, h3, h4, h5, read_loop_nil impl 0 len _ hlen]

/-- When the `Content-Length` value reads as 0 (and there is no
`Transfer-Encoding: chunked`), `read` reaches the end of the headers and then fails
`assert(expected_body_len > 0)`, whatever follows the empty line. -/
theorem content_length_zero_asserts {F : Type} (impl : Impl F) (f0 f1 : F) (first : List Nat)
    (hdrs : List (List Nat)) (H : Headers) (it : List Nat × List Nat) (more : List Nat)
    (hfirst : firstCRLF first = none) (hline : impl.read_first_line f0 first = (f1, none))
    (hhdrs : ∀ h ∈ hdrs, h ≠ [] ∧ firstCRLF h = none) (hadd : add_headers [] hdrs = .ok H)
    (hTE : Headers.get H (bytes "Transfer-Encoding") ≠ some (bytes "chunked"))
    (hfind : Headers.find H (bytes "Content-Length") = some it)
    (hN : stoul it.2 10 = .ok 0) :
    ∀ fuel, read impl (fuel + hdrs.length + 1) (fresh f0) (encodeHead first hdrs ++ more) =
      some (.error .assert_failed) := by
  intro fuel
  have hne : encodeHead first hdrs ++ more ≠ [] := by
    simp [encodeHead, CRLF]
  have hlen : (encodeHead first hdrs ++ more).length > 0 := List.length_pos.mpr hne
  simp only [read, hlen, not_true_eq_false, if_false]
  rw [read_loop_cons impl _ _ _ _ hne]
  generalize (encodeHead first hdrs ++ more).length = len at hlen ⊢
  have hinput : encodeHead first hdrs ++ more =
      first ++ CRLF ++ ((hdrs.map (fun l => l ++ CRLF)).flatten ++ (CRLF ++ more)) := by
    simp [encodeHead, List.append_assoc]
  have htail : CRLF ++ more ≠ [] := by simp [CRLF]
  have h1 := cont_on_line impl NOT_STARTED (first_line_body impl) 0
    (fuel + hdrs.length) len (fresh f0)
    ⟨READING_HEADERS, ⟨f1, [], []⟩, 0, []⟩ first
    ((hdrs.map (fun l => l ++ CRLF)).flatten ++ (CRLF ++ more))
    ((fire_eq_line impl _ _).1 rfl) rfl rfl hfirst (by simp [stageIdx]) (by simp [stageIdx])
    (by simp [first_line_body, fresh, reset, hline])
  have h1b := cont_zero_eq impl 1 (fuel + hdrs.length) len
    (⟨READING_HEADERS, ⟨f1, [], []⟩, 0, []⟩ : Parser F)
    ((hdrs.map (fun l => l ++ CRLF)).flatten ++ (CRLF ++ more))
    (by simp [stageIdx]) (by simp [stageIdx])
  have h2 := headers_phase impl len hdrs (⟨READING_HEADERS, ⟨f1, [], []⟩, 0, []⟩ : Parser F) H
    fuel (CRLF ++ more) rfl rfl hhdrs hadd htail
  have h3 := cont_on_line impl READING_HEADERS headers_body 0 fuel len
    (⟨READING_HEADERS, ⟨f1, H, []⟩, 0, []⟩ : Parser F)
    ⟨READING_BODY, ⟨f1, H, []⟩, 0, []⟩ [] more
    ((fire_eq_line impl _ _).2.1 rfl) rfl rfl rfl (by simp [stageIdx]) (by simp [stageIdx])
    (by simp [headers_body, end_of_headers, hTE, hfind, hN])
  have h4 := cont_fire impl 2 fuel len (⟨READING_BODY, ⟨f1, H, []⟩, 0, []⟩ : Parser F) more
    (by simp [stageIdx]) (by simp [stageIdx])
  have h4b := body_stage_assert (⟨READING_BODY, ⟨f1, H, []⟩, 0, []⟩ : Parser F) more
    (Or.inl rfl) (Or.inr (by simp))
  rw [(fire_eq_line impl _ _).2.2.1 rfl, h4b] at h4
  simp only [List.nil_append, stageIdx, Nat.zero_add, Nat.reduceAdd] at h1 h1b h2 h3 h4
  rw [hinput, h1, ← h1b, h2, h3, h4]

theorem indexWhere_append_none {p : Nat → Bool} (pre l : List Nat)
    (h : ∀ y ∈ pre, p y = false) :
    indexWhere p (pre ++ l) = (indexWhere p l).map (· + pre.length) := by
  induction pre with
  | nil => simp
  | cons y pre ih =>
    have hy : p y = false := h y (by simp)
    have e := ih (fun z hz => h z (by simp [hz]))
    have hcons : indexWhere p (y :: (pre ++ l)) =
        if p y then some 0 else (indexWhere p (pre ++ l)).map (· + 1) := rfl
    rw [List.cons_append, hcons, e]
    simp only [hy, Bool.false_eq_true, if_false, Option.map_map, List.length_cons]
    cases indexWhere p l <;> simp [Nat.add_assoc]

theorem indexWhere_all_false {p : Nat → Bool} (l : List Nat) (h : ∀ y ∈ l, p y = false) :
    indexWhere p l = none := by
  induction l with
  | nil => rfl
  | cons y l ih =>
    have hy : p y = false := h y (by simp)
    simp [indexWhere, hy, ih (fun z hz => h z (by simp [hz]))]

/-- A header line `name: value` whose value has a byte other than a space is split
as C8 says: the name is the text before the first colon, the value the text after it
without its leading spaces. -/
theorem add_header_value (H : Headers) (name spaces value : List Nat) (c : Nat)
    (hname : ∀ y ∈ name, y ≠ 58) (hsp : ∀ y ∈ spaces, y = 32) (hc : c ≠ 32)
    (hlen : (name ++ 58 :: (spaces ++ c :: value)).length < npos) :
    add_header H (name ++ 58 :: (spaces ++ c :: value)) =
      .ok (H ++ [(name, c :: value)]) := by
  have hcolon : str_find (name ++ 58 :: (spaces ++ c :: value)) 58 0 = name.length := by
    unfold str_find
    rw [List.drop_zero, indexWhere_append_none name _ (by intro y hy; simpa using hname y hy)]
    simp [indexWhere]
  have hlt : name.length + 1 < SIZE := by
    simp only [List.length_append, List.length_cons, npos] at hlen
    omega
  have hdrop : List.drop (name.length + 1) (name ++ 58 :: (spaces ++ c :: value)) =
      spaces ++ c :: value := by
    have : name ++ 58 :: (spaces ++ c :: value) = (name ++ [58]) ++ (spaces ++ c :: value) := by
      simp
    rw [this]
    have hl : name.length + 1 = (name ++ [58]).length := by simp
    rw [hl, List.drop_left]
  have hfirst : str_find_first_not_of (name ++ 58 :: (spaces ++ c :: value)) 32
      ((name.length + 1) % SIZE) = name.length + 1 + spaces.length := by
    unfold str_find_first_not_of
    rw [Nat.mod_eq_of_lt hlt, hdrop,
      indexWhere_append_none spaces _ (by intro y hy; simp [hsp y hy])]
    simp [indexWhere, hc]
  have hdrop2 : List.drop (name.length + 1 + spaces.length)
      (name ++ 58 :: (spaces ++ c :: value)) = c :: value := by
    rw [← List.drop_drop, hdrop, List.drop_left]
  unfold add_header
  simp only [hcolon, hfirst, substr]
  have h0 : ¬ (0 > (name ++ 58 :: (spaces ++ c :: value)).length) := by omega
  have h1 : ¬ (name.length + 1 + spaces.length >
      (name ++ 58 :: (spaces ++ c :: value)).length) := by
    simp only [List.length_append, List.length_cons]; omega
  rw [if_neg h0, if_neg h1]
  simp only [List.drop_zero, List.take_left, hdrop2]
  have htake : List.take npos (c :: value) = c :: value := by
    apply List.take_of_length_le
    simp only [List.length_append, List.length_cons] at hlen ⊢
    omega
  rw [htake]
  rfl

/-- A header line whose value is empty or consists only of spaces makes `add_header`
throw `std::out_of_range`. -/
theorem add_header_blank_value (H : Headers) (name spaces : List Nat)
    (hname : ∀ y ∈ name, y ≠ 58) (hsp : ∀ y ∈ spaces, y = 32)
    (hlen : (name ++ 58 :: spaces).length < npos) :
    add_header H (name ++ 58 :: spaces) = .error .out_of_range := by
  have hcolon : str_find (name ++ 58 :: spaces) 58 0 = name.length := by
    unfold str_find
    rw [List.drop_zero, indexWhere_append_none name _ (by intro y hy; simpa using hname y hy)]
    simp [indexWhere]
  have hlt : name.length + 1 < SIZE := by
    simp only [List.length_append, List.length_cons, npos] at hlen
    omega
  have hdrop : List.drop (name.length + 1) (name ++ 58 :: spaces) = spaces := by
    have : name ++ 58 :: spaces = (name ++ [58]) ++ spaces := by simp
    rw [this]
    have hl : name.length + 1 = (name ++ [58]).length := by simp
    rw [hl, List.drop_left]
  have hfirst : str_find_first_not_of (name ++ 58 :: spaces) 32
      ((name.length + 1) % SIZE) = npos := by
    unfold str_find_first_not_of
    rw [Nat.mod_eq_of_lt hlt, hdrop,
      indexWhere_all_false spaces (by intro y hy; simp [hsp y hy])]
  unfold add_header
  simp only [hcolon, hfirst, substr]
  have h0 : ¬ (0 > (name ++ 58 :: spaces).length) := by omega
  have h1 : npos > (name ++ 58 :: spaces).length := hlen
  rw [if_neg h0, if_pos h1]

/-! ## The chunk terminator -/

theorem read_error_at_chunk_terminator {F : Type} (impl : Impl F) (fuel : Nat) (s : Parser F)
    (rest : List Nat) (h : Halt F) (hst : s.parser_status = READING_BODY_CHUNKED_TERMINATOR)
    (hne : rest ≠ [])
    (herr : line_stage READING_BODY_CHUNKED_TERMINATOR chunk_terminator_body s rest = .error h) :
    read impl (fuel + 1) s rest = some (.error h) := by
  have hlen : rest.length > 0 := List.length_pos.mpr hne
  have h1 : line_stage NOT_STARTED (first_line_body impl) s rest = .ok (s, rest) := by
    simp [line_stage, hst]
  have h2 : line_stage READING_HEADERS headers_body s rest = .ok (s, rest) := by
    simp [line_stage, hst]
  have h3 : body_stage s rest = .ok (s, rest) := by
    simp [body_stage, hst]
  simp only [read, hlen, not_true_eq_false, if_false, read_loop, hne, stages, run_stages, h1, h2,
    h3, herr]

/-- C11: in state `READING_BODY_CHUNKED_TERMINATOR`, when `read_line` extracts a complete
line, the step moves to `READING_BODY_CHUNKED_LENGTH` without error if and only if the
line is empty; for every non-empty line `read` throws (`std::runtime_error`). -/
theorem chunk_terminator {F : Type} (impl : Impl F) (s : Parser F) (rest : List Nat)
    (hst : s.parser_status = READING_BODY_CHUNKED_TERMINATOR)
    (hfound : (read_line s.buffer rest).found = true) :
    ((read_line s.buffer rest).line = [] →
      line_stage READING_BODY_CHUNKED_TERMINATOR chunk_terminator_body s rest =
        .ok ({ s with buffer := [], parser_status := READING_BODY_CHUNKED_LENGTH },
             rest.drop (read_line s.buffer rest).consumed)) ∧
    ((read_line s.buffer rest).line ≠ [] →
      ∀ fuel, read impl (fuel + 1) s rest =
        some (.error (.threw .runtime_error { s with buffer := [] }))) ∧
    ((∃ t r, line_stage READING_BODY_CHUNKED_TERMINATOR chunk_terminator_body s rest = .ok (t, r))
      ↔ (read_line s.buffer rest).line = []) := by
  have hstage := line_stage_found READING_BODY_CHUNKED_TERMINATOR chunk_terminator_body s rest
    hst hfound
  have hempty : (read_line s.buffer rest).line = [] →
      line_stage READING_BODY_CHUNKED_TERMINATOR chunk_terminator_body s rest =
        .ok ({ s with buffer := [], parser_status := READING_BODY_CHUNKED_LENGTH },
             rest.drop (read_line s.buffer rest).consumed) := by
    intro hl
    rw [hstage, hl]
    simp [chunk_terminator_body]
  have hfull : (read_line s.buffer rest).line ≠ [] →
      line_stage READING_BODY_CHUNKED_TERMINATOR chunk_terminator_body s rest =
        .error (.threw .runtime_error { s with buffer := [] }) := by
    intro hl
    have hlen : (read_line s.buffer rest).line.length ≠ 0 := fun h0 =>
      hl (List.length_eq_zero.mp h0)
    rw [hstage]
    simp [chunk_terminator_body, hlen]
  refine ⟨hempty, ?_, ?_⟩
  · intro hl fuel
    exact read_error_at_chunk_terminator impl fuel s rest _ hst
      (read_line_found_ne_nil _ _ hfound) (hfull hl)
  · constructor
    · rintro ⟨t, r, hok⟩
      by_contra hl
      rw [hfull hl] at hok
      cases hok
    · intro hl
      exact ⟨_, _, hempty hl⟩

theorem chunk_terminator_witness :
    line_stage READING_BODY_CHUNKED_TERMINATOR chunk_terminator_body
        (⟨READING_BODY_CHUNKED_TERMINATOR, ⟨⟨200, bytes "OK"⟩, [], bytes "Wiki"⟩, 4, []⟩ :
          Parser ResponseFirst) (bytes "\r\n5\r\n") =
      .ok (⟨READING_BODY_CHUNKED_LENGTH, ⟨⟨200, bytes "OK"⟩, [], bytes "Wiki"⟩, 4, []⟩,
           bytes "5\r\n") :=
  (chunk_terminator ResponseParser
    ⟨READING_BODY_CHUNKED_TERMINATOR, ⟨⟨200, bytes "OK"⟩, [], bytes "Wiki"⟩, 4, []⟩
    (bytes "\r\n5\r\n") (by decide) (by decide)).1 (by decide)

/-! ## First lines -/

theorem digitVal_dec (c : Nat) (h : isDecDigit c = true) : digitVal 10 c = some (c - 48) := by
  have h' : 48 ≤ c ∧ c ≤ 57 := by simpa [isDecDigit] using h
  obtain ⟨h1, h2⟩ := h'
  interval_cases c <;> decide

theorem decDigit_not_space (c : Nat) (h : isDecDigit c = true) :
    isspace c = false ∧ c ≠ 45 ∧ c ≠ 43 ∧ c ≠ 32 := by
  have h' : 48 ≤ c ∧ c ≤ 57 := by simpa [isDecDigit] using h
  obtain ⟨h1, h2⟩ := h'
  interval_cases c <;> decide

theorem readDigits_dec : ∀ (C rest : List Nat) (acc n : Nat), (∀ c ∈ C, isDecDigit c = true) →
    readDigits 10 (C ++ rest) acc n =
      readDigits 10 rest (C.foldl (fun a c => a * 10 + (c - 48)) acc) (n + C.length) := by
  intro C
  induction C with
  | nil => intro rest acc n _; simp
  | cons c C ih =>
    intro rest acc n h
    have hc := digitVal_dec c (h c (by simp))
    rw [List.cons_append, readDigits]
    simp only [hc]
    rw [ih rest _ _ (fun x hx => h x (by simp [hx]))]
    simp only [List.foldl_cons, List.length_cons]
    congr 1
    omega

/-- What `std::stoi` reads from a non-empty run of decimal digits that ends the string
or is followed by a space. -/
theorem stoi_dec (C rest : List Nat) (hne : C ≠ []) (hd : ∀ c ∈ C, isDecDigit c = true)
    (hrest : rest = [] ∨ ∃ r, rest = 32 :: r) :
    stoi (C ++ rest) =
      if decValue C > INT_MAX then .error .out_of_range else .ok (decValue C : Int) := by
  cases C with
  | nil => exact absurd rfl hne
  | cons c C' =>
    obtain ⟨hsp, hm, hp, _⟩ := decDigit_not_space c (hd c (by simp))
    have h1 : skipSpace ((c :: C') ++ rest) = (c :: C') ++ rest := by
      simp [skipSpace, List.dropWhile, hsp]
    have h2 : takeSign ((c :: C') ++ rest) = (false, (c :: C') ++ rest) := by
      rw [List.cons_append]
      unfold takeSign
      split
      · rename_i heq; cases heq; exact absurd rfl hm
      · rename_i heq; cases heq; exact absurd rfl hp
      · rfl
    have h3 : readDigits 10 ((c :: C') ++ rest) 0 0 = (decValue (c :: C'), (c :: C').length) := by
      rw [readDigits_dec (c :: C') rest 0 0 hd]
      rcases hrest with rfl | ⟨r, rfl⟩
      · simp [readDigits, decValue]
      · have : digitVal 10 32 = none := by decide
        simp [readDigits, decValue, this]
    unfold stoi
    simp only [h1, h2, h3, List.length_cons, Nat.succ_ne_zero, if_false, Bool.false_eq_true,
      INT_MAX]

theorem str_find_at (pre post : List Nat) (c : Nat) (hpre : ∀ y ∈ pre, y ≠ c) :
    str_find (pre ++ c :: post) c 0 = pre.length := by
  unfold str_find
  rw [List.drop_zero, indexWhere_append_none pre _ (by intro y hy; simpa using hpre y hy)]
  simp [indexWhere]

theorem str_find_none (s : List Nat) (c pos : Nat) (h : ∀ y ∈ s.drop pos, y ≠ c) :
    str_find s c pos = npos := by
  unfold str_find
  rw [indexWhere_all_false _ (by intro y hy; simpa using h y hy)]

theorem str_find_from (a pre post : List Nat) (c : Nat) (hpre : ∀ y ∈ pre, y ≠ c) :
    str_find (a ++ (pre ++ c :: post)) c a.length = a.length + pre.length := by
  unfold str_find
  rw [List.drop_left, indexWhere_append_none pre _ (by intro y hy; simpa using hpre y hy)]
  simp [indexWhere]

theorem take_npos (l : List Nat) (h : l.length < npos) : l.take npos = l :=
  List.take_of_length_le (Nat.le_of_lt h)

/-- C13 (as stated, refuted): the code `99999999999` is a non-empty run of decimal
digits, but `std::stoi` throws `std::out_of_range` on it and neither field is set. -/
theorem status_line_parsing_counterexample :
    (bytes "99999999999").all isDecDigit = true ∧
    ResponseParser.read_first_line ⟨0, []⟩ (bytes "HTTP/1.1 99999999999 OK") =
      (⟨0, []⟩, some .out_of_range) ∧
    ResponseParser.read_first_line ⟨0, []⟩ (bytes "HTTP/1.1 200 OK") =
      (⟨200, bytes "OK"⟩, none) := by
  decide

/-- C13 (amended): for every status line `V SP C SP R` where `V` has no space and `C` is
a non-empty run of decimal digits whose value is at most `INT_MAX`,
`ResponseParser::read_first_line` sets `status_code` to the value of `C` and
`status_msg` to `R` (which may contain spaces); when the value of `C` exceeds `INT_MAX`
it throws `std::out_of_range` and sets neither. -/
theorem status_line_parsing (f : ResponseFirst) (V C R : List Nat) (hV : ∀ c ∈ V, c ≠ 32)
    (hC : C ≠ []) (hd : ∀ c ∈ C, isDecDigit c = true)
    (hlen : (V ++ 32 :: (C ++ 32 :: R)).length < npos) :
    (decValue C ≤ INT_MAX →
      ResponseParser.read_first_line f (V ++ 32 :: (C ++ 32 :: R)) =
        (⟨(decValue C : Int), R⟩, none)) ∧
    (INT_MAX < decValue C →
      ResponseParser.read_first_line f (V ++ 32 :: (C ++ 32 :: R)) =
        (f, some .out_of_range)) := by
  simp only [List.length_append, List.length_cons, npos, SIZE] at hlen
  have hver : str_find (V ++ 32 :: (C ++ 32 :: R)) 32 0 = V.length := str_find_at V _ 32 hV
  have hline : V ++ 32 :: (C ++ 32 :: R) = (V ++ [32]) ++ (C ++ 32 :: R) := by simp
  have hcode : str_find (V ++ 32 :: (C ++ 32 :: R)) 32 (V.length + 1) =
      V.length + 1 + C.length := by
    have := str_find_from (V ++ [32]) C R 32
      (fun y hy => (decDigit_not_space y (hd y hy)).2.2.2)
    rw [List.length_append, List.length_singleton] at this
    rw [hline]
    exact this
  have hdrop1 : List.drop (V.length + 1) (V ++ 32 :: (C ++ 32 :: R)) = C ++ 32 :: R := by
    rw [hline]
    have : V.length + 1 = (V ++ [32]).length := by simp
    rw [this, List.drop_left]
  have htake : List.take (C.length + 1) (C ++ 32 :: R) = C ++ [32] := by
    have h1 : C ++ 32 :: R = (C ++ [32]) ++ R := by simp
    have h2 : C.length + 1 = (C ++ [32]).length := by simp
    rw [h1, h2, List.take_left]
  have hdrop2 : List.drop (V.length + 1 + C.length + 1) (V ++ 32 :: (C ++ 32 :: R)) = R := by
    have h1 : V ++ 32 :: (C ++ 32 :: R) = (V ++ [32] ++ C ++ [32]) ++ R := by simp
    have h2 : V.length + 1 + C.length + 1 = (V ++ [32] ++ C ++ [32]).length := by
      simp only [List.length_append, List.length_singleton]
    rw [h1, h2, List.drop_left]
  have hm1 : (V.length + 1) % SIZE = V.length + 1 := Nat.mod_eq_of_lt (by unfold SIZE; omega)
  have hm2 : (V.length + 1 + C.length + SIZE - V.length) % SIZE = C.length + 1 := by
    unfold SIZE; omega
  have hm3 : (V.length + 1 + C.length + 1) % SIZE = V.length + 1 + C.length + 1 :=
    Nat.mod_eq_of_lt (by unfold SIZE; omega)
  have hp1 : ¬ (V.length + 1 > (V ++ 32 :: (C ++ 32 :: R)).length) := by
    simp only [List.length_append, List.length_cons]; omega
  have hp2 : ¬ (V.length + 1 + C.length + 1 > (V ++ 32 :: (C ++ 32 :: R)).length) := by
    simp only [List.length_append, List.length_cons]; omega
  have hR : R.take npos = R := take_npos R (by unfold npos SIZE; omega)
  have hstoi := stoi_dec C [32] hC hd (Or.inr ⟨[], rfl⟩)
  have hcommon : ResponseParser.read_first_line f (V ++ 32 :: (C ++ 32 :: R)) =
      match stoi (C ++ [32]) with
      | .error e => (f, some e)
      | .ok code => ({ status_code := code, status_msg := R }, none) := by
    simp only [ResponseParser.read_first_line, hver, hm1, hcode, hm2, hm3, substr, if_neg hp1,
      if_neg hp2, hdrop1, htake, hdrop2, hR]
  constructor
  · intro hle
    rw [hcommon, hstoi, if_neg (Nat.not_lt.mpr hle)]
  · intro hgt
    rw [hcommon, hstoi, if_pos hgt]

theorem status_line_parsing_witness :
    ResponseParser.read_first_line ⟨0, []⟩ (bytes "HTTP/1.1 404 Not Found") =
      (⟨404, bytes "Not Found"⟩, none) :=
  (status_line_parsing ⟨0, []⟩ (bytes "HTTP/1.1") (bytes "404") (bytes "Not Found")
    (by decide) (by decide) (by decide) (by decide)).1 (by decide)

/-- C20 (as stated, refuted): in `HTTP/1.1 99999999999` the code is a non-empty run of
decimal digits and the line has exactly one space, but `std::stoi` throws
`std::out_of_range`. -/
theorem status_line_without_reason_counterexample :
    (bytes "99999999999").all isDecDigit = true ∧
    ResponseParser.read_first_line ⟨0, []⟩ (bytes "HTTP/1.1 99999999999") =
      (⟨0, []⟩, some .out_of_range) ∧
    ResponseParser.read_first_line ⟨0, []⟩ (bytes "HTTP/1.1 200") =
      (⟨200, bytes "HTTP/1.1 200"⟩, none) := by
  decide

/-- C20 (amended): for every status line `V SP C` with exactly one space, where `C` is a
non-empty run of decimal digits whose value is at most `INT_MAX`,
`ResponseParser::read_first_line` raises no error, sets `status_code` to the value of
`C` and sets `status_msg` to the entire line (`npos + 1` wraps to 0), not to the empty
string; when the value of `C` exceeds `INT_MAX` it throws `std::out_of_range`. -/
theorem status_line_without_reason (f : ResponseFirst) (V C : List Nat)
    (hV : ∀ c ∈ V, c ≠ 32) (hC : C ≠ []) (hd : ∀ c ∈ C, isDecDigit c = true)
    (hlen : (V ++ 32 :: C).length < npos) :
    (decValue C ≤ INT_MAX →
      ResponseParser.read_first_line f (V ++ 32 :: C) =
        (⟨(decValue C : Int), V ++ 32 :: C⟩, none) ∧ V ++ 32 :: C ≠ []) ∧
    (INT_MAX < decValue C →
      ResponseParser.read_first_line f (V ++ 32 :: C) = (f, some .out_of_range)) := by
  have hlen0 := hlen
  simp only [List.length_append, List.length_cons, npos, SIZE] at hlen
  have hver : str_find (V ++ 32 :: C) 32 0 = V.length := str_find_at V _ 32 hV
  have hline : V ++ 32 :: C = (V ++ [32]) ++ C := by simp
  have hdrop1 : List.drop (V.length + 1) (V ++ 32 :: C) = C := by
    rw [hline]
    have : V.length + 1 = (V ++ [32]).length := by simp
    rw [this, List.drop_left]
  have hcode : str_find (V ++ 32 :: C) 32 (V.length + 1) = npos := by
    apply str_find_none
    rw [hdrop1]
    exact fun y hy => (decDigit_not_space y (hd y hy)).2.2.2
  have hm1 : (V.length + 1) % SIZE = V.length + 1 := Nat.mod_eq_of_lt (by unfold SIZE; omega)
  have hm2 : (npos + SIZE - V.length) % SIZE = npos - V.length := by
    unfold npos SIZE; omega
  have hm3 : (npos + 1) % SIZE = 0 := by decide
  have htake : List.take (npos - V.length) C = C := by
    apply List.take_of_length_le
    unfold npos SIZE; omega
  have hp1 : ¬ (V.length + 1 > (V ++ 32 :: C).length) := by
    simp only [List.length_append, List.length_cons]; omega
  have hp2 : ¬ (0 > (V ++ 32 :: C).length) := by omega
  have hwhole : (V ++ 32 :: C).take npos = V ++ 32 :: C := take_npos _ hlen0
  have hstoi := stoi_dec C [] hC hd (Or.inl rfl)
  rw [List.append_nil] at hstoi
  have hcommon : ResponseParser.read_first_line f (V ++ 32 :: C) =
      match stoi C with
      | .error e => (f, some e)
      | .ok code => ({ status_code := code, status_msg := V ++ 32 :: C }, none) := by
    simp only [ResponseParser.read_first_line, hver, hm1, hcode, hm2, hm3, substr, if_neg hp1,
      if_neg hp2, hdrop1, htake, List.drop_zero, hwhole]
  constructor
  · intro hle
    rw [hcommon, hstoi, if_neg (Nat.not_lt.mpr hle)]
    exact ⟨rfl, by simp⟩
  · intro hgt
    rw [hcommon, hstoi, if_pos hgt]

theorem status_line_without_reason_witness :
    ResponseParser.read_first_line ⟨0, []⟩ (bytes "HTTP/1.1 200") =
      (⟨200, bytes "HTTP/1.1 200"⟩, none) :=
  ((status_line_without_reason ⟨0, []⟩ (bytes "HTTP/1.1") (bytes "200")
    (by decide) (by decide) (by decide) (by decide)).1 (by decide)).1

theorem read_first_line_throws {F : Type} (impl : Impl F) (f0 f1 : F) (e : Exn)
    (line more : List Nat) (hl : firstCRLF line = none)
    (hthrow : impl.read_first_line f0 line = (f1, some e)) (fuel : Nat) :
    read impl (fuel + 1) (fresh f0) (line ++ CRLF ++ more) =
      some (.error (.threw e ⟨NOT_STARTED, ⟨f1, [], []⟩, 0, []⟩)) := by
  have hne : line ++ CRLF ++ more ≠ [] := by simp [CRLF]
  have hlen : (line ++ CRLF ++ more).length > 0 := List.length_pos.mpr hne
  simp only [read, hlen, not_true_eq_false, if_false]
  rw [read_loop_cons impl _ _ _ _ hne,
    cont_fire impl 0 _ _ (fresh f0) _ (Nat.zero_le _) (by simp [stageIdx, fresh, reset]),
    (fire_eq_line impl (fresh f0) _).1 rfl,
    line_stage_on_line NOT_STARTED (first_line_body impl) (fresh f0) line more rfl rfl hl]
  simp [first_line_body, fresh, reset, hthrow]

theorem str_find_last_of_none (s : List Nat) (c : Nat) (h : ∀ y ∈ s, y ≠ c) :
    str_find_last_of s c = npos := by
  unfold str_find_last_of
  rw [indexWhere_all_false _ (by intro y hy; simpa using h y (List.mem_reverse.mp hy))]

/-- What the two parsers do with a first line that has no space.  In the response parser
`read_first_line` throws (`std::stoi` of the empty string), so `read` fails and the
parser stays in `NOT_STARTED`.  The request parser has no test for the separator: with
`method_end = url_end = npos` the line is passed whole to `method_from_string` and, when
that accepts it, whole to `Url::parse_request` as the target; `read_first_line` fails
exactly when one of the two throws, and otherwise sets `raw_url` to the whole line.
The two functions are not among the sources and are parameters here. -/
theorem first_line_without_space {M U : Type} (env : RequestEnv M U) (line : List Nat)
    (hns : ∀ c ∈ line, c ≠ 32) (hlen : line.length < npos) :
    (∀ f, ResponseParser.read_first_line f line = (f, some .invalid_argument)) ∧
    (firstCRLF line = none → ∀ f0 fuel more,
      read ResponseParser (fuel + 1) (fresh f0) (line ++ CRLF ++ more) =
        some (.error (.threw .invalid_argument ⟨NOT_STARTED, ⟨f0, [], []⟩, 0, []⟩))) ∧
    (∀ f, RequestParser.read_first_line env f line =
      match env.method_from_string line with
      | .error e => (f, some e)
      | .ok m =>
        match env.parse_request line with
        | .error e => ({ f with method := m, raw_url := line }, some e)
        | .ok u => ({ method := m, raw_url := line, url := u }, none)) := by
  have hfind : ∀ pos, str_find line 32 pos = npos := fun pos =>
    str_find_none line 32 pos (fun y hy => hns y (List.mem_of_mem_drop hy))
  have hlast : str_find_last_of line 32 = npos := str_find_last_of_none line 32 hns
  have hm0 : (npos + 1) % SIZE = 0 := by decide
  have hm1 : (npos + SIZE - npos) % SIZE = 0 := by decide
  have hm2 : (npos + SIZE - npos + SIZE - 1) % SIZE = npos := by decide
  have hp : ¬ (0 > line.length) := by omega
  have hwhole : line.take npos = line := take_npos line hlen
  have hstoi : stoi [] = .error .invalid_argument := by decide
  have hresp : ∀ f, ResponseParser.read_first_line f line = (f, some .invalid_argument) := by
    intro f
    simp only [ResponseParser.read_first_line, hfind, hm0, hm1, substr, if_neg hp,
      List.drop_zero, List.take_zero, hstoi]
  refine ⟨hresp, ?_, ?_⟩
  · intro hl f0 fuel more
    exact read_first_line_throws ResponseParser f0 f0 .invalid_argument line more hl
      (hresp f0) fuel
  · intro f
    simp only [RequestParser.read_first_line, hfind, hlast, hm0, hm2, substr, if_neg hp,
      List.drop_zero, hwhole]

/-! ## The `Content-Length` value -/

theorem digitVal_not_dec (c : Nat) (h : isDecDigit c = false) : digitVal 10 c = none := by
  have h' : ¬(48 ≤ c ∧ c ≤ 57) := by
    intro hc
    simp [isDecDigit, hc.1, hc.2] at h
  unfold digitVal
  simp only [h', if_false]
  split
  · rename_i hl
    have : ¬(c - 87 < 10) := by omega
    simp [Option.filter, this]
  · split
    · rename_i hu
      have : ¬(c - 55 < 10) := by omega
      simp [Option.filter, this]
    · rfl

/-- What `std::stoul` in base 10 reads from a string that begins with a non-empty run of
decimal digits followed by nothing or by a byte that is not a decimal digit. -/
theorem stoul_dec_prefix (D tail : List Nat) (hne : D ≠ [])
    (hd : ∀ c ∈ D, isDecDigit c = true)
    (htail : ∀ c, tail.head? = some c → isDecDigit c = false) (hlt : decValue D < SIZE) :
    stoul (D ++ tail) 10 = .ok (decValue D) := by
  cases D with
  | nil => exact absurd rfl hne
  | cons c D' =>
    obtain ⟨hsp, hm, hp, _⟩ := decDigit_not_space c (hd c (by simp))
    have h1 : skipSpace ((c :: D') ++ tail) = (c :: D') ++ tail := by
      simp [skipSpace, List.dropWhile, hsp]
    have h2 : takeSign ((c :: D') ++ tail) = (false, (c :: D') ++ tail) := by
      rw [List.cons_append]
      unfold takeSign
      split
      · rename_i heq; cases heq; exact absurd rfl hm
      · rename_i heq; cases heq; exact absurd rfl hp
      · rfl
    have h3 : readDigits 10 ((c :: D') ++ tail) 0 0 =
        (decValue (c :: D'), (c :: D').length) := by
      rw [readDigits_dec (c :: D') tail 0 0 hd]
      cases tail with
      | nil => simp [readDigits, decValue]
      | cons t r =>
        have ht := digitVal_not_dec t (htail t rfl)
        simp [readDigits, decValue, ht]
    have hge : ¬(decValue (c :: D') ≥ SIZE) := by omega
    unfold stoul
    simp only [h1, h2, skipHexPrefix_ten, h3, List.length_cons, Nat.succ_ne_zero, if_false,
      hge, Bool.false_eq_true]

/-- C10 (as stated, refuted): the value `3x` is not a string of decimal digits, yet
`read` raises no error: it takes the length 3, enters `READING_BODY` and completes the
message with the three body bytes. -/
theorem invalid_content_length_counterexample :
    isDecimal (bytes "3x") = false ∧
    read ResponseParser 5 freshResponseParser
        (bytes "HTTP/1.1 200 OK\r\nContent-Length: 3x\r\n\r\nabc") =
      some (.ok (⟨COMPLETED,
        ⟨⟨200, bytes "OK"⟩, [(bytes "Content-Length", bytes "3x")], bytes "abc"⟩, 3, []⟩, 42)) := by
  decide

/-- C10 (amended): for a header block without `Transfer-Encoding: chunked`, when the end
of the headers is reached and the `Content-Length` value has no decimal digit after its
optional leading white space and sign, `read` throws `std::invalid_argument`; when the
digits read have a value of `2^64` or more it throws `std::out_of_range`.  In both cases
`parser_status` is still `READING_HEADERS`.  A value that begins with a non-empty run of
decimal digits of a value below `2^64`, followed by nothing or by a byte that is not a
decimal digit, is accepted as the value of that run: the step sets `expected_body_len`
to it and moves to `READING_BODY`. -/
theorem invalid_content_length {F : Type} (impl : Impl F) (s : Parser F) (rest : List Nat)
    (hst : s.parser_status = READING_HEADERS)
    (hfound : (read_line s.buffer rest).found = true)
    (hline : (read_line s.buffer rest).line = [])
    (hTE : Headers.get s.message.headers (bytes "Transfer-Encoding") ≠ some (bytes "chunked"))
    (it : List Nat × List Nat)
    (hit : Headers.find s.message.headers (bytes "Content-Length") = some it) :
    ((readDigits 10 (takeSign (skipSpace it.2)).2 0 0).2 = 0 →
      ∀ fuel, read impl (fuel + 1) s rest =
        some (.error (.threw .invalid_argument { s with buffer := [] }))) ∧
    ((readDigits 10 (takeSign (skipSpace it.2)).2 0 0).2 ≠ 0 →
      SIZE ≤ (readDigits 10 (takeSign (skipSpace it.2)).2 0 0).1 →
      ∀ fuel, read impl (fuel + 1) s rest =
        some (.error (.threw .out_of_range { s with buffer := [] }))) ∧
    ({ s with buffer := [] } : Parser F).parser_status = READING_HEADERS ∧
    (∀ D tail : List Nat, it.2 = D ++ tail → D ≠ [] → (∀ c ∈ D, isDecDigit c = true) →
      (∀ c, tail.head? = some c → isDecDigit c = false) → decValue D < SIZE →
      line_stage READING_HEADERS headers_body s rest =
        .ok ({ s with buffer := [], expected_body_len := decValue D,
                      parser_status := READING_BODY },
             rest.drop (read_line s.buffer rest).consumed)) := by
  refine ⟨?_, ?_, hst, ?_⟩
  · intro hno fuel
    apply read_error_at_headers impl fuel s rest _ hst (read_line_found_ne_nil _ _ hfound)
    rw [line_stage_found _ _ _ _ hst hfound, hline]
    have := stoul_no_digit it.2 10 (by rw [skipHexPrefix_ten]; exact hno)
    simp [headers_body, end_of_headers, hTE, hit, this]
  · intro hsome hbig fuel
    apply read_error_at_headers impl fuel s rest _ hst (read_line_found_ne_nil _ _ hfound)
    rw [line_stage_found _ _ _ _ hst hfound, hline]
    have := stoul_overflow it.2 10 (by rw [skipHexPrefix_ten]; exact hsome)
      (by rw [skipHexPrefix_ten]; exact hbig)
    simp [headers_body, end_of_headers, hTE, hit, this]
  · intro D tail hval hne hd htail hlt
    rw [line_stage_found _ _ _ _ hst hfound, hline]
    have := stoul_dec_prefix D tail hne hd htail hlt
    rw [← hval] at this
    simp [headers_body, end_of_headers, hTE, hit, this]

theorem invalid_content_length_witness :
    read ResponseParser 1 badLengthHeader (bytes "\r\n") =
      some (.error (.threw .invalid_argument badLengthHeader)) ∧
    line_stage READING_HEADERS headers_body looseLengthHeader (bytes "\r\nabc") =
      .ok ({ looseLengthHeader with expected_body_len := 3, parser_status := READING_BODY },
           bytes "abc") :=
  ⟨(invalid_content_length ResponseParser badLengthHeader (bytes "\r\n") (by decide) (by decide)
    (by decide) (by decide) (bytes "Content-Length", bytes "abc") (by decide)).1 (by decide) 0,
   (invalid_content_length ResponseParser looseLengthHeader (bytes "\r\nabc") (by decide)
    (by decide) (by decide) (by decide) (bytes "Content-Length", bytes "3x") (by decide)).2.2.2
    (bytes "3") (bytes "x") (by decide) (by decide) (by decide) (by decide) (by decide)⟩

/-! ## Reset -/

/-- C14 (as stated, refuted): after a response has been read, `reset()` leaves the
status code 200 and the status message `OK` of that response in `message()`; the
parser is not in the state of a newly constructed one. -/
theorem reset_discards_counterexample :
    read ResponseParser 3 freshResponseParser
        (bytes "HTTP/1.1 200 OK\r\nContent-Length: 3\r\n\r\nabc") =
      some (.ok (completedResponse, 41)) ∧
    (reset completedResponse).message.first = ⟨200, bytes "OK"⟩ ∧
    reset completedResponse ≠ freshResponseParser := by
  decide

/-- C14 (amended): after `reset()` from any parser state the status is `NOT_STARTED`,
`expected_body_len` is 0, the pending-line buffer is empty and the headers and the
body of the message are empty; the first-line fields of the message (method, raw
target and url, or status code and status message) keep their previous values. -/
theorem reset_discards {F : Type} (s : Parser F) :
    (reset s).parser_status = NOT_STARTED ∧ (reset s).expected_body_len = 0 ∧
    (reset s).buffer = [] ∧ (reset s).message.headers = [] ∧ (reset s).message.body = [] ∧
    (reset s).message.first = s.message.first :=
  ⟨rfl, rfl, rfl, rfl, rfl, rfl⟩

/-! ## The pending-line buffer -/

theorem keeps_first_line {F : Type} (impl : Impl F) : KeepsBuffer (first_line_body impl) := by
  intro s line
  unfold first_line_body
  by_cases hb : s.buffer.length ≠ 0
  · rw [if_pos hb]; trivial
  · rw [if_neg hb]
    rcases hr : impl.read_first_line s.message.first line with ⟨f, _ | e⟩ <;> simp

theorem keeps_add_header {F : Type} (s : Parser F) (line : List Nat) :
    match add_header_to s line with
    | .ok s2 => s2.buffer = s.buffer
    | .error (.threw _ s2) => s2.buffer = s.buffer
    | .error .assert_failed => True := by
  unfold add_header_to
  cases add_header s.message.headers line <;> simp

theorem keeps_headers {F : Type} : KeepsBuffer (headers_body : Parser F → _ → _) := by
  intro s line
  unfold headers_body
  by_cases hb : s.buffer.length ≠ 0
  · rw [if_pos hb]; trivial
  · rw [if_neg hb]
    by_cases hl : line.length = 0
    · rw [if_pos hl]
      unfold end_of_headers
      by_cases hte : Headers.get s.message.headers (bytes "Transfer-Encoding") =
          some (bytes "chunked")
      · rw [if_pos hte]
      · rw [if_neg hte]
        cases Headers.find s.message.headers (bytes "Content-Length") with
        | none => simp
        | some it =>
          simp only
          cases stoul it.2 10 <;> simp
    · rw [if_neg hl]
      exact keeps_add_header s line

theorem keeps_terminator {F : Type} :
    KeepsBuffer (chunk_terminator_body : Parser F → _ → _) := by
  intro s line
  unfold chunk_terminator_body
  by_cases hl : line.length = 0
  · rw [if_pos hl]
  · rw [if_neg hl]

theorem keeps_length {F : Type} : KeepsBuffer (chunk_length_body : Parser F → _ → _) := by
  intro s line
  unfold chunk_length_body
  cases stoul line 16 with
  | error e => simp
  | ok n =>
    simp only
    by_cases hn : n ≠ 0
    · rw [if_pos hn]
    · rw [if_neg hn]

theorem keeps_trailer {F : Type} : KeepsBuffer (trailer_body : Parser F → _ → _) := by
  intro s line
  unfold trailer_body
  by_cases hb : s.buffer.length ≠ 0
  · rw [if_pos hb]; trivial
  · rw [if_neg hb]
    by_cases hl : line.length = 0
    · rw [if_pos hl]
    · rw [if_neg hl]
      exact keeps_add_header s line

theorem line_stage_inv {F : Type} (st : ParserStatus)
    (body : Parser F → List Nat → Except (Halt F) (Parser F)) (hkeep : KeepsBuffer body)
    (hline : st ≠ READING_BODY ∧ st ≠ READING_BODY_CHUNKED ∧ st ≠ COMPLETED)
    (s : Parser F) (rest : List Nat) (hs : BufInv s) :
    ResInv (line_stage st body s rest) := by
  by_cases hst : s.parser_status = st
  · cases hf : (read_line s.buffer rest).found with
    | true =>
      rw [line_stage_found st body s rest hst hf]
      have hk := hkeep { s with buffer := [] } (read_line s.buffer rest).line
      cases hb : body { s with buffer := [] } (read_line s.buffer rest).line with
      | ok s2 =>
        rw [hb] at hk
        simp only [ResInv, BufInv]
        intro _
        exact hk
      | error h =>
        rw [hb] at hk
        cases h with
        | threw e s2 =>
          simp only [ResInv, BufInv]
          intro _
          exact hk
        | assert_failed => trivial
    | false =>
      simp only [line_stage, hst, if_true, hf, ResInv, BufInv, Bool.false_eq_true, if_false]
      intro h
      rcases h with h | h | h
      · exact absurd h hline.1
      · exact absurd h hline.2.1
      · exact absurd h hline.2.2
  · rw [line_stage_skip st body s rest hst]
    exact hs

theorem body_stage_inv {F : Type} (s : Parser F) (rest : List Nat) (hs : BufInv s) :
    ResInv (body_stage s rest) := by
  by_cases hst : s.parser_status = READING_BODY ∨ s.parser_status = READING_BODY_CHUNKED
  · have hbuf0 : s.buffer = [] := hs (by
      rcases hst with h | h
      · exact Or.inl h
      · exact Or.inr (Or.inl h))
    have hbuf : ¬ s.buffer.length ≠ 0 := by simp [hbuf0]
    by_cases hexp : s.expected_body_len > 0
    · by_cases hrem : rest.length ≥
          (s.expected_body_len + SIZE - s.message.body.length % SIZE) % SIZE
      · rw [body_stage_take s rest hst hbuf hexp hrem]
        simp only [ResInv, BufInv]
        intro _
        exact hbuf0
      · rw [body_stage_part s rest hst hbuf hexp hrem]
        simp only [ResInv, BufInv]
        intro _
        exact hbuf0
    · rw [body_stage_assert s rest hst (Or.inr hexp)]
      trivial
  · have h1 : s.parser_status ≠ READING_BODY := fun h => hst (Or.inl h)
    have h2 : s.parser_status ≠ READING_BODY_CHUNKED := fun h => hst (Or.inr h)
    rw [body_stage_skip s rest h1 h2]
    exact hs

theorem run_stages_inv {F : Type} :
    ∀ (l : List (Stage F)), (∀ st ∈ l, ∀ s rest, BufInv s → ResInv (st s rest)) →
      ∀ s rest, BufInv s → ResInv (run_stages l s rest) := by
  intro l
  induction l with
  | nil => intro _ s rest hs; exact hs
  | cons st more ih =>
    intro hall s rest hs
    have h1 := hall st (by simp) s rest hs
    unfold run_stages
    cases hst : st s rest with
    | error h => rw [hst] at h1; exact h1
    | ok p =>
      obtain ⟨s1, rest1⟩ := p
      rw [hst] at h1
      exact ih (fun st' hm => hall st' (by simp [hm])) s1 rest1 h1

theorem stages_inv {F : Type} (impl : Impl F) :
    ∀ st ∈ stages impl, ∀ s rest, BufInv s → ResInv (st s rest) := by
  intro st hm
  simp only [stages, List.mem_cons, List.mem_singleton, List.not_mem_nil, or_false] at hm
  rcases hm with rfl | rfl | rfl | rfl | rfl | rfl
  · exact line_stage_inv _ _ (keeps_first_line impl) (by decide)
  · exact line_stage_inv _ _ keeps_headers (by decide)
  · exact body_stage_inv
  · exact line_stage_inv _ _ keeps_terminator (by decide)
  · exact line_stage_inv _ _ keeps_length (by decide)
  · exact line_stage_inv _ _ keeps_trailer (by decide)

theorem read_loop_inv {F : Type} (impl : Impl F) (len : Nat) :
    ∀ (fuel : Nat) (s : Parser F) (rest : List Nat), BufInv s →
      (∀ t n, read_loop impl fuel len s rest = some (.ok (t, n)) → BufInv t) ∧
      (∀ e t, read_loop impl fuel len s rest = some (.error (.threw e t)) → BufInv t) := by
  intro fuel
  induction fuel with
  | zero => intro s rest _; simp [read_loop]
  | succ fuel ih =>
    intro s rest hs
    by_cases hr : rest = []
    · subst hr
      constructor
      · intro t n h
        simp only [read_loop, if_true] at h
        split_ifs at h
        all_goals simp at h
        rw [← h.1]; exact hs
      · intro e t h
        simp only [read_loop, if_true] at h
        split_ifs at h
        all_goals simp at h
    · have hrun := run_stages_inv (stages impl) (stages_inv impl) s rest hs
      simp only [read_loop, hr, if_false]
      cases hst : run_stages (stages impl) s rest with
      | error h =>
        rw [hst] at hrun
        constructor
        · intro t n h'; simp at h'
        · intro e t h'
          simp only [Option.some.injEq, Except.error.injEq] at h'
          subst h'
          exact hrun
      | ok p =>
        obtain ⟨s1, rest1⟩ := p
        rw [hst] at hrun
        exact ih s1 rest1 hrun

theorem read_inv {F : Type} (impl : Impl F) (fuel : Nat) (s : Parser F) (data : List Nat)
    (hs : BufInv s) :
    (∀ t n, read impl fuel s data = some (.ok (t, n)) → BufInv t) ∧
    (∀ e t, read impl fuel s data = some (.error (.threw e t)) → BufInv t) := by
  unfold read
  by_cases hl : data.length > 0
  · simp only [hl, not_true_eq_false, if_false]
    exact read_loop_inv impl data.length fuel s data hs
  · simp [hl]

theorem reachable_inv {F : Type} (impl : Impl F) (s : Parser F) (h : Reachable impl s) :
    BufInv s := by
  induction h with
  | start f0 => intro _; rfl
  | returned s t data fuel n _ hread ih => exact (read_inv impl fuel s data ih).1 t n hread
  | threw s t data fuel e _ hread ih => exact (read_inv impl fuel s data ih).2 e t hread
  | reset s _ _ => intro _; rfl

/-- C19: the pending-line buffer is empty right after every successful line extraction;
and in every state reachable from a newly constructed parser by calls of `read`
(and `reset`), it is empty whenever the status is `READING_BODY`,
`READING_BODY_CHUNKED` or `COMPLETED`: it can be non-empty only in `NOT_STARTED`,
`READING_HEADERS`, `READING_BODY_CHUNKED_LENGTH`, `READING_BODY_CHUNKED_TERMINATOR` and
`READING_TRAILER_HEADERS`. -/
theorem pending_buffer_invariant {F : Type} (impl : Impl F) :
    (∀ buffer data, (read_line buffer data).found = true →
      (read_line buffer data).buffer = []) ∧
    (∀ s, Reachable impl s →
      (s.parser_status = READING_BODY ∨ s.parser_status = READING_BODY_CHUNKED ∨
        s.parser_status = COMPLETED) → s.buffer = []) ∧
    (∀ s, Reachable impl s → s.buffer ≠ [] →
      s.parser_status = NOT_STARTED ∨ s.parser_status = READING_HEADERS ∨
      s.parser_status = READING_BODY_CHUNKED_LENGTH ∨
      s.parser_status = READING_BODY_CHUNKED_TERMINATOR ∨
      s.parser_status = READING_TRAILER_HEADERS) := by
  refine ⟨read_line_found_buffer, fun s hs => reachable_inv impl s hs, ?_⟩
  intro s hs hne
  have hinv := reachable_inv impl s hs
  cases hst : s.parser_status with
  | NOT_STARTED => simp
  | READING_HEADERS => simp
  | READING_BODY => exact absurd (hinv (Or.inl hst)) hne
  | READING_BODY_CHUNKED_LENGTH => simp
  | READING_BODY_CHUNKED => exact absurd (hinv (Or.inr (Or.inl hst))) hne
  | READING_BODY_CHUNKED_TERMINATOR => simp
  | READING_TRAILER_HEADERS => simp
  | COMPLETED => exact absurd (hinv (Or.inr (Or.inr hst))) hne

theorem pending_buffer_invariant_witness :
    (⟨NOT_STARTED, ⟨⟨0, []⟩, [], []⟩, 0, bytes "HTTP/1.1 200 OK\r"⟩ :
        Parser ResponseFirst).parser_status = NOT_STARTED ∨
      (⟨NOT_STARTED, ⟨⟨0, []⟩, [], []⟩, 0, bytes "HTTP/1.1 200 OK\r"⟩ :
        Parser ResponseFirst).parser_status = READING_HEADERS ∨
      (⟨NOT_STARTED, ⟨⟨0, []⟩, [], []⟩, 0, bytes "HTTP/1.1 200 OK\r"⟩ :
        Parser ResponseFirst).parser_status = READING_BODY_CHUNKED_LENGTH ∨
      (⟨NOT_STARTED, ⟨⟨0, []⟩, [], []⟩, 0, bytes "HTTP/1.1 200 OK\r"⟩ :
        Parser ResponseFirst).parser_status = READING_BODY_CHUNKED_TERMINATOR ∨
      (⟨NOT_STARTED, ⟨⟨0, []⟩, [], []⟩, 0, bytes "HTTP/1.1 200 OK\r"⟩ :
        Parser ResponseFirst).parser_status = READING_TRAILER_HEADERS :=
  (pending_buffer_invariant ResponseParser).2.2
    ⟨NOT_STARTED, ⟨⟨0, []⟩, [], []⟩, 0, bytes "HTTP/1.1 200 OK\r"⟩
    (Reachable.returned (fresh (⟨0, []⟩ : ResponseFirst)) _ (bytes "HTTP/1.1 200 OK\r") 2 16
      (Reachable.start (⟨0, []⟩ : ResponseFirst)) (by decide)) (by decide)

/-! ## The assertions of the body step and the body length -/

/-- C18 (failing input): the header block `Content-Length: 0` is accepted by the
header step; at the empty line the parser enters `READING_BODY` with
`expected_body_len = 0`, and the body step of the same pass fails
`assert(expected_body_len > 0)` (the pending-line buffer is empty there). -/
theorem body_step_assertion_fails :
    read ResponseParser 3 freshResponseParser (bytes "HTTP/1.1 200 OK\r\nContent-Length: 0\r\n") =
      some (.ok (zeroLengthHeader, 36)) ∧
    line_stage READING_HEADERS headers_body zeroLengthHeader (bytes "\r\n") =
      .ok ({ zeroLengthHeader with parser_status := READING_BODY }, []) ∧
    ({ zeroLengthHeader with parser_status := READING_BODY } : Parser ResponseFirst).buffer = [] ∧
    ({ zeroLengthHeader with parser_status := READING_BODY } :
      Parser ResponseFirst).expected_body_len = 0 ∧
    body_stage { zeroLengthHeader with parser_status := READING_BODY } [] =
      .error .assert_failed ∧
    read ResponseParser 1 zeroLengthHeader (bytes "\r\n") = some (.error .assert_failed) := by
  decide

/-- C15 (failing input): after a chunk of 2 bytes, a chunk-size line `ffffffffffffffff`
makes `expected_body_len += chunk_len` wrap to 1, so that `read` returns in
`READING_BODY_CHUNKED` with a body of 2 bytes and `expected_body_len = 1`, and
`expected_body_len - body.size()` wraps to `2^64 - 1`; after a chunk of 1 byte the same
line makes `expected_body_len` wrap to 0 and the next body step fails
`assert(expected_body_len > 0)`. -/
theorem body_length_overflow :
    read ResponseParser 5 freshResponseParser overflowingChunks =
      some (.ok (⟨READING_BODY_CHUNKED,
        ⟨⟨200, bytes "OK"⟩, [(bytes "Transfer-Encoding", bytes "chunked")], bytes "ab"⟩,
        1, []⟩, 72)) ∧
    ¬ ((bytes "ab").length ≤ 1) ∧
    (1 + SIZE - (bytes "ab").length % SIZE) % SIZE = SIZE - 1 ∧
    read ResponseParser 5 freshResponseParser
        (bytes "HTTP/1.1 200 OK\r\nTransfer-Encoding: chunked\r\n\r\n1\r\na\r\nffffffffffffffff\r\nX") =
      some (.error .assert_failed) := by
  decide

/-! ## The router -/

theorem mapFind_mapSet_self {α : Type} (k : List Nat) (v : α) (l : List (List Nat × α)) :
    mapFind k (mapSet k v l) = some v := by
  induction l with
  | nil => simp [mapSet, mapFind]
  | cons x rest ih =>
    obtain ⟨k', v'⟩ := x
    by_cases hk : k' = k
    · simp [mapSet, mapFind, hk]
    · simp [mapSet, mapFind, hk, ih]

theorem mapFind_append_self {α : Type} (k : List Nat) (v : α) (l : List (List Nat × α)) :
    (mapFind k (l ++ [(k, v)])).isSome = true := by
  induction l with
  | nil => simp [mapFind]
  | cons x rest ih =>
    obtain ⟨k', v'⟩ := x
    by_cases hk : k' = k
    · simp [mapFind, hk]
    · simpa [mapFind, hk] using ih

/-- A successful registration of a non-prefix route adds the handler to a node that
is not a prefix node. -/
theorem registerExact_ok {H : Type} {m : List Nat} {h : H} {n n' : Node H}
    (hok : registerExact m h n = .ok n') :
    n' = .mk false (n.methods ++ [(m, h)]) n.children n.param := by
  unfold registerExact at hok
  split at hok
  · cases hok
  · split at hok
    · cases hok
    · cases hok; rfl

/-- A successful registration of a prefix route makes the node a prefix node with the
handler added. -/
theorem registerPrefix_ok {H : Type} {m : List Nat} {h : H} {n n' : Node H}
    (hok : registerPrefix m h n = .ok n') :
    n' = .mk true (n.methods ++ [(m, h)]) n.children n.param := by
  unfold registerPrefix at hok
  split at hok
  · cases hok
  · split at hok
    · cases hok
    · cases hok; rfl

/-- A registration that went through a segment that is not the final `*` went on in a
child, and a later registration through the same segment fails when it fails in that
child. -/
theorem addAt_descend {H : Type} {m : List Nat} {h1 : H} {seg : List Nat}
    {rest : List (List Nat)} {n n' : Node H} (hns : ¬(seg = [42] ∧ rest = []))
    (hok : addAt m h1 (seg :: rest) n = .ok n') :
    ∃ child c, addAt m h1 rest child = .ok c ∧
      ∀ (m2 : List Nat) (h2 : H) (rest2 : List (List Nat)) (e : RouteErr),
        ¬(seg = [42] ∧ rest2 = []) → addAt m2 h2 rest2 c = .error e →
          addAt m2 h2 (seg :: rest2) n' = .error e := by
  rw [addAt, if_neg hns] at hok
  split at hok
  · cases hok
  · rename_i hw
    split at hok
    · rename_i hcolon
      split at hok
      · rename_i name child hp
        split at hok
        · rename_i hname
          split at hok
          · rename_i c hc
            cases hok
            refine ⟨child, c, hc, ?_⟩
            intro m2 h2 rest2 e hns2 he
            rw [addAt, if_neg hns2]
            simp only [Node.wildcard, Node.param, Node.methods, Node.children] at hw ⊢
            simp only [hw, hcolon, hname, he]
            simp
          · cases hok
        · cases hok
      · rename_i hp
        split at hok
        · rename_i c hc
          cases hok
          refine ⟨Node.new, c, hc, ?_⟩
          intro m2 h2 rest2 e hns2 he
          rw [addAt, if_neg hns2]
          simp only [Node.wildcard, Node.param, Node.methods, Node.children] at hw ⊢
          simp only [hw, hcolon, he]
          simp
        · cases hok
    · rename_i hcolon
      split at hok
      · rename_i c hc
        cases hok
        refine ⟨_, c, hc, ?_⟩
        intro m2 h2 rest2 e hns2 he
        rw [addAt, if_neg hns2]
        simp only [Node.wildcard, Node.param, Node.methods, Node.children] at hw ⊢
        simp only [hw, hcolon, mapFind_mapSet_self, Option.getD_some, he]
        simp
      · cases hok

/-- The only error of a registration is `InvalidRouteError`. -/
theorem addAt_error {H : Type} (m : List Nat) (h : H) (segs : List (List Nat)) :
    ∀ (n : Node H) (e : RouteErr), addAt m h segs n = .error e → e = .InvalidRouteError := by
  intro n e
  cases e with
  | InvalidRouteError => intro _; rfl
  | MethodNotAllowed =>
    intro he
    exfalso
    induction segs generalizing n with
    | nil =>
      rw [addAt] at he
      unfold registerExact at he
      split at he
      · cases he
      · split at he <;> cases he
    | cons seg rest ih =>
      rw [addAt] at he
      split at he
      · unfold registerPrefix at he
        split at he
        · cases he
        · split at he <;> cases he
      · split at he
        · cases he
        · split at he
          · split at he
            · split at he
              · split at he
                · cases he
                · rename_i e he2
                  cases he
                  exact ih _ he2
              · cases he
            · split at he
              · cases he
              · rename_i e he2
                cases he
                exact ih _ he2
          · split at he
            · cases he
            · rename_i e he2
              cases he
              exact ih _ he2

/-- The second registration of a method on the same segments fails. -/
theorem addAt_duplicate {H : Type} (m : List Nat) (h1 h2 : H) (segs : List (List Nat)) :
    ∀ n n' : Node H, addAt m h1 segs n = .ok n' →
      addAt m h2 segs n' = .error .InvalidRouteError := by
  induction segs with
  | nil =>
    intro n n' hok
    rw [addAt] at hok ⊢
    rw [registerExact_ok hok]
    simp [registerExact, Node.wildcard, Node.methods, mapFind_append_self]
  | cons seg rest ih =>
    intro n n' hok
    by_cases hns : seg = [42] ∧ rest = []
    · rw [addAt, if_pos hns] at hok ⊢
      rw [registerPrefix_ok hok]
      simp [registerPrefix, Node.wildcard, Node.methods, mapFind_append_self]
    · obtain ⟨child, c, hc, hnext⟩ := addAt_descend hns hok
      exact hnext m h2 rest _ hns (ih child c hc)

/-- After a registration through a parameter segment, a registration that names the
parameter at that position differently fails. -/
theorem addAt_param_conflict {H : Type} (m1 m2 : List Nat) (h1 h2 : H)
    (name1 name2 : List Nat) (post1 post2 : List (List Nat)) (hne : name1 ≠ name2)
    (pre : List (List Nat)) :
    ∀ n n' : Node H, addAt m1 h1 (pre ++ (58 :: name1) :: post1) n = .ok n' →
      addAt m2 h2 (pre ++ (58 :: name2) :: post2) n' = .error .InvalidRouteError := by
  induction pre with
  | nil =>
    intro n n' hok
    have hns1 : ¬((58 :: name1) = [42] ∧ post1 = []) := by simp
    have hns2 : ¬((58 :: name2) = [42] ∧ post2 = []) := by simp
    rw [List.nil_append] at hok ⊢
    rw [addAt, if_neg hns1] at hok
    rw [addAt, if_neg hns2]
    split at hok
    · cases hok
    · rename_i hw
      simp only [List.head?_cons, if_true, List.tail_cons] at hok ⊢
      split at hok
      · rename_i name child hp
        split at hok
        · rename_i hname
          split at hok
          · cases hok
            simp only [Node.wildcard, Node.param] at hw ⊢
            simp [hw, hname, hne]
          · cases hok
        · cases hok
      · split at hok
        · cases hok
          simp only [Node.wildcard, Node.param] at hw ⊢
          simp [hw, hne]
        · cases hok
  | cons seg rest ih =>
    intro n n' hok
    have hns1 : ¬(seg = [42] ∧ rest ++ (58 :: name1) :: post1 = []) := by simp
    have hns2 : ¬(seg = [42] ∧ rest ++ (58 :: name2) :: post2 = []) := by simp
    rw [List.cons_append] at hok ⊢
    obtain ⟨child, c, hc, hnext⟩ := addAt_descend hns1 hok
    exact hnext m2 h2 _ _ hns2 (ih child c hc)

theorem getLast_tail {pre : List (List Nat)} {seg : List Nat}
    (h : (seg :: pre).getLast? ≠ some [42]) :
    ¬(seg = [42] ∧ pre = []) ∧ pre.getLast? ≠ some [42] := by
  cases pre with
  | nil =>
    refine ⟨?_, by simp⟩
    rintro ⟨h1, -⟩
    exact h (by simp [h1])
  | cons x xs =>
    refine ⟨by simp, ?_⟩
    rwa [List.getLast?_cons_cons] at h

/-- After the registration of a prefix route, a non-prefix registration on the same
path fails. -/
theorem addAt_exact_on_prefix {H : Type} (m1 m2 : List Nat) (h1 h2 : H)
    (pre : List (List Nat)) :
    ∀ n n' : Node H, pre.getLast? ≠ some [42] → addAt m1 h1 (pre ++ [[42]]) n = .ok n' →
      addAt m2 h2 pre n' = .error .InvalidRouteError := by
  induction pre with
  | nil =>
    intro n n' _ hok
    rw [List.nil_append, addAt, if_pos ⟨rfl, rfl⟩] at hok
    rw [registerPrefix_ok hok, addAt]
    simp [registerExact, Node.wildcard]
  | cons seg rest ih =>
    intro n n' hlast hok
    obtain ⟨hns2, hlast2⟩ := getLast_tail hlast
    have hns1 : ¬(seg = [42] ∧ rest ++ [[42]] = []) := by simp
    rw [List.cons_append] at hok
    obtain ⟨child, c, hc, hnext⟩ := addAt_descend hns1 hok
    exact hnext m2 h2 _ _ hns2 (ih child c hlast2 hc)

/-- After the registration of a non-prefix route, the registration of a prefix route
on the same path fails. -/
theorem addAt_prefix_on_exact {H : Type} (m1 m2 : List Nat) (h1 h2 : H)
    (pre : List (List Nat)) :
    ∀ n n' : Node H, pre.getLast? ≠ some [42] → addAt m1 h1 pre n = .ok n' →
      addAt m2 h2 (pre ++ [[42]]) n' = .error .InvalidRouteError := by
  induction pre with
  | nil =>
    intro n n' _ hok
    rw [addAt] at hok
    rw [registerExact_ok hok, List.nil_append, addAt, if_pos ⟨rfl, rfl⟩]
    simp [registerPrefix, Node.wildcard, Node.methods]
  | cons seg rest ih =>
    intro n n' hlast hok
    obtain ⟨hns1, hlast2⟩ := getLast_tail hlast
    have hns2 : ¬(seg = [42] ∧ rest ++ [[42]] = []) := by simp
    obtain ⟨child, c, hc, hnext⟩ := addAt_descend hns1 hok
    rw [List.cons_append]
    exact hnext m2 h2 _ _ hns2 (ih child c hlast2 hc)

/-- The step of `addAt` at a segment that is not the final `*`. -/
theorem addAt_cons_eq {H : Type} (m : List Nat) (h : H) (seg : List Nat)
    (rest : List (List Nat)) (n : Node H) (hns : ¬(seg = [42] ∧ rest = [])) :
    addAt m h (seg :: rest) n =
      match childFor seg n with
      | .error e => .error e
      | .ok child =>
        match addAt m h rest child with
        | .ok c => .ok (setChild seg c n)
        | .error e => .error e := by
  rw [addAt, if_neg hns]
  unfold childFor setChild
  by_cases hw : n.wildcard = true
  · simp [hw]
  · by_cases hc : seg.head? = some 58
    · cases hp : n.param with
      | none => simp [hw, hc]
      | some x =>
        obtain ⟨name, child⟩ := x
        by_cases hname : name = seg.tail
        · cases hr : addAt m h rest child <;> simp [hw, hc, hname, hr]
        · simp [hw, hc, hname]
    · cases hr : addAt m h rest ((mapFind seg n.children).getD Node.new) <;> simp [hw, hc, hr]

theorem mapFind_mapSet_ne {α : Type} {k k2 : List Nat} (hne : k ≠ k2) (v : α)
    (l : List (List Nat × α)) : mapFind k (mapSet k2 v l) = mapFind k l := by
  induction l with
  | nil => simp [mapSet, mapFind, Ne.symm hne]
  | cons x rest ih =>
    obtain ⟨k', v'⟩ := x
    by_cases hk : k' = k2
    · have hk' : ¬k' = k := fun h => hne (h.symm.trans hk)
      simp [mapSet, mapFind, hk, hk', Ne.symm hne]
    · by_cases hk' : k' = k
      · subst hk'
        simp [mapSet, mapFind, hne]
      · simp [mapSet, mapFind, hk, hk', ih]

theorem mapFind_append_mono {α : Type} (k : List Nat) (l l2 : List (List Nat × α))
    (h : (mapFind k l).isSome = true) : (mapFind k (l ++ l2)).isSome = true := by
  induction l with
  | nil => simp [mapFind] at h
  | cons x rest ih =>
    obtain ⟨k', v'⟩ := x
    by_cases hk : k' = k
    · simp [mapFind, hk]
    · simp only [mapFind, hk, if_false, List.cons_append] at h ⊢
      exact ih h

theorem mapSet_ne_nil {α : Type} (k : List Nat) (v : α) (l : List (List Nat × α)) :
    mapSet k v l ≠ [] := by
  cases l with
  | nil => simp [mapSet]
  | cons x rest =>
    obtain ⟨k', v'⟩ := x
    by_cases hk : k' = k <;> simp [mapSet, hk]

/-- A non-prefix registration fails exactly at a prefix node or when the method has a
handler there. -/
theorem registerExact_error_iff {H : Type} (m : List Nat) (h : H) (n : Node H) :
    (∃ e, registerExact m h n = .error e) ↔
      (n.wildcard = true ∨ (mapFind m n.methods).isSome = true) := by
  unfold registerExact
  by_cases hw : n.wildcard = true
  · simp [hw]
  · by_cases hm : (mapFind m n.methods).isSome = true
    · simp [hw, hm]
    · simp [hw, hm]

theorem registerExact_error {H : Type} (m : List Nat) (h : H) (n : Node H)
    (hc : n.wildcard = true ∨ (mapFind m n.methods).isSome = true) :
    registerExact m h n = .error .InvalidRouteError := by
  unfold registerExact
  by_cases hw : n.wildcard = true
  · simp [hw]
  · rcases hc with hc | hc
    · exact absurd hc hw
    · simp [hw, hc]

/-- A prefix registration fails exactly at a node that is not a prefix node and holds
something, or when the method has a handler there. -/
theorem registerPrefix_error_iff {H : Type} (m : List Nat) (h : H) (n : Node H) :
    (∃ e, registerPrefix m h n = .error e) ↔
      ((n.wildcard = false ∧ (n.methods ≠ [] ∨ n.children ≠ [] ∨ n.param ≠ none)) ∨
        (mapFind m n.methods).isSome = true) := by
  unfold registerPrefix
  by_cases hw : n.wildcard = true
  · by_cases hm : (mapFind m n.methods).isSome = true
    · simp [hw, hm]
    · simp [hw, hm]
  · have hw' : n.wildcard = false := by simpa using hw
    by_cases hne : (n.methods ≠ [] ∨ n.children ≠ [] ∨ n.param ≠ none)
    · have : (!n.methods.isEmpty || !n.children.isEmpty || n.param.isSome) = true := by
        rcases hne with h1 | h1 | h1
        · cases hms : n.methods with
          | nil => exact absurd hms h1
          | cons a b => simp
        · cases hms : n.children with
          | nil => exact absurd hms h1
          | cons a b => simp
        · cases hms : n.param with
          | none => exact absurd hms h1
          | some a => simp
      simp [hw', this, hne]
    · have h0 : n.methods = [] ∧ n.children = [] ∧ n.param = none := by
        by_contra hcon
        apply hne
        by_cases h1 : n.methods = []
        · by_cases h2 : n.children = []
          · by_cases h3 : n.param = none
            · exact absurd ⟨h1, h2, h3⟩ hcon
            · exact Or.inr (Or.inr h3)
          · exact Or.inr (Or.inl h2)
        · exact Or.inl h1
      obtain ⟨h1, h2, h3⟩ := h0
      simp [hw', h1, h2, h3, mapFind]

theorem registerPrefix_error {H : Type} (m : List Nat) (h : H) (n : Node H)
    (hc : (n.wildcard = false ∧ (n.methods ≠ [] ∨ n.children ≠ [] ∨ n.param ≠ none)) ∨
        (mapFind m n.methods).isSome = true) :
    registerPrefix m h n = .error .InvalidRouteError := by
  obtain ⟨e, he⟩ := (registerPrefix_error_iff m h n).2 hc
  cases e with
  | InvalidRouteError => exact he
  | MethodNotAllowed =>
    exfalso
    unfold registerPrefix at he
    split at he
    · cases he
    · split at he <;> cases he

theorem setChild_wildcard {H : Type} (seg : List Nat) (c n : Node H) :
    (setChild seg c n).wildcard = n.wildcard := by
  unfold setChild
  split <;> rfl

theorem setChild_methods {H : Type} (seg : List Nat) (c n : Node H) :
    (setChild seg c n).methods = n.methods := by
  unfold setChild
  split <;> rfl

theorem setChild_holds {H : Type} (seg : List Nat) (c n : Node H) :
    (setChild seg c n).children ≠ [] ∨ (setChild seg c n).param ≠ none := by
  unfold setChild
  split
  · right; simp [Node.param]
  · left; simpa [Node.children] using mapSet_ne_nil seg c n.children

/-- The child entered for a segment after the child for a segment was replaced: an
error stays an error; a child is the replacement, or the child it was. -/
theorem childFor_setChild {H : Type} (seg seg2 : List Nat) (c child2 n : Node H)
    (h2 : childFor seg2 n = .ok child2) :
    (∀ e, childFor seg n = .error e →
      childFor seg (setChild seg2 c n) = .error .InvalidRouteError) ∧
    (∀ child, childFor seg n = .ok child →
      childFor seg (setChild seg2 c n) = .error .InvalidRouteError ∨
      childFor seg (setChild seg2 c n) = .ok child ∨
      (child = child2 ∧ childFor seg (setChild seg2 c n) = .ok c)) := by
  cases n with
  | mk w ms cs p =>
  simp only [childFor, setChild, Node.wildcard, Node.param, Node.children] at h2 ⊢
  cases w with
  | true => simp at h2
  | false =>
    simp only [Bool.false_eq_true, if_false] at h2 ⊢
    by_cases hc2 : seg2.head? = some 58
    · simp only [hc2, if_true] at h2 ⊢
      simp only [Node.wildcard, Node.param, Bool.false_eq_true, if_false]
      by_cases hc : seg.head? = some 58
      · simp only [hc, if_true]
        cases p with
        | none =>
          simp only at h2 ⊢
          cases h2
          by_cases ht : seg2.tail = seg.tail
          · simp [ht]
          · simp [ht]
        | some x =>
          obtain ⟨name, ch⟩ := x
          simp only at h2 ⊢
          by_cases hn2 : name = seg2.tail
          · simp only [hn2, if_true] at h2 ⊢
            cases h2
            by_cases ht : seg2.tail = seg.tail
            · simp [ht]
            · simp [ht]
          · simp [hn2] at h2
      · simp [hc, Node.children]
    · simp only [hc2, if_false] at h2 ⊢
      simp only [Node.wildcard, Node.param, Node.children, Bool.false_eq_true, if_false]
      by_cases hc : seg.head? = some 58
      · simp only [hc, if_true]
        cases p with
        | none => simp
        | some x =>
          obtain ⟨name, ch⟩ := x
          by_cases hn : name = seg.tail
          · simp [hn]
          · simp [hn]
      · simp only [hc, if_false]
        by_cases hs : seg = seg2
        · subst hs
          cases h2
          simp [mapFind_mapSet_self]
        · simp [mapFind_mapSet_ne hs]

theorem childFor_ok_wildcard {H : Type} {seg : List Nat} {n child : Node H}
    (h : childFor seg n = .ok child) : n.wildcard = false := by
  unfold childFor at h
  by_cases hw : n.wildcard = true
  · simp [hw] at h
  · simpa using hw

theorem childFor_new {H : Type} (seg : List Nat) :
    childFor seg (Node.new : Node H) = .ok Node.new := by
  unfold childFor
  by_cases hc : seg.head? = some 58
  · simp [hc, Node.new, Node.wildcard, Node.param]
  · simp [hc, Node.new, Node.wildcard, Node.children, mapFind]

theorem childFor_congr {H : Type} {seg : List Nat} {n n' : Node H}
    (hw : n'.wildcard = n.wildcard) (hc : n'.children = n.children)
    (hp : n'.param = n.param) : childFor seg n' = childFor seg n := by
  unfold childFor
  rw [hw, hc, hp]

/-- A registration at a new node succeeds. -/
theorem addAt_new_ok {H : Type} (m : List Nat) (h : H) (segs : List (List Nat)) :
    ∃ c, addAt m h segs (Node.new : Node H) = .ok c := by
  induction segs with
  | nil => exact ⟨_, rfl⟩
  | cons seg rest ih =>
    by_cases hns : seg = [42] ∧ rest = []
    · rw [addAt, if_pos hns]
      exact ⟨_, rfl⟩
    · obtain ⟨c, hc⟩ := ih
      rw [addAt_cons_eq _ _ _ _ _ hns, childFor_new]
      simp only [hc]
      exact ⟨_, rfl⟩

/-- The three ways in which a registration succeeds. -/
theorem addAt_ok_cases {H : Type} {m2 : List Nat} {h2 : H} {segs2 : List (List Nat)}
    {n n' : Node H} (hok : addAt m2 h2 segs2 n = .ok n') :
    (segs2 = [] ∧ n.wildcard = false ∧
      n' = .mk false (n.methods ++ [(m2, h2)]) n.children n.param) ∨
    (segs2 = [[42]] ∧
      (n.wildcard = true ∨ (n.methods = [] ∧ n.children = [] ∧ n.param = none)) ∧
      n' = .mk true (n.methods ++ [(m2, h2)]) n.children n.param) ∨
    (∃ seg2 rest2 child2 c, segs2 = seg2 :: rest2 ∧ ¬(seg2 = [42] ∧ rest2 = []) ∧
      childFor seg2 n = .ok child2 ∧ addAt m2 h2 rest2 child2 = .ok c ∧
      n' = setChild seg2 c n) := by
  cases segs2 with
  | nil =>
    rw [addAt] at hok
    refine Or.inl ⟨rfl, ?_, registerExact_ok hok⟩
    by_contra hw
    have hw' : n.wildcard = true := by simpa using hw
    rw [registerExact_error m2 h2 n (Or.inl hw')] at hok
    cases hok
  | cons seg rest =>
    by_cases hns : seg = [42] ∧ rest = []
    · obtain ⟨rfl, rfl⟩ := hns
      rw [addAt, if_pos ⟨rfl, rfl⟩] at hok
      refine Or.inr (Or.inl ⟨rfl, ?_, registerPrefix_ok hok⟩)
      by_contra hcon
      have hw : n.wildcard = false := by
        by_contra hw
        exact hcon (Or.inl (by simpa using hw))
      have hne : n.methods ≠ [] ∨ n.children ≠ [] ∨ n.param ≠ none := by
        by_contra hne
        apply hcon
        right
        by_cases h1 : n.methods = []
        · by_cases h2 : n.children = []
          · by_cases h3 : n.param = none
            · exact ⟨h1, h2, h3⟩
            · exact absurd (Or.inr (Or.inr h3)) hne
          · exact absurd (Or.inr (Or.inl h2)) hne
        · exact absurd (Or.inl h1) hne
      rw [registerPrefix_error m2 h2 n (Or.inl ⟨hw, hne⟩)] at hok
      cases hok
    · rw [addAt_cons_eq _ _ _ _ _ hns] at hok
      cases hcf : childFor seg n with
      | error e1 =>
        rw [hcf] at hok
        cases hok
      | ok child =>
        rw [hcf] at hok
        cases hr : addAt m2 h2 rest child with
        | error e1 =>
          simp only [hr] at hok
          cases hok
        | ok c =>
          simp only [hr] at hok
          cases hok
          exact Or.inr (Or.inr ⟨seg, rest, child, c, rfl, hns, hcf, hr, rfl⟩)

/-- A registration that fails keeps failing after any successful registration. -/
theorem addAt_error_mono {H : Type} (m : List Nat) (h : H) (segs : List (List Nat)) :
    ∀ (segs2 : List (List Nat)) (n n' : Node H) (m2 : List Nat) (h2 : H) (e : RouteErr),
      addAt m h segs n = .error e → addAt m2 h2 segs2 n = .ok n' →
        addAt m h segs n' = .error .InvalidRouteError := by
  induction segs with
  | nil =>
    intro segs2 n n' m2 h2 e he hok
    rw [addAt] at he ⊢
    have hc := (registerExact_error_iff m h n).1 ⟨e, he⟩
    apply registerExact_error
    rcases addAt_ok_cases hok with ⟨-, hw, rfl⟩ | ⟨-, -, rfl⟩ |
      ⟨seg2, rest2, child2, c, -, -, hch, -, rfl⟩
    · rcases hc with hc | hc
      · rw [hw] at hc
        cases hc
      · exact Or.inr (mapFind_append_mono _ _ _ hc)
    · exact Or.inl rfl
    · rw [setChild_wildcard, setChild_methods]
      rcases hc with hc | hc
      · rw [childFor_ok_wildcard hch] at hc
        cases hc
      · exact Or.inr hc
  | cons seg rest ih =>
    intro segs2 n n' m2 h2 e he hok
    by_cases hns : seg = [42] ∧ rest = []
    · rw [addAt, if_pos hns] at he ⊢
      have hc := (registerPrefix_error_iff m h n).1 ⟨e, he⟩
      apply registerPrefix_error
      rcases addAt_ok_cases hok with ⟨-, hw, rfl⟩ | ⟨-, hemp, rfl⟩ |
        ⟨seg2, rest2, child2, c, -, -, hch, -, rfl⟩
      · exact Or.inl ⟨rfl, Or.inl (by simp [Node.methods])⟩
      · right
        rcases hc with ⟨hw, hne⟩ | hc
        · rcases hemp with hw2 | ⟨h1, h2, h3⟩
          · rw [hw] at hw2
            cases hw2
          · rcases hne with h | h | h
            · exact absurd h1 h
            · exact absurd h2 h
            · exact absurd h3 h
        · exact mapFind_append_mono _ _ _ hc
      · refine Or.inl ⟨?_, Or.inr (setChild_holds _ _ _)⟩
        rw [setChild_wildcard]
        exact childFor_ok_wildcard hch
    · have hE := addAt_error m h _ n e he
      subst hE
      rw [addAt_cons_eq _ _ _ _ _ hns] at he ⊢
      rcases addAt_ok_cases hok with ⟨-, hw, rfl⟩ | ⟨-, hemp, rfl⟩ |
        ⟨seg2, rest2, child2, c, -, -, hch, hrest, rfl⟩
      · have hsame : childFor seg (.mk false (n.methods ++ [(m2, h2)]) n.children n.param) =
            childFor seg n := childFor_congr hw.symm rfl rfl
        rw [hsame]
        cases hcf : childFor seg n with
        | error e1 =>
          rw [hcf] at he
          exact he
        | ok child =>
          rw [hcf] at he
          cases hr : addAt m h rest child with
          | ok c1 =>
            simp only [hr] at he
            cases he
          | error e1 =>
            simp only [hr] at he ⊢
            exact he
      · have herr : childFor seg (.mk true (n.methods ++ [(m2, h2)]) n.children n.param) =
            .error .InvalidRouteError := by
          unfold childFor
          simp [Node.wildcard]
        rw [herr]
      · have hcs := childFor_setChild seg seg2 c child2 n hch
        cases hcf : childFor seg n with
        | error e1 => rw [hcs.1 e1 hcf]
        | ok child =>
          rw [hcf] at he
          cases hr : addAt m h rest child with
          | ok c1 =>
            simp only [hr] at he
            cases he
          | error e1 =>
            have hE1 := addAt_error m h _ child e1 hr
            subst hE1
            rcases hcs.2 child hcf with h1 | h1 | ⟨heq, h1⟩
            · rw [h1]
            · rw [h1]
              simp only [hr]
            · subst heq
              rw [h1]
              have hnext := ih rest2 child c m2 h2 _ hr hrest
              simp only [hnext]

theorem add_of_error {H : Type} (decode : List Nat → List Nat) (r : Router H)
    (m p : List Nat) (h : H) (e : RouteErr)
    (he : addAt m h (get_parts decode p) r.root = .error e) :
    Router.add decode r m p h = (r, some e) := by
  unfold Router.add
  rw [he]

theorem add_of_ok {H : Type} (decode : List Nat → List Nat) (r : Router H)
    (m p : List Nat) (h : H) (root : Node H)
    (hok : addAt m h (get_parts decode p) r.root = .ok root) :
    Router.add decode r m p h = (⟨root⟩, none) := by
  unfold Router.add
  rw [hok]

/-- A registration that fails right after the registration of a route fails in every
router built later. -/
theorem built_conflict {H : Type} {decode : List Nat → List Nat} {r : Router H}
    {t : List (List Nat × List Nat)} (hb : Built decode r t) (m1 p1 : List Nat)
    (hin : (m1, p1) ∈ t) (m2 : List Nat) (segs2 : List (List Nat)) (h2 : H)
    (himm : ∀ (h1 : H) (n n' : Node H), addAt m1 h1 (get_parts decode p1) n = .ok n' →
      addAt m2 h2 segs2 n' = .error .InvalidRouteError) :
    addAt m2 h2 segs2 r.root = .error .InvalidRouteError := by
  induction hb with
  | new => cases hin
  | add r t m p h _ ih =>
    cases hres : addAt m h (get_parts decode p) r.root with
    | error e =>
      rw [add_of_error decode r m p h e hres] at hin ⊢
      exact ih (by simpa using hin)
    | ok root =>
      rw [add_of_ok decode r m p h root hres] at hin ⊢
      simp only [if_true, List.mem_cons] at hin
      rcases hin with heq | hin
      · cases heq
        exact himm h r.root root hres
      · exact addAt_error_mono m2 h2 segs2 _ r.root root m h _ (ih hin) hres

/-- C16: `Router::add` is atomic on failure.  For a router built from the empty one by
calls of `add`, `t` being the method and path pairs registered with success: a call of
`add` that raises an error raises `InvalidRouteError` and leaves the router, hence the
result of every `get`, as it was; and `add` raises `InvalidRouteError` for a pair that
is registered already, for a path that names a parameter differently from a registered
path at the same position, for a non-prefix path that is registered as a prefix route,
and for a prefix route on a path that is registered as a non-prefix route. -/
theorem add_atomic_on_failure {H : Type} (decode : List Nat → List Nat) (r : Router H)
    (t : List (List Nat × List Nat)) (hb : Built decode r t) (method path : List Nat)
    (handler : H) :
    (∀ e, (Router.add decode r method path handler).2 = some e →
      e = .InvalidRouteError ∧ (Router.add decode r method path handler).1 = r ∧
      ∀ m p, Router.get decode (Router.add decode r method path handler).1 m p =
        Router.get decode r m p) ∧
    ((method, path) ∈ t →
      (Router.add decode r method path handler).2 = some .InvalidRouteError) ∧
    (∀ m1 p1 pre name1 name2 post1 post2, (m1, p1) ∈ t →
      get_parts decode p1 = pre ++ (58 :: name1) :: post1 →
      get_parts decode path = pre ++ (58 :: name2) :: post2 → name1 ≠ name2 →
      (Router.add decode r method path handler).2 = some .InvalidRouteError) ∧
    (∀ m1 p1, (m1, p1) ∈ t → (get_parts decode path).getLast? ≠ some [42] →
      get_parts decode p1 = get_parts decode path ++ [[42]] →
      (Router.add decode r method path handler).2 = some .InvalidRouteError) ∧
    (∀ m1 p1, (m1, p1) ∈ t → (get_parts decode p1).getLast? ≠ some [42] →
      get_parts decode path = get_parts decode p1 ++ [[42]] →
      (Router.add decode r method path handler).2 = some .InvalidRouteError) := by
  refine ⟨?_, ?_, ?_, ?_, ?_⟩
  · intro e he
    cases hres : addAt method handler (get_parts decode path) r.root with
    | error e1 =>
      rw [add_of_error decode r method path handler e1 hres] at he ⊢
      cases he
      exact ⟨addAt_error method handler _ r.root e hres, rfl, fun _ _ => rfl⟩
    | ok root =>
      rw [add_of_ok decode r method path handler root hres] at he
      cases he
  · intro hin
    rw [add_of_error decode r method path handler _
      (built_conflict hb method path hin method _ handler
        (fun h1 n n' hok => addAt_duplicate method h1 handler _ n n' hok))]
  · intro m1 p1 pre name1 name2 post1 post2 hin hp1 hp2 hne
    rw [add_of_error decode r method path handler _
      (built_conflict hb m1 p1 hin method _ handler (fun h1 n n' hok => by
        rw [hp1] at hok
        rw [hp2]
        exact addAt_param_conflict m1 method h1 handler name1 name2 post1 post2 hne pre
          n n' hok))]
  · intro m1 p1 hin hlast hp1
    rw [add_of_error decode r method path handler _
      (built_conflict hb m1 p1 hin method _ handler (fun h1 n n' hok => by
        rw [hp1] at hok
        exact addAt_exact_on_prefix m1 method h1 handler _ n n' hlast hok))]
  · intro m1 p1 hin hlast hp2
    rw [add_of_error decode r method path handler _
      (built_conflict hb m1 p1 hin method _ handler (fun h1 n n' hok => by
        rw [hp2]
        exact addAt_prefix_on_exact m1 method h1 handler _ n n' hlast hok))]

theorem siteRouter_built :
    Built id siteRouter [(bytes "GET", bytes "/assets/*"), (bytes "GET", bytes "/profiles/:id")] :=
  Built.add _ _ (bytes "GET") (bytes "/assets/*") 2
    (Built.add Router.new [] (bytes "GET") (bytes "/profiles/:id") 1 Built.new)

theorem add_atomic_on_failure_witness :
    Built id siteRouter [(bytes "GET", bytes "/assets/*"), (bytes "GET", bytes "/profiles/:id")] ∧
    ((Router.add id siteRouter (bytes "GET") (bytes "/profiles/:id") 3).2 =
        some .InvalidRouteError ∧
      (Router.add id siteRouter (bytes "GET") (bytes "/profiles/:id") 3).1 = siteRouter ∧
      Router.get id (Router.add id siteRouter (bytes "GET") (bytes "/profiles/:id") 3).1
          (bytes "GET") (bytes "/profiles/55") =
        Router.get id siteRouter (bytes "GET") (bytes "/profiles/55")) ∧
    (Router.add id siteRouter (bytes "POST") (bytes "/profiles/:pid/avatar") 3).2 =
      some .InvalidRouteError ∧
    (Router.add id siteRouter (bytes "POST") (bytes "/assets") 3).2 =
      some .InvalidRouteError ∧
    (Router.add id siteRouter (bytes "POST") (bytes "/profiles/:id/*") 3).2 =
      some .InvalidRouteError :=
  ⟨siteRouter_built,
    ⟨(add_atomic_on_failure id siteRouter _ siteRouter_built (bytes "GET")
        (bytes "/profiles/:id") 3).2.1 (by decide),
      ((add_atomic_on_failure id siteRouter _ siteRouter_built (bytes "GET")
        (bytes "/profiles/:id") 3).1 .InvalidRouteError (by decide)).2.1,
      ((add_atomic_on_failure id siteRouter _ siteRouter_built (bytes "GET")
        (bytes "/profiles/:id") 3).1 .InvalidRouteError (by decide)).2.2 _ _⟩,
    (add_atomic_on_failure id siteRouter _ siteRouter_built (bytes "POST")
      (bytes "/profiles/:pid/avatar") 3).2.2.1 (bytes "GET") (bytes "/profiles/:id")
      [bytes "profiles"] (bytes "id") (bytes "pid") [] [bytes "avatar"]
      (by decide) (by decide) (by decide) (by decide),
    (add_atomic_on_failure id siteRouter _ siteRouter_built (bytes "POST")
      (bytes "/assets") 3).2.2.2.1 (bytes "GET") (bytes "/assets/*")
      (by decide) (by decide) (by decide),
    (add_atomic_on_failure id siteRouter _ siteRouter_built (bytes "POST")
      (bytes "/profiles/:id/*") 3).2.2.2.2 (bytes "GET") (bytes "/profiles/:id")
      (by decide) (by decide) (by decide)⟩

/-- C17: `Router::get` tells a prefix match, a method that is not allowed and a path
that is not found apart.  With `url_decode` leaving the segments `assets` and `*` as
they are: `add("GET", "/assets/*", h)` on the empty router succeeds, after which
`get("GET", "/assets/app.js")` returns the handler `h` with no parameters and `get`
with any other method raises `MethodNotAllowed`; and for every router, method and path
such that the walk reaches no node, `get` returns without an error the empty
`MatchedRoute`, whose handler is null and which converts to false. -/
theorem get_outcomes {H : Type} (decode : List Nat → List Nat) (h : H)
    (hassets : decode (bytes "assets") = bytes "assets")
    (hstar : decode (bytes "*") = bytes "*") :
    (Router.add decode Router.new (bytes "GET") (bytes "/assets/*") h).2 = none ∧
    Router.get decode (Router.add decode Router.new (bytes "GET") (bytes "/assets/*") h).1
        (bytes "GET") (bytes "/assets/app.js") = .ok ⟨some h, []⟩ ∧
    (∀ m, m ≠ bytes "GET" →
      Router.get decode (Router.add decode Router.new (bytes "GET") (bytes "/assets/*") h).1
        m (bytes "/assets/app.js") = .error .MethodNotAllowed) ∧
    (∀ (r : Router H) (m p : List Nat), walk (get_parts decode p) r.root [] = none →
      Router.get decode r m p = .ok MatchedRoute.empty) ∧
    (MatchedRoute.empty : MatchedRoute H).handler = none ∧
    (MatchedRoute.empty : MatchedRoute H).toBool = false := by
  have hparts : get_parts decode (bytes "/assets/*") = [bytes "assets", bytes "*"] := by
    rw [← hassets, ← hstar]
    rfl
  have hparts2 : get_parts decode (bytes "/assets/app.js") =
      [bytes "assets", decode (bytes "app.js")] := by
    rw [← hassets]
    rfl
  have hadd : addAt (bytes "GET") h [bytes "assets", bytes "*"] (Router.new : Router H).root =
      .ok (.mk false [] [(bytes "assets", .mk true [(bytes "GET", h)] [] none)] none) := rfl
  have hrouter : Router.add decode Router.new (bytes "GET") (bytes "/assets/*") h =
      (⟨.mk false [] [(bytes "assets", .mk true [(bytes "GET", h)] [] none)] none⟩, none) := by
    unfold Router.add
    rw [hparts, hadd]
  refine ⟨by rw [hrouter], ?_, ?_, ?_, rfl, rfl⟩
  · rw [hrouter]
    unfold Router.get
    rw [hparts2]
    rfl
  · intro m hm
    rw [hrouter]
    unfold Router.get
    rw [hparts2]
    have hw : walk [bytes "assets", decode (bytes "app.js")]
        (Node.mk false [] [(bytes "assets", Node.mk true [(bytes "GET", h)] [] none)] none) [] =
        some (Node.mk true [(bytes "GET", h)] [] none, []) := rfl
    simp only [hw, Node.methods, mapFind, Ne.symm hm, if_false]
    rfl
  · intro r m p hnone
    unfold Router.get
    rw [hnone]

theorem get_outcomes_witness :
    Router.get id assetsRouter (bytes "GET") (bytes "/assets/app.js") = .ok ⟨some 7, []⟩ ∧
    Router.get id assetsRouter (bytes "POST") (bytes "/assets/app.js") =
      .error .MethodNotAllowed ∧
    Router.get id assetsRouter (bytes "GET") (bytes "/missing") = .ok MatchedRoute.empty :=
  ⟨(get_outcomes id 7 rfl rfl).2.1,
    (get_outcomes id 7 rfl rfl).2.2.1 (bytes "POST") (by decide),
    (get_outcomes id 7 rfl rfl).2.2.2.1 assetsRouter (bytes "GET") (bytes "/missing") rfl⟩

end http
